import Mathlib

/-!
# CQUIZGAME: quiz session engine

A shallow embedding of the quiz session engine of `quiz.c` (the variant with a
player history) and `main.c` (the simpler variant): the question filter, the
shuffles, the timed per-question loop, the scoring and the player-history upsert;
and of the question repository behind it: adding, editing and deleting questions,
saving and loading.

Conventions of the embedding.
* C `int` values that the program only compares or adds in a small range
  (scores, indices, difficulty tags) are `Int`, so overflow of `score` is not
  modelled; the `Uint32` tick counter is a `Nat`, reduced modulo `2^32` where the
  source subtracts it.
* Fixed-size C arrays are lists of slots; a counter next to the list
  (`total_questions`, `total_players`) says how many slots are in use.
* The environment (SDL events, the tick source, `rand`) is explicit input.
-/

namespace Quiz

/-! ## Constants shared by `quiz.c` and `main.c` -/

def SCREEN_WIDTH : Int := 800
def MAX_QUESTIONS : Nat := 100
def MAX_OPTIONS : Nat := 4
def MAX_PLAYERS : Nat := 100
def QUESTIONS_PER_LEVEL : Nat := 10
def QUESTION_TIME : Int := 30
def DIFFICULTY_EASY : Int := 0
def DIFFICULTY_MEDIUM : Int := 1
def DIFFICULTY_HARD : Int := 2

/-! ## Data model -/

/-- The `Question` struct: prompt, the four option strings, the index of the
correct option and the difficulty tag. -/
structure Question where
  question : String
  options : List String
  correct_option : Int
  difficulty : Int
  deriving DecidableEq, Repr

/-- A zero-initialised slot, as in `GameState game = {0}`. -/
instance : Inhabited Question := ⟨⟨"", ["", "", "", ""], 0, 0⟩⟩

/-- The array `int scores[3]`: one slot per difficulty. -/
structure Scores where
  s0 : Int
  s1 : Int
  s2 : Int
  deriving DecidableEq, Repr

/-- Read `scores[d]`; an index outside `0..2` is outside the array and reads `0` here. -/
def Scores.get (s : Scores) (d : Int) : Int :=
  if d = 0 then s.s0 else if d = 1 then s.s1 else if d = 2 then s.s2 else 0

/-- Write `scores[d] = v`; an index outside `0..2` leaves the array as it is here. -/
def Scores.set (s : Scores) (d : Int) (v : Int) : Scores :=
  if d = 0 then { s with s0 := v }
  else if d = 1 then { s with s1 := v }
  else if d = 2 then { s with s2 := v }
  else s

instance : Inhabited Scores := ⟨⟨0, 0, 0⟩⟩

/-- The `Player` struct of `quiz.c`. -/
structure Player where
  name : String
  scores : Scores
  deriving DecidableEq, Repr

instance : Inhabited Player := ⟨⟨"", default⟩⟩

/-! ## Shuffles -/

/-- The three-assignment swap `temp = q[i]; q[i] = q[j]; q[j] = temp`.  Indices outside
the list (undefined in C) leave it unchanged. -/
def swap {α : Type} (qs : List α) (i j : Nat) : List α :=
  match qs[i]?, qs[j]? with
  | some a, some b => (qs.set i b).set j a
  | _, _ => qs

end Quiz

namespace QuizC
open Quiz

/-- The loop of `shuffle_questions` in `quiz.c`, entered with loop variable `i`;
`k` counts the calls of `rand()` made so far. -/
def shuffle_loop {α : Type} (rand : Nat → Nat) : Nat → Nat → List α → List α
  | 0, _, qs => qs
  | i + 1, k, qs => shuffle_loop rand i (k + 1) (swap qs (i + 1) (rand k % (i + 1 + 1)))

/-- Function `shuffle_questions(questions, count)` of `quiz.c`: `for (i = count - 1; i > 0; i--)`
swap position `i` with `rand() % (i + 1)`.  `rand k` is the value of the `k`-th call. -/
def shuffle_questions {α : Type} (questions : List α) (count : Nat) (rand : Nat → Nat) : List α :=
  shuffle_loop rand (count - 1) 0 questions

end QuizC

namespace MainC
open Quiz

/-- The loop of `shuffle_questions` in `main.c`: `n` iterations remain, the loop
variable is `i`. -/
def shuffle_loop {α : Type} (rand : Nat → Nat) (count : Nat) : Nat → Nat → List α → List α
  | 0, _, qs => qs
  | n + 1, i, qs => shuffle_loop rand count n (i + 1) (swap qs i (rand i % count))

/-- Function `shuffle_questions(questions, count)` of `main.c`: `for (i = 0; i < count; i++)`
swap position `i` with `rand() % count`. -/
def shuffle_questions {α : Type} (questions : List α) (count : Nat) (rand : Nat → Nat) : List α :=
  shuffle_loop rand count count 0 questions

end MainC

namespace Quiz

/-! ## Environment: events, frames, timer -/

/-- What `SDL_PollEvent` can hand to the quiz loop: `SDL_QUIT`, a
`SDL_MOUSEBUTTONDOWN` together with the position `SDL_GetMouseState` reports while
it is handled, or an event of another type. -/
inductive Event where
  | quit
  | mouseDown (x y : Int)
  | other
  deriving DecidableEq, Repr

/-- One iteration of the question loop as the environment sees it: the tick value
read at the top, and the events the drain `while (SDL_PollEvent(&event))` returns. -/
structure Frame where
  now : Nat
  events : List Event
  deriving DecidableEq, Repr

/-- The environment of one question: the tick value stored in `question_start_time`
and the frames that follow. -/
structure QuestionInput where
  start : Nat
  frames : List Frame
  deriving DecidableEq, Repr

/-- Function `is_button_clicked`: the point lies in the closed rectangle of the button. -/
def is_button_clicked (mouse_x mouse_y btn_x btn_y btn_w btn_h : Int) : Bool :=
  decide (mouse_x ≥ btn_x) && decide (mouse_x ≤ btn_x + btn_w) &&
    decide (mouse_y ≥ btn_y) && decide (mouse_y ≤ btn_y + btn_h)

/-- Reinterpretation of a 32-bit pattern as a signed `int`. -/
def to_int32 (n : Int) : Int :=
  if n % 4294967296 < 2147483648 then n % 4294967296 else n % 4294967296 - 4294967296

/-- The two timer statements of the loop body:
`time_remaining = QUESTION_TIME - (current_time - question_start_time) / 1000;`
(`Uint32` arithmetic, stored in an `int`) and `if (time_remaining < 0) time_remaining = 0;`. -/
def compute_time_remaining (start now : Nat) : Int :=
  let elapsed : Int := (((now : Int) - (start : Int)) % 4294967296) / 1000
  let raw : Int := to_int32 ((QUESTION_TIME - elapsed) % 4294967296)
  if raw < 0 then 0 else raw

/-! ## One question -/

/-- The locals of one question together with the running `score`.  `submits` is a
ghost log, not program state: the option committed by each submit click that fired. -/
structure QState where
  selected_option : Int
  answered : Bool
  score : Int
  submits : List Int
  deriving DecidableEq, Repr

/-- The loop over the four option buttons: each button that contains the point sets
`selected_option`. -/
def option_clicks (x y : Int) (selected_option : Int) : Int :=
  (List.range MAX_OPTIONS).foldl
    (fun sel i => if is_button_clicked x y 100 (200 + (i : Int) * 80) 600 50 then (i : Int) else sel)
    selected_option

/-- The handler of `SDL_MOUSEBUTTONDOWN`: the option buttons, then the submit button. -/
def on_mouse_down (correct_option : Int) (x y : Int) (s : QState) : QState :=
  let sel := option_clicks x y s.selected_option
  if sel ≠ -1 && is_button_clicked x y (SCREEN_WIDTH / 2 - 100) 550 200 50 then
    { selected_option := sel,
      answered := true,
      score := if sel = correct_option then s.score + 5 else s.score - 1,
      submits := s.submits ++ [sel] }
  else
    { s with selected_option := sel }

/-- The drain `while (SDL_PollEvent(&event))`; `none` is the `return` taken on `SDL_QUIT`. -/
def poll_events (correct_option : Int) : List Event → QState → Option QState
  | [], s => some s
  | Event.quit :: _, _ => none
  | Event.mouseDown x y :: es, s => poll_events correct_option es (on_mouse_down correct_option x y s)
  | Event.other :: es, s => poll_events correct_option es s

/-- How the loop of one question ended.  `pending` means the given frames ran out
while the loop condition still held. -/
inductive QEnd where
  | answered
  | timeout
  | quit
  | pending
  deriving DecidableEq, Repr

/-- State at the exit of the loop of one question. -/
structure QRun where
  ending : QEnd
  state : QState
  time_remaining : Int
  deriving DecidableEq, Repr

/-- The loop `while (!answered && game->time_remaining > 0)` of one question. -/
def question_loop (correct_option : Int) (start : Nat) : List Frame → Int → QState → QRun
  | [], time_remaining, s =>
    if !s.answered && decide (time_remaining > 0) then ⟨QEnd.pending, s, time_remaining⟩
    else ⟨if s.answered then QEnd.answered else QEnd.timeout, s, time_remaining⟩
  | f :: fs, time_remaining, s =>
    if !s.answered && decide (time_remaining > 0) then
      match poll_events correct_option f.events s with
      | none => ⟨QEnd.quit, s, compute_time_remaining start f.now⟩
      | some s1 => question_loop correct_option start fs (compute_time_remaining start f.now) s1
    else ⟨if s.answered then QEnd.answered else QEnd.timeout, s, time_remaining⟩

/-! ## The loop over the questions of a session -/

/-- Ghost record of one question the session put on screen. -/
structure QResult where
  question : Question
  ending : QEnd
  submits : List Int
  deriving DecidableEq, Repr

/-- How `start_quiz` ended. `pending` means the given input ran out first. -/
inductive Status where
  | refused
  | quit
  | pending
  | completed
  deriving DecidableEq, Repr

/-- State at the exit of the `for` loop over the questions. -/
structure Session where
  status : Status
  score : Int
  time_remaining : Int
  question_start_time : Nat
  results : List QResult
  deriving DecidableEq, Repr

/-- The `for (q = ...; cond q; q++)` loop of `start_quiz`; `current q` is the question
the source reads through `difficulty_questions[q]`. -/
def quiz_loop (cond : Nat → Bool) (current : Nat → Question) :
    List QuestionInput → Nat → Int → Int → Nat → Session
  | [], q, score, time_remaining, start_time =>
    if cond q then ⟨Status.pending, score, time_remaining, start_time, []⟩
    else ⟨Status.completed, score, time_remaining, start_time, []⟩
  | qi :: rest, q, score, time_remaining, start_time =>
    if cond q then
      let run := question_loop (current q).correct_option qi.start qi.frames QUESTION_TIME
        ⟨-1, false, score, []⟩
      match run.ending with
      | QEnd.quit =>
        ⟨Status.quit, run.state.score, run.time_remaining, qi.start,
          [⟨current q, QEnd.quit, run.state.submits⟩]⟩
      | QEnd.pending =>
        ⟨Status.pending, run.state.score, run.time_remaining, qi.start,
          if qi.frames.isEmpty then [] else [⟨current q, QEnd.pending, run.state.submits⟩]⟩
      | e =>
        let r := quiz_loop cond current rest (q + 1) run.state.score run.time_remaining qi.start
        { r with results := ⟨current q, e, run.state.submits⟩ :: r.results }
    else ⟨Status.completed, score, time_remaining, start_time, []⟩

end Quiz

namespace QuizC
open Quiz

/-! ## `quiz.c`: game state, player history, `start_quiz` -/

/-- The `GameState` struct of `quiz.c`. -/
structure GameState where
  questions : List Question
  total_questions : Int
  current_player : String
  current_score : Scores
  time_remaining : Int
  question_start_time : Nat
  players : List Player
  total_players : Int
  deriving DecidableEq, Repr

/-- Content of `quiz_players.dat`: the count, then that many records. -/
structure PlayersFile where
  count : Int
  records : List Player
  deriving DecidableEq, Repr

/-- The game state together with the persisted player store (`none`: no file). -/
structure World where
  game : GameState
  players_file : Option PlayersFile
  deriving DecidableEq, Repr

/-- Function `save_players`: when `fopen` succeeds the file becomes the count followed by the
first `total_players` records. -/
def save_players (w : World) (fopen_ok : Bool) : World :=
  if fopen_ok then
    let records := w.game.players.take w.game.total_players.toNat
    { w with players_file := some ⟨w.game.total_players, records⟩ }
  else w

/-- The search loop of `add_player_score` with `n` iterations left at index `i`:
the first index whose name equals `name`, else `-1`. -/
def find_player (players : List Player) (name : String) : Nat → Nat → Int
  | 0, _ => -1
  | n + 1, i => if (players.getD i default).name = name then (i : Int)
                else find_player players name n (i + 1)

/-- The in-memory part of `add_player_score`, everything before `save_players(game)`:
update the first record named `name`, else append a record when there is room. -/
def upsert_player (g : GameState) (name : String) (difficulty : Int) (score : Int) :
    GameState :=
  let player_index := find_player g.players name g.total_players.toNat 0
  if player_index ≠ -1 then
    let p := g.players.getD player_index.toNat default
    let p1 : Player := { p with scores := p.scores.set difficulty score }
    { g with players := g.players.set player_index.toNat p1 }
  else if g.total_players < MAX_PLAYERS then
    let p1 : Player := ⟨name, (Scores.mk (-1) (-1) (-1)).set difficulty score⟩
    { g with players := g.players.set g.total_players.toNat p1,
             total_players := g.total_players + 1 }
  else g

/-- Function `add_player_score(game, name, difficulty, score)`. -/
def add_player_score (w : World) (name : String) (difficulty : Int) (score : Int)
    (fopen_ok : Bool) : World :=
  save_players { w with game := upsert_player w.game name difficulty score } fopen_ok

/-- The filter loop of `start_quiz` with `n` iterations left at index `i`:
`difficulty_questions[count++] = game->questions[i]` for each matching entry. -/
def filter_loop (questions : List Question) (difficulty : Int) :
    Nat → Nat → List Question → List Question
  | 0, _, pool => pool
  | n + 1, i, pool =>
    filter_loop questions difficulty n (i + 1)
      (if (questions.getD i default).difficulty = difficulty
       then pool ++ [questions.getD i default] else pool)

/-- The filled part of `difficulty_questions` after the filter loop. -/
def filter_by_difficulty (g : GameState) (difficulty : Int) : List Question :=
  filter_loop g.questions difficulty g.total_questions.toNat 0 []

/-- What a call of `start_quiz` leaves behind; `results` and `score` are ghosts
(the questions put on screen, the local `score` at exit). -/
structure Outcome where
  status : Status
  world : World
  score : Int
  results : List QResult
  deriving DecidableEq, Repr

/-- The part of `start_quiz` (`quiz.c`) from the shuffle to the end of the `for` loop:
`shuffle_questions(difficulty_questions, count); int score = 0;
for (int q = 0; q < QUESTIONS_PER_LEVEL && q < count; q++) ...`. -/
def run_questions (g : GameState) (pool : List Question) (rand : Nat → Nat)
    (inputs : List QuestionInput) : Session :=
  let count := pool.length
  let shuffled := shuffle_questions pool count rand
  quiz_loop (fun q => decide (q < QUESTIONS_PER_LEVEL) && decide (q < count))
    (fun q => shuffled.getD q default) inputs 0 0 g.time_remaining g.question_start_time

/-- Function `start_quiz(renderer, font, game, difficulty)` of `quiz.c`. -/
def start_quiz (w : World) (difficulty : Int) (rand : Nat → Nat)
    (inputs : List QuestionInput) (fopen_ok : Bool) : Outcome :=
  let pool := filter_by_difficulty w.game difficulty
  let count := pool.length
  if count < QUESTIONS_PER_LEVEL then ⟨Status.refused, w, 0, []⟩
  else
    let s := run_questions w.game pool rand inputs
    let g1 : GameState :=
      { w.game with time_remaining := s.time_remaining,
                    question_start_time := s.question_start_time }
    match s.status with
    | Status.completed =>
      let g2 : GameState := { g1 with current_score := g1.current_score.set difficulty s.score }
      ⟨Status.completed,
        add_player_score { w with game := g2 } g2.current_player difficulty s.score fopen_ok,
        s.score, s.results⟩
    | st => ⟨st, { w with game := g1 }, s.score, s.results⟩

/-! ## `quiz.c`: the built-in question bank -/

/-- The fifteen blocks of `add_default_questions`, in source order. -/
def default_questions : List Question :=
  [ ⟨"What is 2 + 2?", ["3", "4", "5", "6"], 1, DIFFICULTY_EASY⟩,
    ⟨"What is the capital of France?", ["London", "Berlin", "Paris", "Madrid"], 2, DIFFICULTY_EASY⟩,
    ⟨"Which planet is closest to the sun?", ["Venus", "Mars", "Mercury", "Earth"], 2,
      DIFFICULTY_EASY⟩,
    ⟨"How many continents are there?", ["5", "6", "7", "8"], 2, DIFFICULTY_EASY⟩,
    ⟨"What is the largest ocean on Earth?", ["Atlantic", "Indian", "Arctic", "Pacific"], 3,
      DIFFICULTY_EASY⟩,
    ⟨"What is the square root of 64?", ["4", "6", "8", "10"], 2, DIFFICULTY_MEDIUM⟩,
    ⟨"Which planet is known as the Red Planet?", ["Venus", "Mars", "Jupiter", "Saturn"], 1,
      DIFFICULTY_MEDIUM⟩,
    ⟨"What is the chemical symbol for water?", ["H2O", "CO2", "NaCl", "O2"], 0,
      DIFFICULTY_MEDIUM⟩,
    ⟨"Who wrote 'Romeo and Juliet'?",
      ["Charles Dickens", "William Shakespeare", "Jane Austen", "Mark Twain"], 1,
      DIFFICULTY_MEDIUM⟩,
    ⟨"What is the capital of Japan?", ["Beijing", "Seoul", "Tokyo", "Bangkok"], 2,
      DIFFICULTY_MEDIUM⟩,
    ⟨"What is the chemical symbol for Gold?", ["Go", "Gd", "Au", "Ag"], 2, DIFFICULTY_HARD⟩,
    ⟨"Who painted the Mona Lisa?",
      ["Vincent van Gogh", "Pablo Picasso", "Leonardo da Vinci", "Michelangelo"], 2,
      DIFFICULTY_HARD⟩,
    ⟨"What is the largest planet in our solar system?",
      ["Earth", "Saturn", "Jupiter", "Neptune"], 2, DIFFICULTY_HARD⟩,
    ⟨"Which element has the atomic number 1?", ["Helium", "Hydrogen", "Oxygen", "Carbon"], 1,
      DIFFICULTY_HARD⟩,
    ⟨"In which year did World War II end?", ["1943", "1945", "1947", "1950"], 1,
      DIFFICULTY_HARD⟩ ]

/-- One block of `add_default_questions`: fill the slot `questions[total_questions]`,
then `total_questions++`. -/
def put_question (g : GameState) (q : Question) : GameState :=
  { g with questions := g.questions.set g.total_questions.toNat q,
           total_questions := g.total_questions + 1 }

/-- Function `add_default_questions(game)` of `quiz.c`. -/
def add_default_questions (g : GameState) : GameState :=
  default_questions.foldl put_question g

/-- The state `GameState game = {0}` of `main`: every slot zeroed. -/
def empty_game : GameState :=
  { questions := List.replicate MAX_QUESTIONS default
    total_questions := 0
    current_player := ""
    current_score := ⟨0, 0, 0⟩
    time_remaining := 0
    question_start_time := 0
    players := List.replicate MAX_PLAYERS default
    total_players := 0 }

end QuizC

namespace MainC
open Quiz

/-! ## `main.c`: game state and `start_quiz` -/

/-- The `GameState` struct of `main.c`. -/
structure GameState where
  questions : List Question
  total_questions : Int
  player_name : String
  current_score : Scores
  time_remaining : Int
  question_start_time : Nat
  deriving DecidableEq, Repr

/-- The filter loop of `start_quiz` in `main.c`; a pointer `&game->questions[i]` is
the index `i`. -/
def filter_loop (questions : List Question) (difficulty : Int) :
    Nat → Nat → List Nat → List Nat
  | 0, _, pool => pool
  | n + 1, i, pool =>
    filter_loop questions difficulty n (i + 1)
      (if (questions.getD i default).difficulty = difficulty then pool ++ [i] else pool)

/-- The filled part of `difficulty_questions` (pointers, as indices) after the filter loop. -/
def filter_by_difficulty (g : GameState) (difficulty : Int) : List Nat :=
  filter_loop g.questions difficulty g.total_questions.toNat 0 []

/-- What a call of `start_quiz` leaves behind; `results` and `score` are ghosts. -/
structure Outcome where
  status : Status
  game : GameState
  score : Int
  results : List QResult
  deriving DecidableEq, Repr

/-- The part of `start_quiz` (`main.c`) from the shuffle to the end of the `for` loop:
`shuffle_questions(difficulty_questions, count);
int quiz_length = (count > 10) ? 10 : count; int score = 0;
for (int q = 0; q < quiz_length; q++) ...`. -/
def run_questions (g : GameState) (pool : List Nat) (rand : Nat → Nat)
    (inputs : List QuestionInput) : Session :=
  let count := pool.length
  let shuffled := shuffle_questions pool count rand
  let quiz_length := if count > 10 then 10 else count
  quiz_loop (fun q => decide (q < quiz_length))
    (fun q => g.questions.getD (shuffled.getD q 0) default) inputs 0 0
    g.time_remaining g.question_start_time

/-- Function `start_quiz(renderer, font, game, difficulty)` of `main.c`. -/
def start_quiz (g : GameState) (difficulty : Int) (rand : Nat → Nat)
    (inputs : List QuestionInput) : Outcome :=
  let pool := filter_by_difficulty g difficulty
  let count := pool.length
  if count = 0 then ⟨Status.refused, g, 0, []⟩
  else
    let s := run_questions g pool rand inputs
    let g1 : GameState :=
      { g with time_remaining := s.time_remaining,
               question_start_time := s.question_start_time }
    match s.status with
    | Status.completed =>
      ⟨Status.completed, { g1 with current_score := g1.current_score.set difficulty s.score },
        s.score, s.results⟩
    | st => ⟨st, g1, s.score, s.results⟩

end MainC

namespace Quiz

/-! ## Concrete inputs used by the evaluations below -/

/-- A click in the middle of option button `i`. -/
def click_option (i : Int) : Event := Event.mouseDown 400 (225 + i * 80)

/-- A click in the middle of the submit button. -/
def click_submit : Event := Event.mouseDown 400 575

/-- Option 1 is selected in one frame; the next drain delivers two submit clicks. -/
def double_submit_frames : List Frame :=
  [⟨1000, [click_option 1]⟩, ⟨2000, [click_submit, click_submit]⟩]

/-- Option 1 is selected after one second; the submit click is delivered in the
iteration whose tick reading is 30000 ms after the start. -/
def late_submit_frames : List Frame :=
  [⟨1000, [click_option 1]⟩, ⟨30000, [click_submit]⟩]

/-- The player selects option `a` and submits it, one second into the question; a frame
at the deadline stands for what the clock would do otherwise. -/
def answer_with (a : Int) : QuestionInput :=
  ⟨0, [⟨1000, [click_option a, click_submit]⟩, ⟨30000, []⟩]⟩

/-- The player selects option `a`, then the application is asked to quit. -/
def select_then_quit (a : Int) : QuestionInput :=
  ⟨0, [⟨500, [click_option a]⟩, ⟨900, [Event.other, Event.quit]⟩]⟩

/-- Nothing happens until the tick reading is 30 s after the start. -/
def let_time_out : QuestionInput :=
  ⟨0, [⟨15000, [Event.other]⟩, ⟨30000, []⟩]⟩

/-- A question of difficulty `d` whose correct option is `c`. -/
def sample_question (text : String) (c d : Int) : Question :=
  ⟨text, ["a", "b", "c", "d"], c, d⟩

/-- Twelve questions: ten easy ones (correct options cycling through 0..3) and
two medium ones in between. -/
def sample_questions : List Question :=
  [ sample_question "q0" 0 0, sample_question "q1" 1 0, sample_question "q2" 2 1,
    sample_question "q3" 3 0, sample_question "q4" 0 0, sample_question "q5" 1 0,
    sample_question "q6" 2 0, sample_question "q7" 3 1, sample_question "q8" 0 0,
    sample_question "q9" 1 0, sample_question "q10" 2 0, sample_question "q11" 3 0 ]

/-- A random source for the evaluations. -/
def sample_rand (k : Nat) : Nat := 7 * k + 3

end Quiz

namespace QuizC
open Quiz

/-- A `quiz.c` state with the twelve sample questions, one recorded player and
player "Ann" logged in. -/
def sample_game : GameState :=
  { questions := sample_questions ++ List.replicate 88 default
    total_questions := 12
    current_player := "Ann"
    current_score := ⟨0, 0, 0⟩
    time_remaining := 0
    question_start_time := 0
    players := ⟨"Bob", ⟨-1, 20, -1⟩⟩ :: List.replicate 99 default
    total_players := 1 }

/-- The sample state with the player file as `save_players` last wrote it. -/
def sample_world : World := ⟨sample_game, some ⟨1, [⟨"Bob", ⟨-1, 20, -1⟩⟩]⟩⟩

/-- The questions of the sample session in the order they are asked. -/
def sample_order : List Question :=
  (shuffle_questions (filter_by_difficulty sample_game 0) 10 sample_rand).take 10

/-- Every question of the sample session is answered correctly. -/
def all_correct_inputs : List QuestionInput :=
  sample_order.map (fun q => answer_with q.correct_option)

/-- A mixed sample session: the first four questions are answered correctly, the next
three with the option after the correct one, the last three time out. -/
def mixed_inputs : List QuestionInput :=
  (sample_order.take 4).map (fun q => answer_with q.correct_option) ++
  ((sample_order.drop 4).take 3).map (fun q => answer_with ((q.correct_option + 1) % 4)) ++
  [let_time_out, let_time_out, let_time_out]

/-- Two questions are answered correctly, then the application is asked to quit. -/
def quit_inputs : List QuestionInput :=
  (sample_order.take 2).map (fun q => answer_with q.correct_option) ++ [select_then_quit 0]

end QuizC

namespace MainC
open Quiz

/-- A `main.c` state holding a single easy question whose correct option is 1. -/
def one_question_game : GameState :=
  ⟨[sample_question "q0" 1 0], 1, "Ann", ⟨0, 0, 0⟩, 0, 0⟩

/-- A `main.c` state with the twelve sample questions. -/
def sample_game : GameState :=
  ⟨sample_questions ++ List.replicate 88 default, 12, "Ann", ⟨0, 0, 0⟩, 0, 0⟩

end MainC

namespace QuizC
open Quiz

/-- The empty repository with no player file. -/
def empty_world : World := ⟨empty_game, none⟩

/-- A repository whose hundred player slots are all in use. -/
def full_world : World :=
  ⟨{ empty_game with players := List.replicate 100 ⟨"x", ⟨1, 2, 3⟩⟩, total_players := 100 },
    none⟩

end QuizC

namespace Quiz

/-! ## Vocabulary of the scoring claims -/

/-- Points of a list of committed answers: `+5` for each one equal to the correct
option, `-1` for each other one. -/
def points (correct_option : Int) (submits : List Int) : Int :=
  (submits.map (fun a => if a = correct_option then (5 : Int) else -1)).sum

/-- The question ended with one committed answer, equal to `correct_option`. -/
def QResult.is_correct (r : QResult) : Bool :=
  decide (r.submits = [r.question.correct_option])

/-- The question ended with one committed answer, different from `correct_option`. -/
def QResult.is_wrong (r : QResult) : Bool :=
  decide (r.submits.length = 1) && decide (r.submits ≠ [r.question.correct_option])

/-- The question ended by timeout without a committed answer. -/
def QResult.is_timeout (r : QResult) : Bool :=
  decide (r.submits = []) && decide (r.ending = QEnd.timeout)

/-- No `SDL_QUIT` among the events of the question, and the tick reading of the last
frame is at or past the deadline: whatever the player does, the loop of the question
reaches its exit within these frames. -/
def QuestionInput.plays_out (qi : QuestionInput) : Bool :=
  qi.frames.all (fun f => !f.events.contains Event.quit) &&
    (match qi.frames.getLast? with
     | some f => decide (compute_time_remaining qi.start f.now = 0)
     | none => false)

end Quiz

namespace Quiz

/-- The scoring rule of a completed session, for its final `score` and the ghost records
`results` of its questions: every question ended in exactly one of the three outcomes
(the three predicates exclude one another), the score is `5 * correct - wrong` with
timeouts counting 0, and in particular `5 * n`, `-n`, `0` when all `n` questions were
answered correctly, answered wrongly, timed out. -/
def score_law (score : Int) (results : List QResult) : Prop :=
  (∀ r ∈ results, r.is_correct = true ∨ r.is_wrong = true ∨ r.is_timeout = true) ∧
  score = 5 * (results.countP QResult.is_correct : Int)
            - (results.countP QResult.is_wrong : Int) ∧
  ((∀ r ∈ results, r.is_correct = true) → score = 5 * (results.length : Int)) ∧
  ((∀ r ∈ results, r.is_wrong = true) → score = -(results.length : Int)) ∧
  ((∀ r ∈ results, r.is_timeout = true) → score = 0)

end Quiz

namespace Quiz

/-! ## The administrator screens: events, text input, the question bank -/

def MAX_QUESTION_LENGTH : Int := 256
def MAX_OPTION_LENGTH : Int := 128
def MAX_NAME_LENGTH : Int := 50

/-- The events the administrator screens and `get_text_input` tell apart: `SDL_QUIT`,
`SDL_MOUSEBUTTONDOWN` (with the position `SDL_GetMouseState` reports), `SDL_KEYDOWN` with
the return key, the backspace key or another key, `SDL_TEXTINPUT` with its text, and any
other event. -/
inductive UiEvent where
  | quit
  | mouseDown (x y : Int)
  | keyReturn
  | keyBackspace
  | keyOther
  | textInput (text : String)
  | other
  deriving DecidableEq, Repr

/-- The result of one call of `SDL_PollEvent`: `some e` delivers the event `e`, `none` is
the return value 0 (the queue is empty at that moment), which ends a drain. -/
abbrev Poll := Option UiEvent

/-- The two files of the source keep the same screens and differ in how some loops treat
`SDL_QUIT`. -/
inductive Variant where
  | quiz_c
  | main_c
  deriving DecidableEq, Repr

/-- The locals of `get_text_input`: `temp_buffer`, the caller's `buffer`, `done`. -/
structure TextState where
  temp : List Char
  buffer : List Char
  done : Bool
  deriving DecidableEq, Repr

/-- The `switch (event.type)` of `get_text_input`; the `SDL_QUIT` case is the one of
`quiz.c` (`done = true`). -/
def text_event (max_length : Int) (s : TextState) : UiEvent → TextState
  | UiEvent.keyReturn => { s with buffer := s.temp, done := true }
  | UiEvent.keyBackspace => if s.temp.length > 0 then { s with temp := s.temp.dropLast } else s
  | UiEvent.keyOther => s
  | UiEvent.textInput text =>
    if (s.temp.length : Int) < max_length - 1 then { s with temp := s.temp ++ text.data } else s
  | UiEvent.quit => { s with done := true }
  | UiEvent.mouseDown _ _ => s
  | UiEvent.other => s

/-- The loop `while (!done) { while (SDL_PollEvent(&event)) ...; render }` of
`get_text_input`, one poll at a time.  `none` means the function does not return on
these polls: they ran out first, or (`main.c`) `SDL_QUIT` made it call `exit(0)`. -/
def text_loop (v : Variant) (max_length : Int) :
    List Poll → TextState → Option (String × List Poll)
  | [], _ => none
  | some UiEvent.quit :: rest, s =>
    if v = Variant.main_c then none
    else text_loop v max_length rest (text_event max_length s UiEvent.quit)
  | some e :: rest, s => text_loop v max_length rest (text_event max_length s e)
  | none :: rest, s =>
    if s.done then some (String.mk s.buffer, rest) else text_loop v max_length rest s

/-- Function `get_text_input(renderer, font, buffer, max_length, prompt)`: the text left in
`buffer` and the polls not consumed.  Text is a string here; the capacity of
`temp_buffer` is not part of this model. -/
def get_text_input (v : Variant) (max_length : Int) (polls : List Poll) :
    Option (String × List Poll) :=
  text_loop v max_length polls ⟨[], [], false⟩

/-- The part of `GameState` the question functions read and write, the same in both
files: the array `questions` and the counter `total_questions`. -/
structure Bank where
  questions : List Question
  total_questions : Int
  deriving DecidableEq, Repr

/-- Content of `quiz_questions.dat`: the count, then the records. -/
structure QuestionsFile where
  count : Int
  records : List Question
  deriving DecidableEq, Repr

/-- The question bank together with the persisted store (`none`: no file). -/
structure Store where
  bank : Bank
  file : Option QuestionsFile
  deriving DecidableEq, Repr

/-- Read `questions[i]` for a C `int` index; outside the array (undefined in C) this
reads a zeroed slot. -/
def arr_get (qs : List Question) (i : Int) : Question :=
  if 0 ≤ i then qs.getD i.toNat default else default

/-- Write `questions[i] = q` for a C `int` index; outside the array (undefined in C)
nothing is written. -/
def arr_set (qs : List Question) (i : Int) (q : Question) : List Question :=
  if 0 ≤ i then qs.set i.toNat q else qs

/-- Function `save_questions(game)`: when `fopen` succeeds the file becomes the count
followed by the first `total_questions` records. -/
def save_questions (s : Store) (fopen_ok : Bool) : Store :=
  if fopen_ok then
    let records := s.bank.questions.take s.bank.total_questions.toNat
    { s with file := some ⟨s.bank.total_questions, records⟩ }
  else s

/-- The number of records the second `fread` delivers for a declared `count`, which it
receives converted to `size_t`: at most what the file holds. -/
def records_read (count : Int) (available : Nat) : Nat :=
  if count < 0 then available else min count.toNat available

/-- Function `load_questions(game)`: when the file exists, the first `fread` stores the
declared count in `total_questions` as it is, the second one fills the array from the
start with the records it delivers.  This is the C behaviour as long as the records
delivered fit the array.  When more are delivered the C `fread` writes past the array
(undefined; in `GameState` the counter comes right after it): here the surplus is cut,
which describes nothing, and no statement below relies on that case.  A file that ends
inside its count field is outside `QuestionsFile`. -/
def load_questions (b : Bank) (file : Option QuestionsFile) : Bank :=
  match file with
  | none => b
  | some f =>
    let n := records_read f.count f.records.length
    { questions := (f.records.take n ++ b.questions.drop n).take b.questions.length,
      total_questions := f.count }

/-! ### `delete_question` -/

/-- The confirmation loop of `delete_question`: the value of `confirmed` at its exit. -/
def confirm_loop : List Poll → Bool → Bool → Option (Bool × List Poll)
  | [], _, _ => none
  | some UiEvent.quit :: rest, confirmed, _ => some (confirmed, rest)
  | some (UiEvent.mouseDown x y) :: rest, confirmed, quit =>
    let yes := is_button_clicked x y (SCREEN_WIDTH / 2 - 150) 300 100 50
    let no := is_button_clicked x y (SCREEN_WIDTH / 2 + 50) 300 100 50
    confirm_loop rest (confirmed || yes) (quit || yes || no)
  | some _ :: rest, confirmed, quit => confirm_loop rest confirmed quit
  | none :: rest, confirmed, quit =>
    if quit then some (confirmed, rest) else confirm_loop rest confirmed quit

/-- The loop `for (i = index; i < total_questions - 1; i++) questions[i] = questions[i + 1]`
with `n` iterations left at `i`. -/
def shift_loop : Nat → Int → List Question → List Question
  | 0, _, qs => qs
  | n + 1, i, qs => shift_loop n (i + 1) (arr_set qs i (arr_get qs (i + 1)))

/-- The body of `if (confirmed)` up to `save_questions`: the shift, then
`total_questions--`. -/
def delete_shift (b : Bank) (index : Int) : Bank :=
  { questions := shift_loop (b.total_questions - 1 - index).toNat index b.questions,
    total_questions := b.total_questions - 1 }

/-- Function `delete_question(renderer, font, game, index)`, the same in both files.
`none` means the polls ran out before it returned. -/
def delete_question (s : Store) (index : Int) (polls : List Poll) (fopen_ok : Bool) :
    Option (Store × List Poll) :=
  match confirm_loop polls false false with
  | none => none
  | some (confirmed, rest) =>
    if confirmed then some (save_questions { s with bank := delete_shift s.bank index } fopen_ok, rest)
    else some (s, rest)

/-! ### `add_questions` -/

/-- The three `if`s of the difficulty screen, in source order. -/
def difficulty_click (x y : Int) (st : Int × Bool) : Int × Bool :=
  let s1 := if is_button_clicked x y (SCREEN_WIDTH / 2 - 100) 200 200 50
    then (DIFFICULTY_EASY, true) else st
  let s2 := if is_button_clicked x y (SCREEN_WIDTH / 2 - 100) 300 200 50
    then (DIFFICULTY_MEDIUM, true) else s1
  if is_button_clicked x y (SCREEN_WIDTH / 2 - 100) 400 200 50
    then (DIFFICULTY_HARD, true) else s2

/-- The loop `while (!difficulty_selected)` of `add_questions`.  The inner `none` is the
`return` that `quiz.c` takes on `SDL_QUIT`; `main.c` has no such branch. -/
def difficulty_loop (quit_returns : Bool) :
    List Poll → Int → Bool → Option (Option Int × List Poll)
  | [], _, _ => none
  | some UiEvent.quit :: rest, d, sel =>
    if quit_returns then some (none, rest) else difficulty_loop quit_returns rest d sel
  | some (UiEvent.mouseDown x y) :: rest, d, sel =>
    difficulty_loop quit_returns rest (difficulty_click x y (d, sel)).1
      (difficulty_click x y (d, sel)).2
  | some _ :: rest, d, sel => difficulty_loop quit_returns rest d sel
  | none :: rest, d, sel =>
    if sel then some (some d, rest) else difficulty_loop quit_returns rest d sel

/-- The loop `for (i = 0; i < MAX_OPTIONS; i++) if (is_button_clicked(...)) { ...; break; }`
of the correct-option screens: the first button that contains the point. -/
def correct_click (x y : Int) : Option Nat :=
  (List.range MAX_OPTIONS).find?
    (fun i => is_button_clicked x y (SCREEN_WIDTH / 2 - 100) (200 + (i : Int) * 80) 200 50)

/-- What a correct-option loop does on `SDL_QUIT`: nothing (`main.c`), leave the loop
(`edit_question` of `quiz.c`), or return from the function (`add_questions` of `quiz.c`). -/
inductive OnQuit where
  | ignore
  | leave_loop
  | return_caller
  deriving DecidableEq, Repr

/-- The loop `while (!correct_selected)`; `correct` is the value of `correct_option` so
far.  The inner `none` is the `return` on `SDL_QUIT`. -/
def correct_loop (on_quit : OnQuit) :
    List Poll → Int → Bool → Option (Option Int × List Poll)
  | [], _, _ => none
  | some UiEvent.quit :: rest, c, sel =>
    match on_quit with
    | OnQuit.ignore => correct_loop on_quit rest c sel
    | OnQuit.leave_loop => some (some c, rest)
    | OnQuit.return_caller => some (none, rest)
  | some (UiEvent.mouseDown x y) :: rest, c, sel =>
    match correct_click x y with
    | some i => correct_loop on_quit rest (i : Int) true
    | none => correct_loop on_quit rest c sel
  | some _ :: rest, c, sel => correct_loop on_quit rest c sel
  | none :: rest, c, sel =>
    if sel then some (some c, rest) else correct_loop on_quit rest c sel

/-- The loop `for (i = 0; i < MAX_OPTIONS; i++) get_text_input(...)` of `add_questions`
with `n` options still to read. -/
def read_options (v : Variant) : Nat → List Poll → Option (List String × List Poll)
  | 0, polls => some ([], polls)
  | n + 1, polls =>
    match get_text_input v MAX_OPTION_LENGTH polls with
    | none => none
    | some (text, rest) =>
      match read_options v n rest with
      | none => none
      | some (texts, rest1) => some (text :: texts, rest1)

/-- Function `add_questions(renderer, font, game)`.  `none` means it does not return on
these polls (they ran out, or the process exited inside `get_text_input`). -/
def add_questions (v : Variant) (s : Store) (polls : List Poll) (fopen_ok : Bool) :
    Option (Store × List Poll) :=
  if s.bank.total_questions ≥ MAX_QUESTIONS then some (s, polls)
  else
    match difficulty_loop (decide (v = Variant.quiz_c)) polls 0 false with
    | none => none
    | some (none, rest) => some (s, rest)
    | some (some difficulty, p1) =>
      match get_text_input v MAX_QUESTION_LENGTH p1 with
      | none => none
      | some (text, p2) =>
        match read_options v MAX_OPTIONS p2 with
        | none => none
        | some (options, p3) =>
          match correct_loop (if v = Variant.quiz_c then OnQuit.return_caller else OnQuit.ignore)
              p3 0 false with
          | none => none
          | some (none, rest) => some (s, rest)
          | some (some correct, p4) =>
            let new_question : Question := ⟨text, options, correct, difficulty⟩
            let b : Bank :=
              { questions := arr_set s.bank.questions s.bank.total_questions new_question,
                total_questions := s.bank.total_questions + 1 }
            some (save_questions { s with bank := b } fopen_ok, p4)

/-! ### `edit_question` -/

/-- The loop over the four "Edit Option" buttons inside the click handler of
`edit_question`, with `n` buttons left starting at `i`. -/
def edit_options (v : Variant) (index : Int) (x y : Int) :
    Nat → Nat → List Question → List Poll → Option (List Question × List Poll)
  | 0, _, qs, polls => some (qs, polls)
  | n + 1, i, qs, polls =>
    if is_button_clicked x y (SCREEN_WIDTH / 2 - 150) (220 + (i : Int) * 70) 300 50 then
      match get_text_input v MAX_OPTION_LENGTH polls with
      | none => none
      | some (text, rest) =>
        let q := arr_get qs index
        edit_options v index x y n (i + 1)
          (arr_set qs index { q with options := q.options.set i text }) rest
    else edit_options v index x y n (i + 1) qs polls

/-- The click handler of `edit_question`: the new array, whether "Done" was hit, and the
polls left. -/
def edit_click (v : Variant) (index : Int) (x y : Int) (qs : List Question)
    (polls : List Poll) : Option (List Question × Bool × List Poll) :=
  let step1 : Option (List Question × List Poll) :=
    if is_button_clicked x y (SCREEN_WIDTH / 2 - 150) 150 300 50 then
      match get_text_input v MAX_QUESTION_LENGTH polls with
      | none => none
      | some (text, rest) =>
        some (arr_set qs index { arr_get qs index with question := text }, rest)
    else some (qs, polls)
  match step1 with
  | none => none
  | some (qs1, p1) =>
    match edit_options v index x y MAX_OPTIONS 0 qs1 p1 with
    | none => none
    | some (qs2, p2) =>
      let step3 : Option (List Question × List Poll) :=
        if is_button_clicked x y (SCREEN_WIDTH / 2 - 150) 500 300 50 then
          match correct_loop (if v = Variant.quiz_c then OnQuit.leave_loop else OnQuit.ignore)
              p2 (arr_get qs2 index).correct_option false with
          | none => none
          | some (none, rest) => some (qs2, rest)
          | some (some c, rest) =>
            some (arr_set qs2 index { arr_get qs2 index with correct_option := c }, rest)
        else some (qs2, p2)
      match step3 with
      | none => none
      | some (qs3, p3) =>
        some (qs3, is_button_clicked x y (SCREEN_WIDTH / 2 - 150) 580 300 50, p3)

/-- The loop `while (!done)` of `edit_question`.  The first argument bounds the number
of iterations; `edit_question` passes more than the number of polls, and every iteration
consumes a poll. -/
def edit_loop (v : Variant) (index : Int) :
    Nat → List Poll → List Question → Bool → Option (List Question × List Poll)
  | 0, _, _, _ => none
  | _ + 1, [], _, _ => none
  | _ + 1, some UiEvent.quit :: rest, qs, _ => some (qs, rest)
  | n + 1, some (UiEvent.mouseDown x y) :: rest, qs, done =>
    match edit_click v index x y qs rest with
    | none => none
    | some (qs1, hit_done, rest1) => edit_loop v index n rest1 qs1 (done || hit_done)
  | n + 1, some _ :: rest, qs, done => edit_loop v index n rest qs done
  | n + 1, none :: rest, qs, done =>
    if done then some (qs, rest) else edit_loop v index n rest qs done

/-- Function `edit_question(renderer, font, game, index)`.  `none` means it does not
return on these polls (they ran out, or the process exited inside `get_text_input`). -/
def edit_question (v : Variant) (s : Store) (index : Int) (polls : List Poll)
    (fopen_ok : Bool) : Option (Store × List Poll) :=
  match edit_loop v index (polls.length + 1) polls s.bank.questions false with
  | none => none
  | some (qs, rest) =>
    some (save_questions { s with bank := { s.bank with questions := qs } } fopen_ok, rest)

/-! ### Vocabulary of the repository claims -/

/-- A stored question is valid: `correct_option` in `[0, 4)` and `difficulty` one of
`0, 1, 2`. -/
def Question.valid (q : Question) : Prop :=
  (0 ≤ q.correct_option ∧ q.correct_option < 4) ∧
  (q.difficulty = 0 ∨ q.difficulty = 1 ∨ q.difficulty = 2)

instance (q : Question) : Decidable q.valid := by
  unfold Question.valid
  infer_instance

/-- Every question at an index below `total_questions` is valid. -/
def Bank.valid (b : Bank) : Prop :=
  ∀ i : Nat, i < b.total_questions.toNat → (b.questions.getD i default).valid

instance (b : Bank) : Decidable b.valid := by
  unfold Bank.valid
  infer_instance

end Quiz

namespace QuizC
open Quiz

/-- The names of the records in use, in order. -/
def recorded_names (g : GameState) : List String :=
  (g.players.take g.total_players.toNat).map Player.name

/-- Function `load_players(game)`: when the file exists the declared count goes into
`total_players` as it is, and the records delivered fill the array from the start.  This
is the C behaviour as long as the records delivered fit the array.  When more are
delivered the C `fread` writes past the array (undefined; `total_players` comes right
after it): here the surplus is cut, which describes nothing, and no statement below
relies on that case.  A file that ends inside its count field is outside `PlayersFile`. -/
def load_players (g : GameState) (file : Option PlayersFile) : GameState :=
  match file with
  | none => g
  | some f =>
    let n := records_read f.count f.records.length
    { g with players := (f.records.take n ++ g.players.drop n).take g.players.length,
             total_players := f.count }

/-- A sequence of calls of `add_player_score`, each with its name, difficulty, score and
whether `fopen` succeeds. -/
def upserts (w : World) (calls : List (String × Int × Int × Bool)) : World :=
  calls.foldl (fun w c => add_player_score w c.1 c.2.1 c.2.2.1 c.2.2.2) w

end QuizC

namespace Quiz

/-- A click on the "Yes" button of the delete confirmation. -/
def click_yes : Poll := some (UiEvent.mouseDown 300 325)

/-- The user types `text` and presses return; then the queue is empty. -/
def type_text (text : String) : List Poll :=
  [some (UiEvent.textInput text), some UiEvent.keyReturn, none]

/-- A bank of five slots, three of them in use. -/
def small_bank : Bank :=
  ⟨[sample_question "a" 0 0, sample_question "b" 1 1, sample_question "c" 2 2, default,
    default], 3⟩

/-- The small bank with the file as `save_questions` last wrote it. -/
def small_store : Store :=
  ⟨small_bank, some ⟨3, [sample_question "a" 0 0, sample_question "b" 1 1,
    sample_question "c" 2 2]⟩⟩

end Quiz

namespace Quiz

/-- A bank whose hundred slots are all in use. -/
def full_store : Store := ⟨⟨List.replicate 100 (sample_question "q" 0 0), 100⟩, none⟩

/-- The administrator picks "Medium", types the question and four options, and picks
the third option as the correct one. -/
def add_polls : List Poll :=
  [some (UiEvent.mouseDown 400 325), none] ++ type_text "Q?" ++ type_text "o1" ++
    type_text "o2" ++ type_text "o3" ++ type_text "o4" ++
    [some (UiEvent.mouseDown 400 385), none]

/-- The question the polls `add_polls` describe. -/
def added_question : Question := ⟨"Q?", ["o1", "o2", "o3", "o4"], 2, 1⟩

/-- The small store after `add_polls`. -/
def small_store_added : Store :=
  ⟨⟨[sample_question "a" 0 0, sample_question "b" 1 1, sample_question "c" 2 2,
      added_question, default], 4⟩,
    some ⟨4, [sample_question "a" 0 0, sample_question "b" 1 1, sample_question "c" 2 2,
      added_question]⟩⟩

end Quiz

namespace Quiz

/-! ## Results screen, text buffer, shuffle traces, question browser -/

/-- The expression `(float)score / (QUESTIONS_PER_LEVEL * 5) * 100` of `show_results`
(`quiz.c`), read over the rationals: the rounding of the C `float` is not modelled. -/
def percentage (score : Int) : ℚ :=
  (score : ℚ) / (((QUESTIONS_PER_LEVEL * 5 : Nat) : ℚ)) * 100

/-- The content of `temp_buffer` of `get_text_input` after a sequence of events
(the `SDL_QUIT` case as in `quiz.c`). -/
def text_temp (max_length : Int) (events : List UiEvent) : List Char :=
  (events.foldl (text_event max_length) ⟨[], [], false⟩).temp

/-- The size of `temp_buffer`: `char temp_buffer[MAX_NAME_LENGTH]`, so at most
`MAX_NAME_LENGTH - 1` characters plus the terminator. -/
def TEMP_BUFFER_SIZE : Int := MAX_NAME_LENGTH

/-- One iteration of a shuffle loop: the loop variable `i`, the divisor of `rand() % ...`
and the position `j` it yields. -/
structure SwapStep where
  i : Nat
  divisor : Nat
  j : Nat
  deriving DecidableEq, Repr

/-- Apply the swaps of a trace in order. -/
def apply_steps {α : Type} (steps : List SwapStep) (qs : List α) : List α :=
  steps.foldl (fun l s => swap l s.i s.j) qs

/-- What the browser `view_questions` does with `current_index`. -/
inductive ViewAct where
  | display
  | edit
  | delete
  deriving DecidableEq, Repr

/-- Ghost record of one use of `current_index` by `view_questions`, with the value of
`total_questions` at that moment. -/
structure ViewStep where
  act : ViewAct
  index : Int
  total : Int
  deriving DecidableEq, Repr

/-- The state of `view_questions`: the store, `current_index`, `quit` and the ghost log. -/
structure ViewState where
  store : Store
  current_index : Int
  quit : Bool
  log : List ViewStep
  deriving DecidableEq, Repr

/-- The click handler of `view_questions`: Previous, Next, Edit, Delete (with the clamp
of `current_index` that follows it), Back, in source order. -/
def view_click (v : Variant) (fopen_ok : Bool) (x y : Int) (st : ViewState)
    (polls : List Poll) : Option (ViewState × List Poll) :=
  let i1 : Int :=
    if decide (st.current_index > 0) && is_button_clicked x y 50 500 150 50
    then st.current_index - 1 else st.current_index
  let i2 : Int :=
    if decide (i1 < st.store.bank.total_questions - 1) &&
        is_button_clicked x y (SCREEN_WIDTH - 200) 500 150 50
    then i1 + 1 else i1
  let after_edit : Option (Store × List ViewStep × List Poll) :=
    if is_button_clicked x y (SCREEN_WIDTH / 2 - 75) 500 150 50 then
      match edit_question v st.store i2 polls fopen_ok with
      | none => none
      | some (s1, rest) =>
        some (s1, st.log ++ [⟨ViewAct.edit, i2, st.store.bank.total_questions⟩], rest)
    else some (st.store, st.log, polls)
  match after_edit with
  | none => none
  | some (s3, log3, p3) =>
    let after_delete : Option (Store × Int × List ViewStep × List Poll) :=
      if is_button_clicked x y (SCREEN_WIDTH / 2 - 75) 570 150 50 then
        match delete_question s3 i2 p3 fopen_ok with
        | none => none
        | some (s4, rest) =>
          some (s4,
            if i2 ≥ s4.bank.total_questions then s4.bank.total_questions - 1 else i2,
            log3 ++ [⟨ViewAct.delete, i2, s3.bank.total_questions⟩], rest)
      else some (s3, i2, log3, p3)
    match after_delete with
    | none => none
    | some (s4, i4, log4, p4) =>
      some (⟨s4, i4, st.quit || is_button_clicked x y (SCREEN_WIDTH / 2 - 75) 640 150 50,
        log4⟩, p4)

/-- The loop `while (!quit && current_index < game->total_questions)` of
`view_questions`, entered after the question has been put on screen, one poll at a time.
The first argument bounds the number of iterations; `view_questions` passes more than
the number of polls, and every iteration consumes a poll. -/
def view_loop (v : Variant) (fopen_ok : Bool) :
    Nat → List Poll → ViewState → Option (ViewState × List Poll)
  | 0, _, _ => none
  | _ + 1, [], _ => none
  | _ + 1, some UiEvent.quit :: rest, st => some ({ st with quit := true }, rest)
  | n + 1, some (UiEvent.mouseDown x y) :: rest, st =>
    match view_click v fopen_ok x y st rest with
    | none => none
    | some (st1, rest1) => view_loop v fopen_ok n rest1 st1
  | n + 1, some _ :: rest, st => view_loop v fopen_ok n rest st
  | n + 1, none :: rest, st =>
    if !st.quit && decide (st.current_index < st.store.bank.total_questions) then
      view_loop v fopen_ok n rest
        { st with log := st.log ++
            [⟨ViewAct.display, st.current_index, st.store.bank.total_questions⟩] }
    else some (st, rest)

/-- Function `view_questions(renderer, font, game)`, the same in both files.  `none`
means it does not return on these polls. -/
def view_questions (v : Variant) (s : Store) (polls : List Poll) (fopen_ok : Bool) :
    Option (ViewState × List Poll) :=
  if 0 < s.bank.total_questions then
    view_loop v fopen_ok (polls.length + 1) polls
      ⟨s, 0, false, [⟨ViewAct.display, 0, s.bank.total_questions⟩]⟩
  else some (⟨s, 0, false, []⟩, polls)

/-- The browser used its index inside the collection: `0 <= index < total`. -/
def ViewStep.in_range (s : ViewStep) : Bool :=
  decide (0 ≤ s.index) && decide (s.index < s.total)

/-! ### Counting the outcomes of a shuffle -/

/-- All tuples of `m` positions in `[0, n)`. -/
def all_tuples (n : Nat) : Nat → List (List Nat)
  | 0 => [[]]
  | m + 1 => (List.range n).flatMap (fun j => (all_tuples n m).map (fun t => j :: t))

/-- The random source that returns the entries of a tuple in order. -/
def rand_of (t : List Nat) (k : Nat) : Nat := t.getD k 0

end Quiz

namespace QuizC
open Quiz

/-- The iterations of `shuffle_questions` of `quiz.c`, entered with loop variable `i`
after `k` calls of `rand()`. -/
def shuffle_steps (rand : Nat → Nat) : Nat → Nat → List SwapStep
  | 0, _ => []
  | i + 1, k => ⟨i + 1, i + 1 + 1, rand k % (i + 1 + 1)⟩ :: shuffle_steps rand i (k + 1)

/-- The iterations of `shuffle_questions(questions, count)` of `quiz.c`. -/
def shuffle_trace (count : Nat) (rand : Nat → Nat) : List SwapStep :=
  shuffle_steps rand (count - 1) 0

end QuizC

namespace MainC
open Quiz

/-- The iterations of `shuffle_questions` of `main.c`: `n` of them are left, the loop
variable is `i`. -/
def shuffle_steps (rand : Nat → Nat) (count : Nat) : Nat → Nat → List SwapStep
  | 0, _ => []
  | n + 1, i => ⟨i, count, rand i % count⟩ :: shuffle_steps rand count n (i + 1)

/-- The iterations of `shuffle_questions(questions, count)` of `main.c`. -/
def shuffle_trace (count : Nat) (rand : Nat → Nat) : List SwapStep :=
  shuffle_steps rand count count 0

/-- How many of the `n ^ n` tuples of positions make `shuffle_questions` of `main.c` turn
`qs` (of length `n`) into `order`. -/
def tuples_giving (qs order : List Nat) : Nat :=
  ((all_tuples qs.length qs.length).filter
    (fun t => decide (shuffle_questions qs qs.length (rand_of t) = order))).length

end MainC

namespace Quiz

/-- A store whose bank holds the twelve sample questions; no file yet. -/
def sample_store : Store := ⟨⟨sample_questions ++ List.replicate 88 default, 12⟩, none⟩

/-- A zeroed bank: `MAX_QUESTIONS` empty slots, counter 0. -/
def empty_bank : Bank := ⟨List.replicate MAX_QUESTIONS default, 0⟩

/-- A click on the "Delete" button of the browser. -/
def click_delete : Poll := some (UiEvent.mouseDown 400 595)

/-- A click on the "Back" button of the browser. -/
def click_back : Poll := some (UiEvent.mouseDown 400 665)

/-- A bank of three slots with a single question in use. -/
def one_question_store : Store :=
  ⟨⟨[sample_question "a" 0 0, default, default], 1⟩, some ⟨1, [sample_question "a" 0 0]⟩⟩

/-- The only question is deleted ("Delete", "Yes"); on the next screen the user hits
"Back". -/
def delete_last_polls : List Poll :=
  [click_delete, click_yes, none, none, click_back, none]

/-- The only question is deleted ("Delete", "Yes"); on the next screen the user hits
"Delete" and "Yes" again, then "Back". -/
def delete_twice_polls : List Poll :=
  [click_delete, click_yes, none, none, click_delete, click_yes, none, none, click_back, none]

end Quiz

namespace QuizC
open Quiz

/-- The first question of the sample session is answered with a wrong option, the other
nine time out. -/
def one_wrong_inputs : List QuestionInput :=
  (sample_order.take 1).map (fun q => answer_with ((q.correct_option + 1) % 4)) ++
    List.replicate 9 let_time_out

end QuizC

namespace Quiz

/-! ## Vocabulary: a quit request while a question is on screen -/

/-- The event leaves the question open: it is neither `SDL_QUIT` nor a click inside the
submit button. -/
def Event.no_submit : Event → Bool
  | Event.quit => false
  | Event.mouseDown x y => !is_button_clicked x y (SCREEN_WIDTH / 2 - 100) 550 200 50
  | Event.other => true

/-- Some drain of these frames delivers `SDL_QUIT`, and in every frame before it no
submit button is clicked and the timer, read at that frame, has not run out: the request
to quit arrives while the question is still on screen. -/
def quit_arrives (start : Nat) : List Frame → Bool
  | [] => false
  | f :: fs =>
    f.events.contains Event.quit ||
      (f.events.all Event.no_submit && decide (compute_time_remaining start f.now > 0) &&
        quit_arrives start fs)

/-- The request to quit arrives while this question is on screen. -/
def QuestionInput.quit_arrives (qi : QuestionInput) : Bool :=
  Quiz.quit_arrives qi.start qi.frames

/-! ## Vocabulary: a load that stays inside the array -/

end Quiz

namespace QuizC
open Quiz

/-- The `quiz.c` state after `load_questions` has read, into the zeroed state, a file
whose count field is 150 and that holds no record. -/
def overfull_world : World := ⟨{ empty_game with total_questions := 150 }, none⟩

end QuizC

namespace MainC
open Quiz

/-- The `main.c` state after `load_questions` has read, into the zeroed state, a file
whose count field is 150 and that holds no record. -/
def overfull_game : GameState :=
  ⟨List.replicate MAX_QUESTIONS default, 150, "", ⟨0, 0, 0⟩, 0, 0⟩

end MainC

namespace Quiz

/-! ## The shuffles permute -/

theorem set_getElem_perm {α : Type} (l : List α) (j : Nat) (h : j < l.length) (a : α) :
    (l[j] :: l.set j a).Perm (a :: l) := by
  induction l generalizing j with
  | nil => simp at h
  | cons x t ih =>
    cases j with
    | zero => simpa using List.Perm.swap a x t
    | succ j =>
      simp only [List.getElem_cons_succ, List.set_cons_succ]
      have h2 : j < t.length := by simpa using h
      exact (List.Perm.swap x t[j] (t.set j a)).trans
        (((ih j h2).cons x).trans (List.Perm.swap a x t))

theorem swap_perm {α : Type} (qs : List α) (i j : Nat) : (swap qs i j).Perm qs := by
  unfold swap
  split
  · rename_i a b hi hj
    obtain ⟨hi1, hi2⟩ := List.getElem?_eq_some_iff.mp hi
    obtain ⟨hj1, hj2⟩ := List.getElem?_eq_some_iff.mp hj
    induction qs generalizing i j with
    | nil => simp at hi1
    | cons x t ih =>
      cases i with
      | zero =>
        cases j with
        | zero =>
          simp at hi2 hj2
          subst hi2; subst hj2; simp
        | succ j =>
          simp at hi2 hj2 hj1
          subst hi2; subst hj2
          simpa using set_getElem_perm t j hj1 x
      | succ i =>
        cases j with
        | zero =>
          simp at hi2 hj2 hi1
          subst hi2; subst hj2
          simpa using (set_getElem_perm t i hi1 x).trans (List.Perm.refl _)
        | succ j =>
          simp at hi2 hj2 hi1 hj1
          simp only [List.set_cons_succ]
          exact (ih i j (by simp [hi1, hi2]) (by simp [hj1, hj2]) hi1 hi2 hj1 hj2).cons x
  · exact List.Perm.refl _

end Quiz

namespace QuizC
open Quiz

theorem shuffle_loop_perm {α : Type} (rand : Nat → Nat) (i k : Nat) (qs : List α) :
    (shuffle_loop rand i k qs).Perm qs := by
  induction i generalizing k qs with
  | zero => exact List.Perm.refl _
  | succ i ih => exact (ih _ _).trans (swap_perm _ _ _)

theorem shuffle_questions_perm {α : Type} (qs : List α) (count : Nat) (rand : Nat → Nat) :
    (shuffle_questions qs count rand).Perm qs :=
  shuffle_loop_perm rand _ _ qs

theorem start_quiz_refused (w : World) (d : Int) (rand : Nat → Nat)
    (inputs : List QuestionInput) (fopen_ok : Bool)
    (h : (filter_by_difficulty w.game d).length < QUESTIONS_PER_LEVEL) :
    start_quiz w d rand inputs fopen_ok = ⟨Status.refused, w, 0, []⟩ := by
  unfold start_quiz
  simp only [h, if_true]

end QuizC

namespace MainC
open Quiz

theorem main_shuffle_loop_perm {α : Type} (rand : Nat → Nat) (count n i : Nat) (qs : List α) :
    (shuffle_loop rand count n i qs).Perm qs := by
  induction n generalizing i qs with
  | zero => exact List.Perm.refl _
  | succ n ih => exact (ih _ _).trans (swap_perm _ _ _)

theorem main_shuffle_questions_perm {α : Type} (qs : List α) (count : Nat) (rand : Nat → Nat) :
    (shuffle_questions qs count rand).Perm qs :=
  main_shuffle_loop_perm rand _ _ _ qs

theorem main_start_quiz_refused (g : GameState) (d : Int) (rand : Nat → Nat)
    (inputs : List QuestionInput)
    (h : (filter_by_difficulty g d).length = 0) :
    start_quiz g d rand inputs = ⟨Status.refused, g, 0, []⟩ := by
  unfold start_quiz
  simp only [h, if_true]

end MainC

namespace Quiz

/-! ## Claims -/

/-- C4: for every array `questions` (of length `count`) and every sequence `rand` of
values of the random source, `shuffle_questions` of `quiz.c` and of `main.c` return a
permutation of the input: the same multiset of elements and the same length. -/
theorem C4_shuffle_is_permutation {α : Type} (questions : List α) (rand : Nat → Nat) :
    (QuizC.shuffle_questions questions questions.length rand).Perm questions ∧
    ((QuizC.shuffle_questions questions questions.length rand : List α) : Multiset α)
      = (questions : Multiset α) ∧
    (QuizC.shuffle_questions questions questions.length rand).length = questions.length ∧
    (MainC.shuffle_questions questions questions.length rand).Perm questions ∧
    ((MainC.shuffle_questions questions questions.length rand : List α) : Multiset α)
      = (questions : Multiset α) ∧
    (MainC.shuffle_questions questions questions.length rand).length = questions.length := by
  have hq := QuizC.shuffle_questions_perm questions questions.length rand
  have hm := MainC.main_shuffle_questions_perm questions questions.length rand
  exact ⟨hq, Multiset.coe_eq_coe.mpr hq, hq.length_eq, hm, Multiset.coe_eq_coe.mpr hm,
    hm.length_eq⟩

/-- C5: when the filter finds fewer than `QUESTIONS_PER_LEVEL` questions of the requested
difficulty (`quiz.c`), respectively none (`main.c`), `start_quiz` returns with status
`refused`, no question put on screen, and the whole state (game state and, for `quiz.c`,
the player file) exactly as it was. -/
theorem C5_insufficient_questions_no_effect (w : QuizC.World) (g : MainC.GameState) (d : Int)
    (rand : Nat → Nat) (inputs : List QuestionInput) (fopen_ok : Bool) :
    ((QuizC.filter_by_difficulty w.game d).length < QUESTIONS_PER_LEVEL →
      (QuizC.start_quiz w d rand inputs fopen_ok).status = Status.refused ∧
      (QuizC.start_quiz w d rand inputs fopen_ok).results = [] ∧
      (QuizC.start_quiz w d rand inputs fopen_ok).world = w) ∧
    ((MainC.filter_by_difficulty g d).length = 0 →
      (MainC.start_quiz g d rand inputs).status = Status.refused ∧
      (MainC.start_quiz g d rand inputs).results = [] ∧
      (MainC.start_quiz g d rand inputs).game = g) := by
  constructor
  · intro h
    rw [QuizC.start_quiz_refused w d rand inputs fopen_ok h]
    exact ⟨rfl, rfl, rfl⟩
  · intro h
    rw [MainC.main_start_quiz_refused g d rand inputs h]
    exact ⟨rfl, rfl, rfl⟩

/-- Witness of C5: the sample `quiz.c` state has two medium questions, the one-question
`main.c` state has no hard question; both sessions are refused without effect. -/
theorem C5_insufficient_questions_no_effect_witness :
    ((QuizC.filter_by_difficulty QuizC.sample_world.game 1).length < QUESTIONS_PER_LEVEL ∧
      (QuizC.start_quiz QuizC.sample_world 1 sample_rand [answer_with 0] true).world
        = QuizC.sample_world) ∧
    ((MainC.filter_by_difficulty MainC.one_question_game 2).length = 0 ∧
      (MainC.start_quiz MainC.one_question_game 2 sample_rand [answer_with 0]).game
        = MainC.one_question_game) :=
  ⟨⟨by decide, ((C5_insufficient_questions_no_effect QuizC.sample_world
      MainC.one_question_game 1 sample_rand [answer_with 0] true).1 (by decide)).2.2⟩,
   ⟨by decide, ((C5_insufficient_questions_no_effect QuizC.sample_world
      MainC.one_question_game 2 sample_rand [answer_with 0] true).2 (by decide)).2.2⟩⟩

/-- C6 (fails on the code): `add_default_questions` of `quiz.c`, run on the empty
repository, seeds 15 questions, five of each difficulty, which is fewer than
`QUESTIONS_PER_LEVEL = 10`; so `start_quiz` refuses every difficulty on the
default bank. -/
theorem C6_default_bank_has_five_per_level :
    (QuizC.add_default_questions QuizC.empty_game).total_questions = 15 ∧
    (∀ d ∈ [DIFFICULTY_EASY, DIFFICULTY_MEDIUM, DIFFICULTY_HARD],
      (QuizC.filter_by_difficulty (QuizC.add_default_questions QuizC.empty_game) d).length = 5 ∧
      ¬ (QUESTIONS_PER_LEVEL ≤
        (QuizC.filter_by_difficulty (QuizC.add_default_questions QuizC.empty_game) d).length) ∧
      ∀ (file : Option QuizC.PlayersFile) (rand : Nat → Nat) (inputs : List QuestionInput)
        (fopen_ok : Bool),
        (QuizC.start_quiz ⟨QuizC.add_default_questions QuizC.empty_game, file⟩ d rand inputs
          fopen_ok).status = Status.refused) := by
  refine ⟨by decide, ?_⟩
  intro d hd
  have h5 : (QuizC.filter_by_difficulty (QuizC.add_default_questions QuizC.empty_game) d).length
      = 5 := by
    simp only [List.mem_cons, List.mem_singleton, List.not_mem_nil, or_false] at hd
    rcases hd with rfl | rfl | rfl <;> decide
  refine ⟨h5, by rw [h5]; decide, ?_⟩
  intro file rand inputs fopen_ok
  rw [QuizC.start_quiz_refused _ d rand inputs fopen_ok (by simp only [h5]; decide)]

/-- C2 (fails on the code): two submit clicks delivered in the same drain are both
scored.  With option 1 (the correct one) selected, the loop of one question takes the
score from 0 to 10 and logs two commits; a `main.c` session of a single question ends
with score 10, and with the wrong option selected the same input gives -2. -/
theorem C2_two_submits_in_one_drain_score_twice :
    (question_loop 1 0 double_submit_frames QUESTION_TIME ⟨-1, false, 0, []⟩).state.score = 10 ∧
    (question_loop 1 0 double_submit_frames QUESTION_TIME ⟨-1, false, 0, []⟩).state.submits
      = [1, 1] ∧
    (question_loop 2 0 double_submit_frames QUESTION_TIME ⟨-1, false, 0, []⟩).state.score = -2 ∧
    (MainC.start_quiz MainC.one_question_game 0 sample_rand [⟨0, double_submit_frames⟩]).status
      = Status.completed ∧
    (MainC.start_quiz MainC.one_question_game 0 sample_rand
      [⟨0, double_submit_frames⟩]).results.length = 1 ∧
    (MainC.start_quiz MainC.one_question_game 0 sample_rand
      [⟨0, double_submit_frames⟩]).game.current_score.get 0 = 10 := by
  decide

/-- C3 (fails on the code): in the iteration whose tick reading is 30000 ms after the
start the computed `time_remaining` is 0, yet the drain of that iteration still scores
a submit click: the question ends as answered with the score changed from 0 to 5. -/
theorem C3_submit_after_deadline_is_scored :
    compute_time_remaining 0 30000 = 0 ∧
    (question_loop 1 0 late_submit_frames QUESTION_TIME ⟨-1, false, 0, []⟩).time_remaining = 0 ∧
    (question_loop 1 0 late_submit_frames QUESTION_TIME ⟨-1, false, 0, []⟩).ending
      = QEnd.answered ∧
    (question_loop 1 0 late_submit_frames QUESTION_TIME ⟨-1, false, 0, []⟩).state.score = 5 ∧
    (MainC.start_quiz MainC.one_question_game 0 sample_rand
      [⟨0, late_submit_frames⟩]).game.current_score.get 0 = 5 := by
  decide

end Quiz

namespace Quiz

/-! ## The loop over the questions: length and frame lemmas -/

theorem quiz_loop_completed_length (b : Nat) (current : Nat → Question) :
    ∀ (inputs : List QuestionInput) (q : Nat) (score tr : Int) (st : Nat),
      (quiz_loop (fun q => decide (q < b)) current inputs q score tr st).status
        = Status.completed →
      (quiz_loop (fun q => decide (q < b)) current inputs q score tr st).results.length
        = b - q := by
  intro inputs
  induction inputs with
  | nil =>
    intro q score tr st h
    by_cases hq : q < b
    · simp [quiz_loop, hq] at h
    · simp [quiz_loop, hq]; omega
  | cons qi rest ih =>
    intro q score tr st h
    by_cases hq : q < b
    · simp only [quiz_loop, hq, decide_True, if_true] at h ⊢
      split at h
      · simp at h
      · simp at h
      · simp only [List.length_cons] at h ⊢
        rw [ih _ _ _ _ h]
        omega
    · simp [quiz_loop, hq]; omega

end Quiz

namespace Quiz

/-! ## Score accounting -/

theorem points_append (c : Int) (l : List Int) (a : Int) :
    points c (l ++ [a]) = points c l + (if a = c then 5 else -1) := by
  simp [points]

theorem on_mouse_down_account (c x y : Int) (s : QState) :
    (on_mouse_down c x y s).score - points c (on_mouse_down c x y s).submits
      = s.score - points c s.submits := by
  simp only [on_mouse_down]
  split
  · simp only [points_append]
    split <;> ring
  · rfl

theorem poll_events_account (c : Int) :
    ∀ (es : List Event) (s s1 : QState), poll_events c es s = some s1 →
      s1.score - points c s1.submits = s.score - points c s.submits := by
  intro es
  induction es with
  | nil => intro s s1 h; simp [poll_events] at h; rw [h]
  | cons e es ih =>
    intro s s1 h
    cases e with
    | quit => simp [poll_events] at h
    | mouseDown x y =>
      simp only [poll_events] at h
      rw [ih _ _ h, on_mouse_down_account]
    | other =>
      simp only [poll_events] at h
      exact ih _ _ h

theorem question_loop_account (c : Int) (start : Nat) :
    ∀ (fs : List Frame) (tr : Int) (s : QState),
      (question_loop c start fs tr s).state.score
          - points c (question_loop c start fs tr s).state.submits
        = s.score - points c s.submits := by
  intro fs
  induction fs with
  | nil => intro tr s; simp only [question_loop]; split <;> rfl
  | cons f fs ih =>
    intro tr s
    simp only [question_loop]
    split
    · split
      · rfl
      · rename_i s1 h1
        rw [ih, poll_events_account c _ _ _ h1]
    · rfl

/-- The score after one question started with an empty commit log. -/
theorem question_loop_score (c : Int) (start : Nat) (fs : List Frame) (tr score : Int) :
    (question_loop c start fs tr ⟨-1, false, score, []⟩).state.score
      = score + points c (question_loop c start fs tr ⟨-1, false, score, []⟩).state.submits := by
  have h := question_loop_account c start fs tr ⟨-1, false, score, []⟩
  simp only [points, List.map_nil, List.sum_nil, sub_zero] at h
  unfold points
  linarith

/-- Sum of the points of the questions of a session. -/
theorem quiz_loop_account (cond : Nat → Bool) (current : Nat → Question) :
    ∀ (inputs : List QuestionInput) (q : Nat) (score tr : Int) (st : Nat),
      (quiz_loop cond current inputs q score tr st).score
        = score + ((quiz_loop cond current inputs q score tr st).results.map
            (fun r => points r.question.correct_option r.submits)).sum := by
  intro inputs
  induction inputs with
  | nil => intro q score tr st; simp only [quiz_loop]; split <;> simp
  | cons qi rest ih =>
    intro q score tr st
    simp only [quiz_loop]
    split
    · have hs := question_loop_score (current q).correct_option qi.start qi.frames
        QUESTION_TIME score
      split
      · simpa using hs
      · by_cases he : qi.frames.isEmpty = true
        · have hnil : qi.frames = [] := by simpa using he
          simp [hnil, question_loop, QUESTION_TIME]
        · simpa [he] using hs
      · simp only [List.map_cons, List.sum_cons]
        rw [ih, hs]
        ring
    · simp

/-! ## Where the questions of a session come from -/

theorem quiz_loop_results_mem (cond : Nat → Bool) (current : Nat → Question) :
    ∀ (inputs : List QuestionInput) (q : Nat) (score tr : Int) (st : Nat) (r : QResult),
      r ∈ (quiz_loop cond current inputs q score tr st).results →
      ∃ q1, q ≤ q1 ∧ cond q1 = true ∧ r.question = current q1 := by
  intro inputs
  induction inputs with
  | nil => intro q score tr st r h; simp only [quiz_loop] at h; split at h <;> simp at h
  | cons qi rest ih =>
    intro q score tr st r h
    simp only [quiz_loop] at h
    split at h
    · rename_i hc
      split at h
      · simp only [List.mem_singleton] at h
        exact ⟨q, le_refl _, hc, by rw [h]⟩
      · split at h
        · simp at h
        · simp only [List.mem_singleton] at h
          exact ⟨q, le_refl _, hc, by rw [h]⟩
      · simp only [List.mem_cons] at h
        rcases h with h | h
        · exact ⟨q, le_refl _, hc, by rw [h]⟩
        · obtain ⟨q1, h1, h2, h3⟩ := ih _ _ _ _ _ h
          exact ⟨q1, by omega, h2, h3⟩
    · simp at h

end Quiz

namespace Quiz

/-! ## Progress: enough input closes every question -/

theorem poll_events_no_quit (c : Int) :
    ∀ (es : List Event) (s : QState), es.contains Event.quit = false →
      ∃ s1, poll_events c es s = some s1 := by
  intro es
  induction es with
  | nil => intro s _; exact ⟨s, rfl⟩
  | cons e es ih =>
    intro s h
    simp only [List.contains_cons, Bool.or_eq_false_iff] at h
    cases e with
    | quit => simp at h
    | mouseDown x y => simpa only [poll_events] using ih _ h.2
    | other => simpa only [poll_events] using ih _ h.2

theorem question_loop_closes (c : Int) (start : Nat) :
    ∀ (fs : List Frame) (tr : Int) (s : QState),
      (∀ f ∈ fs, f.events.contains Event.quit = false) →
      (match fs.getLast? with
       | some f => compute_time_remaining start f.now = 0
       | none => tr ≤ 0) →
      (question_loop c start fs tr s).ending = QEnd.answered ∨
      (question_loop c start fs tr s).ending = QEnd.timeout := by
  intro fs
  induction fs with
  | nil =>
    intro tr s _ hl
    simp only [List.getLast?_nil] at hl
    have : ¬ (tr > 0) := by omega
    simp only [question_loop, this, decide_False, Bool.and_false]
    cases s.answered <;> simp
  | cons f fs ih =>
    intro tr s hq hl
    simp only [question_loop]
    split
    · obtain ⟨s1, h1⟩ := poll_events_no_quit c f.events s (hq f (List.mem_cons_self _ _))
      rw [h1]
      apply ih
      · intro g hg
        exact hq g (List.mem_cons_of_mem _ hg)
      · cases fs with
        | nil =>
          simp only [List.getLast?_singleton] at hl
          simp only [List.getLast?_nil]
          omega
        | cons g gs => simpa [List.getLast?_cons_cons] using hl
    · cases s.answered <;> simp

theorem question_loop_plays_out (c : Int) (qi : QuestionInput) (s : QState)
    (h : qi.plays_out = true) :
    (question_loop c qi.start qi.frames QUESTION_TIME s).ending = QEnd.answered ∨
    (question_loop c qi.start qi.frames QUESTION_TIME s).ending = QEnd.timeout := by
  unfold QuestionInput.plays_out at h
  simp only [Bool.and_eq_true, List.all_eq_true, Bool.not_eq_true'] at h
  apply question_loop_closes c qi.start qi.frames QUESTION_TIME s h.1
  cases hl : qi.frames.getLast? with
  | none => rw [hl] at h; simp at h
  | some f => rw [hl] at h; simpa using h.2

theorem quiz_loop_completes (b : Nat) (current : Nat → Question) :
    ∀ (inputs : List QuestionInput) (q : Nat) (score tr : Int) (st : Nat),
      b - q ≤ inputs.length → (∀ qi ∈ inputs, qi.plays_out = true) →
      (quiz_loop (fun q => decide (q < b)) current inputs q score tr st).status
        = Status.completed := by
  intro inputs
  induction inputs with
  | nil =>
    intro q score tr st hb _
    have : ¬ q < b := by simp at hb; omega
    simp [quiz_loop, this]
  | cons qi rest ih =>
    intro q score tr st hb hp
    by_cases hq : q < b
    · simp only [quiz_loop, hq, decide_True, if_true]
      have hc := question_loop_plays_out (current q).correct_option qi ⟨-1, false, score, []⟩
        (hp qi (List.mem_cons_self _ _))
      have hrest := ih (q + 1)
        (question_loop (current q).correct_option qi.start qi.frames QUESTION_TIME
          ⟨-1, false, score, []⟩).state.score
        (question_loop (current q).correct_option qi.start qi.frames QUESTION_TIME
          ⟨-1, false, score, []⟩).time_remaining qi.start
        (by simp only [List.length_cons] at hb; omega)
        (fun x hx => hp x (List.mem_cons_of_mem _ hx))
      split
      · rename_i he; rw [he] at hc; simp at hc
      · rename_i he; rw [he] at hc; simp at hc
      · exact hrest
    · simp [quiz_loop, hq]

theorem poll_events_quit (c : Int) :
    ∀ (es : List Event) (s : QState), Event.quit ∈ es → poll_events c es s = none := by
  intro es
  induction es with
  | nil => intro s h; simp at h
  | cons e es ih =>
    intro s h
    cases e with
    | quit => rfl
    | mouseDown x y =>
      simp only [poll_events]
      exact ih _ (by simpa using h)
    | other =>
      simp only [poll_events]
      exact ih _ (by simpa using h)

/-- A session whose loop runs at least once and whose first drain holds `SDL_QUIT`
ends with status `quit`. -/
theorem quiz_loop_quit_first (b : Nat) (hb : 0 < b) (current : Nat → Question)
    (st now : Nat) (es : List Event) (fs : List Frame) (rest : List QuestionInput)
    (tr : Int) (st0 : Nat) (h : Event.quit ∈ es) :
    (quiz_loop (fun q => decide (q < b)) current (⟨st, ⟨now, es⟩ :: fs⟩ :: rest) 0 0 tr
      st0).status = Status.quit := by
  simp [quiz_loop, hb, question_loop, QUESTION_TIME, poll_events_quit _ es _ h]

theorem cond_quizc (count : Nat) :
    (fun q => decide (q < QUESTIONS_PER_LEVEL) && decide (q < count))
      = (fun q => decide (q < min 10 count)) := by
  funext q
  show (decide (q < 10) && decide (q < count)) = decide (q < min 10 count)
  by_cases h1 : q < 10 <;> by_cases h2 : q < count <;> simp [h1, h2]

theorem quiz_length_mainc (count : Nat) : (if count > 10 then 10 else count) = min 10 count := by
  split <;> omega

end Quiz

namespace QuizC
open Quiz

/-! ## `quiz.c`: the shape of `start_quiz` once the session has started -/

theorem run_questions_eq (g : GameState) (pool : List Question) (rand : Nat → Nat)
    (inputs : List QuestionInput) :
    run_questions g pool rand inputs
      = quiz_loop (fun q => decide (q < min 10 pool.length))
          (fun q => (shuffle_questions pool pool.length rand).getD q default) inputs 0 0
          g.time_remaining g.question_start_time := by
  unfold run_questions
  simp only [cond_quizc]

theorem start_quiz_started (w : World) (d : Int) (rand : Nat → Nat)
    (inputs : List QuestionInput) (fopen_ok : Bool)
    (h : ¬ (filter_by_difficulty w.game d).length < QUESTIONS_PER_LEVEL) :
    (start_quiz w d rand inputs fopen_ok).status
        = (run_questions w.game (filter_by_difficulty w.game d) rand inputs).status ∧
    (start_quiz w d rand inputs fopen_ok).results
        = (run_questions w.game (filter_by_difficulty w.game d) rand inputs).results ∧
    (start_quiz w d rand inputs fopen_ok).score
        = (run_questions w.game (filter_by_difficulty w.game d) rand inputs).score := by
  simp only [start_quiz, h, if_false]
  split
  · rename_i he; simp [he]
  · simp

theorem start_quiz_not_completed (w : World) (d : Int) (rand : Nat → Nat)
    (inputs : List QuestionInput) (fopen_ok : Bool)
    (h : (start_quiz w d rand inputs fopen_ok).status ≠ Status.completed) :
    (start_quiz w d rand inputs fopen_ok).world.players_file = w.players_file ∧
    (start_quiz w d rand inputs fopen_ok).world.game.players = w.game.players ∧
    (start_quiz w d rand inputs fopen_ok).world.game.total_players = w.game.total_players ∧
    (start_quiz w d rand inputs fopen_ok).world.game.current_score = w.game.current_score ∧
    (start_quiz w d rand inputs fopen_ok).world.game.questions = w.game.questions ∧
    (start_quiz w d rand inputs fopen_ok).world.game.total_questions
      = w.game.total_questions := by
  revert h
  simp only [start_quiz]
  split
  · intro _; simp
  · split
    · intro h; simp at h
    · intro _; simp

theorem start_quiz_completed (w : World) (d : Int) (rand : Nat → Nat)
    (inputs : List QuestionInput) (fopen_ok : Bool)
    (h : (start_quiz w d rand inputs fopen_ok).status = Status.completed) :
    (start_quiz w d rand inputs fopen_ok).world
      = add_player_score
          { w with game :=
            { w.game with
              time_remaining :=
                (run_questions w.game (filter_by_difficulty w.game d) rand inputs).time_remaining,
              question_start_time :=
                (run_questions w.game (filter_by_difficulty w.game d) rand
                  inputs).question_start_time,
              current_score := w.game.current_score.set d
                (start_quiz w d rand inputs fopen_ok).score } }
          w.game.current_player d (start_quiz w d rand inputs fopen_ok).score fopen_ok := by
  revert h
  simp only [start_quiz]
  split
  · intro h; simp at h
  · split
    · intro _; rfl
    · rename_i hne
      intro h
      exact absurd h (by simpa using hne)

end QuizC

namespace MainC
open Quiz

/-! ## `main.c`: the shape of `start_quiz` once the session has started -/

theorem main_run_questions_eq (g : GameState) (pool : List Nat) (rand : Nat → Nat)
    (inputs : List QuestionInput) :
    run_questions g pool rand inputs
      = quiz_loop (fun q => decide (q < min 10 pool.length))
          (fun q => g.questions.getD ((shuffle_questions pool pool.length rand).getD q 0) default)
          inputs 0 0 g.time_remaining g.question_start_time := by
  unfold run_questions
  simp only [quiz_length_mainc]

theorem main_start_quiz_started (g : GameState) (d : Int) (rand : Nat → Nat)
    (inputs : List QuestionInput)
    (h : (filter_by_difficulty g d).length ≠ 0) :
    (start_quiz g d rand inputs).status
        = (run_questions g (filter_by_difficulty g d) rand inputs).status ∧
    (start_quiz g d rand inputs).results
        = (run_questions g (filter_by_difficulty g d) rand inputs).results ∧
    (start_quiz g d rand inputs).score
        = (run_questions g (filter_by_difficulty g d) rand inputs).score := by
  simp only [start_quiz, h, if_false]
  split
  · rename_i he; simp [he]
  · simp

theorem main_start_quiz_not_completed (g : GameState) (d : Int) (rand : Nat → Nat)
    (inputs : List QuestionInput)
    (h : (start_quiz g d rand inputs).status ≠ Status.completed) :
    (start_quiz g d rand inputs).game.current_score = g.current_score ∧
    (start_quiz g d rand inputs).game.questions = g.questions ∧
    (start_quiz g d rand inputs).game.total_questions = g.total_questions := by
  revert h
  simp only [start_quiz]
  split
  · intro _; simp
  · split
    · intro h; simp at h
    · intro _; simp

theorem main_start_quiz_completed (g : GameState) (d : Int) (rand : Nat → Nat)
    (inputs : List QuestionInput)
    (h : (start_quiz g d rand inputs).status = Status.completed) :
    (start_quiz g d rand inputs).game.current_score
      = g.current_score.set d (start_quiz g d rand inputs).score := by
  revert h
  simp only [start_quiz]
  split
  · intro h; simp at h
  · split
    · intro _; rfl
    · rename_i hne
      intro h
      exact absurd h (by simpa using hne)

end MainC

namespace Quiz

/-- C7: a session that runs to completion puts exactly `min(10, count)` questions on
screen, `count` being the number of entries the filter found for the difficulty, in
`quiz.c` and in `main.c`; and a session that starts does run to completion once the
input holds `min(10, count)` question inputs that play out. -/
theorem C7_session_presents_min_10_count (w : QuizC.World) (g : MainC.GameState) (d : Int)
    (rand : Nat → Nat) (inputs : List QuestionInput) (fopen_ok : Bool) :
    ((QuizC.start_quiz w d rand inputs fopen_ok).status = Status.completed →
      (QuizC.start_quiz w d rand inputs fopen_ok).results.length
        = min 10 (QuizC.filter_by_difficulty w.game d).length) ∧
    (QUESTIONS_PER_LEVEL ≤ (QuizC.filter_by_difficulty w.game d).length →
      min 10 (QuizC.filter_by_difficulty w.game d).length ≤ inputs.length →
      (∀ qi ∈ inputs, qi.plays_out = true) →
      (QuizC.start_quiz w d rand inputs fopen_ok).status = Status.completed) ∧
    ((MainC.start_quiz g d rand inputs).status = Status.completed →
      (MainC.start_quiz g d rand inputs).results.length
        = min 10 (MainC.filter_by_difficulty g d).length) ∧
    ((MainC.filter_by_difficulty g d).length ≠ 0 →
      min 10 (MainC.filter_by_difficulty g d).length ≤ inputs.length →
      (∀ qi ∈ inputs, qi.plays_out = true) →
      (MainC.start_quiz g d rand inputs).status = Status.completed) := by
  refine ⟨?_, ?_, ?_, ?_⟩
  · intro h
    by_cases hc : (QuizC.filter_by_difficulty w.game d).length < QUESTIONS_PER_LEVEL
    · rw [QuizC.start_quiz_refused w d rand inputs fopen_ok hc] at h
      simp at h
    · obtain ⟨h1, h2, _⟩ := QuizC.start_quiz_started w d rand inputs fopen_ok hc
      rw [h1, QuizC.run_questions_eq] at h
      rw [h2, QuizC.run_questions_eq, quiz_loop_completed_length _ _ _ _ _ _ _ h]
      omega
  · intro hc hl hp
    have hc1 : ¬ (QuizC.filter_by_difficulty w.game d).length < QUESTIONS_PER_LEVEL := by omega
    rw [(QuizC.start_quiz_started w d rand inputs fopen_ok hc1).1, QuizC.run_questions_eq]
    exact quiz_loop_completes _ _ _ _ _ _ _ (by omega) hp
  · intro h
    by_cases hc : (MainC.filter_by_difficulty g d).length = 0
    · rw [MainC.main_start_quiz_refused g d rand inputs hc] at h
      simp at h
    · obtain ⟨h1, h2, _⟩ := MainC.main_start_quiz_started g d rand inputs hc
      rw [h1, MainC.main_run_questions_eq] at h
      rw [h2, MainC.main_run_questions_eq, quiz_loop_completed_length _ _ _ _ _ _ _ h]
      omega
  · intro hc hl hp
    rw [(MainC.main_start_quiz_started g d rand inputs hc).1, MainC.main_run_questions_eq]
    exact quiz_loop_completes _ _ _ _ _ _ _ (by omega) hp

/-- Witness of C7: the mixed `quiz.c` sample session (ten easy questions available)
shows 10 questions, and the `main.c` session on the two medium questions shows 2. -/
theorem C7_session_presents_min_10_count_witness :
    ((QuizC.start_quiz QuizC.sample_world 0 sample_rand QuizC.mixed_inputs true).status
        = Status.completed ∧
      (QuizC.start_quiz QuizC.sample_world 0 sample_rand QuizC.mixed_inputs true).results.length
        = 10) ∧
    ((MainC.start_quiz MainC.sample_game 1 sample_rand [let_time_out, answer_with 3]).status
        = Status.completed ∧
      (MainC.start_quiz MainC.sample_game 1 sample_rand
        [let_time_out, answer_with 3]).results.length = 2) := by
  have h := C7_session_presents_min_10_count QuizC.sample_world MainC.sample_game 0 sample_rand
    QuizC.mixed_inputs true
  have hm := C7_session_presents_min_10_count QuizC.sample_world MainC.sample_game 1 sample_rand
    [let_time_out, answer_with 3] true
  have hq : (QuizC.start_quiz QuizC.sample_world 0 sample_rand QuizC.mixed_inputs true).status
      = Status.completed := h.2.1 (by decide) (by decide) (by decide)
  have hs : (MainC.start_quiz MainC.sample_game 1 sample_rand
      [let_time_out, answer_with 3]).status = Status.completed :=
    hm.2.2.2 (by decide) (by decide) (by decide)
  exact ⟨⟨hq, (h.1 hq).trans (by decide)⟩, ⟨hs, (hm.2.2.1 hs).trans (by decide)⟩⟩

/-! ## A quit request in any question of a session -/

theorem on_mouse_down_no_submit (c x y : Int) (s : QState)
    (h : is_button_clicked x y (SCREEN_WIDTH / 2 - 100) 550 200 50 = false) :
    (on_mouse_down c x y s).answered = s.answered := by
  simp [on_mouse_down, h]

theorem poll_events_no_submit (c : Int) :
    ∀ (es : List Event) (s : QState), es.all Event.no_submit = true →
      ∃ s1, poll_events c es s = some s1 ∧ s1.answered = s.answered := by
  intro es
  induction es with
  | nil => intro s _; exact ⟨s, rfl, rfl⟩
  | cons e es ih =>
    intro s h
    simp only [List.all_cons, Bool.and_eq_true] at h
    cases e with
    | quit => simp [Event.no_submit] at h
    | mouseDown x y =>
      have hb : is_button_clicked x y (SCREEN_WIDTH / 2 - 100) 550 200 50 = false := by
        simpa [Event.no_submit] using h.1
      obtain ⟨s1, h1, h2⟩ := ih (on_mouse_down c x y s) h.2
      exact ⟨s1, by simpa only [poll_events] using h1,
        h2.trans (on_mouse_down_no_submit c x y s hb)⟩
    | other =>
      obtain ⟨s1, h1, h2⟩ := ih s h.2
      exact ⟨s1, by simpa only [poll_events] using h1, h2⟩

theorem question_loop_quit (c : Int) (start : Nat) :
    ∀ (fs : List Frame) (tr : Int) (s : QState), quit_arrives start fs = true → 0 < tr →
      s.answered = false → (question_loop c start fs tr s).ending = QEnd.quit := by
  intro fs
  induction fs with
  | nil => intro tr s h _ _; simp [quit_arrives] at h
  | cons f fs ih =>
    intro tr s h htr hs
    simp only [quit_arrives, Bool.or_eq_true, Bool.and_eq_true, decide_eq_true_eq] at h
    have hcond : (!s.answered && decide (tr > 0)) = true := by simp [hs, htr]
    simp only [question_loop, hcond, if_true]
    rcases h with hq | ⟨⟨hns, htime⟩, hrest⟩
    · rw [poll_events_quit c f.events s (by simpa using hq)]
    · obtain ⟨s1, h1, h2⟩ := poll_events_no_submit c f.events s hns
      rw [h1]
      exact ih _ s1 hrest htime (by rw [h2]; exact hs)

theorem quiz_loop_quit_after (b : Nat) (current : Nat → Question) (qi : QuestionInput)
    (rest : List QuestionInput) (hquit : qi.quit_arrives = true) :
    ∀ (played : List QuestionInput) (q : Nat) (score tr : Int) (st : Nat),
      (∀ p ∈ played, p.plays_out = true) → q + played.length < b →
      (quiz_loop (fun q => decide (q < b)) current (played ++ qi :: rest) q score tr
        st).status = Status.quit := by
  intro played
  induction played with
  | nil =>
    intro q score tr st _ hb
    have hq : q < b := by simpa using hb
    have he := question_loop_quit (current q).correct_option qi.start qi.frames QUESTION_TIME
      ⟨-1, false, score, []⟩ hquit (by decide) rfl
    simp only [List.nil_append, quiz_loop, hq, decide_True, if_true, he]
  | cons p ps ih =>
    intro q score tr st hp hb
    have hq : q < b := by simp only [List.length_cons] at hb; omega
    simp only [List.cons_append, quiz_loop, hq, decide_True, if_true]
    have hc := question_loop_plays_out (current q).correct_option p ⟨-1, false, score, []⟩
      (hp p (List.mem_cons_self _ _))
    have hrest := ih (q + 1)
      (question_loop (current q).correct_option p.start p.frames QUESTION_TIME
        ⟨-1, false, score, []⟩).state.score
      (question_loop (current q).correct_option p.start p.frames QUESTION_TIME
        ⟨-1, false, score, []⟩).time_remaining p.start
      (fun x hx => hp x (List.mem_cons_of_mem _ hx))
      (by simp only [List.length_cons] at hb; omega)
    split
    · rfl
    · rename_i he; rw [he] at hc; simp at hc
    · exact hrest

/-- C9: when `start_quiz` returns because an `SDL_QUIT` event was polled, `current_score`,
every player record, `total_players` and the player file are exactly as before the call
(`quiz.c`); in `main.c`, which keeps no player records, `current_score` is as before.
And a started session does return this way whatever number of questions had been played
before: after any `played` questions that ran to their end (answered or timed out), fewer
than the session asks, a quit request that arrives while the next question is on screen
makes `start_quiz` return with all of these unchanged, whatever input would follow. -/
theorem C9_quit_leaves_scores_and_history (w : QuizC.World) (g : MainC.GameState) (d : Int)
    (rand : Nat → Nat) (inputs : List QuestionInput) (fopen_ok : Bool) :
    ((QuizC.start_quiz w d rand inputs fopen_ok).status = Status.quit →
      (QuizC.start_quiz w d rand inputs fopen_ok).world.game.current_score
        = w.game.current_score ∧
      (QuizC.start_quiz w d rand inputs fopen_ok).world.game.players = w.game.players ∧
      (QuizC.start_quiz w d rand inputs fopen_ok).world.game.total_players
        = w.game.total_players ∧
      (QuizC.start_quiz w d rand inputs fopen_ok).world.players_file = w.players_file) ∧
    ((MainC.start_quiz g d rand inputs).status = Status.quit →
      (MainC.start_quiz g d rand inputs).game.current_score = g.current_score) ∧
    (QUESTIONS_PER_LEVEL ≤ (QuizC.filter_by_difficulty w.game d).length →
      ∀ (played : List QuestionInput) (qi : QuestionInput),
        (∀ p ∈ played, p.plays_out = true) → played.length < QUESTIONS_PER_LEVEL →
        qi.quit_arrives = true →
        (QuizC.start_quiz w d rand (played ++ qi :: inputs) fopen_ok).status = Status.quit ∧
        (QuizC.start_quiz w d rand (played ++ qi :: inputs) fopen_ok).world.game.current_score
          = w.game.current_score ∧
        (QuizC.start_quiz w d rand (played ++ qi :: inputs) fopen_ok).world.game.players
          = w.game.players ∧
        (QuizC.start_quiz w d rand (played ++ qi :: inputs) fopen_ok).world.game.total_players
          = w.game.total_players ∧
        (QuizC.start_quiz w d rand (played ++ qi :: inputs) fopen_ok).world.players_file
          = w.players_file) ∧
    (∀ (played : List QuestionInput) (qi : QuestionInput),
        (∀ p ∈ played, p.plays_out = true) →
        played.length < min 10 (MainC.filter_by_difficulty g d).length →
        qi.quit_arrives = true →
        (MainC.start_quiz g d rand (played ++ qi :: inputs)).status = Status.quit ∧
        (MainC.start_quiz g d rand (played ++ qi :: inputs)).game.current_score
          = g.current_score) := by
  refine ⟨?_, ?_, ?_, ?_⟩
  · intro h
    obtain ⟨h1, h2, h3, h4, _, _⟩ :=
      QuizC.start_quiz_not_completed w d rand inputs fopen_ok (by rw [h]; decide)
    exact ⟨h4, h2, h3, h1⟩
  · intro h
    exact (MainC.main_start_quiz_not_completed g d rand inputs (by rw [h]; decide)).1
  · intro hc played qi hp hlen hq
    have hc1 : ¬ (QuizC.filter_by_difficulty w.game d).length < QUESTIONS_PER_LEVEL := by omega
    have hc2 : 10 ≤ (QuizC.filter_by_difficulty w.game d).length := hc
    have hl2 : played.length < 10 := hlen
    have hst : (QuizC.start_quiz w d rand (played ++ qi :: inputs) fopen_ok).status
        = Status.quit := by
      rw [(QuizC.start_quiz_started w d rand _ fopen_ok hc1).1, QuizC.run_questions_eq]
      exact quiz_loop_quit_after _ _ qi inputs hq played 0 0 _ _ hp (by omega)
    obtain ⟨h1, h2, h3, h4, _, _⟩ :=
      QuizC.start_quiz_not_completed w d rand (played ++ qi :: inputs) fopen_ok
        (by rw [hst]; decide)
    exact ⟨hst, h4, h2, h3, h1⟩
  · intro played qi hp hlen hq
    have hc : (MainC.filter_by_difficulty g d).length ≠ 0 := by omega
    have hst : (MainC.start_quiz g d rand (played ++ qi :: inputs)).status = Status.quit := by
      rw [(MainC.main_start_quiz_started g d rand _ hc).1, MainC.main_run_questions_eq]
      exact quiz_loop_quit_after _ _ qi inputs hq played 0 0 _ _ hp (by omega)
    exact ⟨hst, (MainC.main_start_quiz_not_completed g d rand (played ++ qi :: inputs)
      (by rw [hst]; decide)).1⟩

set_option maxRecDepth 100000 in
/-- Witness of C9: in the `quiz.c` sample session two questions are answered correctly
(the local score is 10) and then `SDL_QUIT` arrives in the third; in the `main.c` sample
session one question times out and `SDL_QUIT` arrives in the second.  Nothing of it
reaches the scores or the history. -/
theorem C9_quit_leaves_scores_and_history_witness :
    (QuizC.start_quiz QuizC.sample_world 0 sample_rand QuizC.quit_inputs true).score = 10 ∧
    ((QuizC.start_quiz QuizC.sample_world 0 sample_rand
        ((QuizC.sample_order.take 2).map (fun q => answer_with q.correct_option) ++
          select_then_quit 0 :: []) true).status = Status.quit ∧
      (QuizC.start_quiz QuizC.sample_world 0 sample_rand
        ((QuizC.sample_order.take 2).map (fun q => answer_with q.correct_option) ++
          select_then_quit 0 :: []) true).world.game.current_score
        = QuizC.sample_world.game.current_score ∧
      (QuizC.start_quiz QuizC.sample_world 0 sample_rand
        ((QuizC.sample_order.take 2).map (fun q => answer_with q.correct_option) ++
          select_then_quit 0 :: []) true).world.game.players
        = QuizC.sample_world.game.players ∧
      (QuizC.start_quiz QuizC.sample_world 0 sample_rand
        ((QuizC.sample_order.take 2).map (fun q => answer_with q.correct_option) ++
          select_then_quit 0 :: []) true).world.game.total_players
        = QuizC.sample_world.game.total_players ∧
      (QuizC.start_quiz QuizC.sample_world 0 sample_rand
        ((QuizC.sample_order.take 2).map (fun q => answer_with q.correct_option) ++
          select_then_quit 0 :: []) true).world.players_file
        = QuizC.sample_world.players_file) ∧
    ((MainC.start_quiz MainC.sample_game 0 sample_rand
        ([let_time_out] ++ select_then_quit 1 :: [])).status = Status.quit ∧
      (MainC.start_quiz MainC.sample_game 0 sample_rand
        ([let_time_out] ++ select_then_quit 1 :: [])).game.current_score
        = MainC.sample_game.current_score) ∧
    (MainC.start_quiz MainC.sample_game 0 sample_rand [select_then_quit 1]).game.current_score
      = MainC.sample_game.current_score :=
  ⟨by decide,
    (C9_quit_leaves_scores_and_history QuizC.sample_world MainC.sample_game 0 sample_rand
      [] true).2.2.1 (by decide)
      ((QuizC.sample_order.take 2).map (fun q => answer_with q.correct_option))
      (select_then_quit 0) (by decide) (by decide) (by decide),
    (C9_quit_leaves_scores_and_history QuizC.sample_world MainC.sample_game 0 sample_rand
      [] true).2.2.2 [let_time_out] (select_then_quit 1) (by decide) (by decide) (by decide),
    (C9_quit_leaves_scores_and_history QuizC.sample_world MainC.sample_game 0 sample_rand
      [select_then_quit 1] true).2.1 (by decide)⟩

end Quiz

namespace Quiz

/-! ## The filter loop -/

theorem range_map_getD_eq_take (qs : List Question) (n : Nat) (h : n ≤ qs.length) :
    (List.range' 0 n).map (fun j => qs.getD j default) = qs.take n := by
  apply List.ext_getElem
  · simp [h]
  · intro i h1 h2
    simp at h1 h2 ⊢
    simp [List.getD_eq_getElem?_getD, List.getElem?_eq_getElem (show i < qs.length by omega)]

theorem mem_take_getElem? (qs : List Question) (n : Nat) (x : Question) (h : x ∈ qs.take n) :
    ∃ i, i < n ∧ qs[i]? = some x := by
  obtain ⟨i, hi, hx⟩ := List.mem_iff_getElem.mp h
  simp at hi
  refine ⟨i, hi.1, ?_⟩
  simp [List.getElem_take] at hx
  simp [List.getElem?_eq_getElem hi.2, hx]

theorem getD_mem_of_lt {α : Type} (l : List α) (i : Nat) (d : α) (h : i < l.length) :
    l.getD i d ∈ l := by
  rw [List.getD_eq_getElem l d h]
  exact List.getElem_mem h

end Quiz

namespace QuizC
open Quiz

theorem filter_loop_eq (qs : List Question) (d : Int) :
    ∀ (n i : Nat) (pool : List Question),
      filter_loop qs d n i pool
        = pool ++ ((List.range' i n).map (fun j => qs.getD j default)).filter
            (fun q => decide (q.difficulty = d)) := by
  intro n
  induction n with
  | zero => intro i pool; simp [filter_loop]
  | succ n ih =>
    intro i pool
    simp only [filter_loop, ih, List.range'_succ, List.map_cons, List.filter_cons]
    split <;> simp_all

/-- The pool of `quiz.c` is the sub-list of the entries in use that carry the difficulty. -/
theorem filter_by_difficulty_eq (g : GameState) (d : Int)
    (h : g.total_questions.toNat ≤ g.questions.length) :
    filter_by_difficulty g d
      = (g.questions.take g.total_questions.toNat).filter
          (fun q => decide (q.difficulty = d)) := by
  unfold filter_by_difficulty
  rw [filter_loop_eq, List.nil_append, range_map_getD_eq_take _ _ h]

/-- Every question shown by `run_questions` is an element of the pool. -/
theorem run_questions_results_mem (g : GameState) (pool : List Question) (rand : Nat → Nat)
    (inputs : List QuestionInput) (r : QResult)
    (h : r ∈ (run_questions g pool rand inputs).results) : r.question ∈ pool := by
  rw [run_questions_eq] at h
  obtain ⟨q1, _, hc, hq⟩ := quiz_loop_results_mem _ _ _ _ _ _ _ _ h
  simp only [decide_eq_true_eq, lt_min_iff] at hc
  have hp := shuffle_questions_perm pool pool.length rand
  rw [hq]
  exact hp.mem_iff.mp (getD_mem_of_lt _ _ _ (by rw [hp.length_eq]; exact hc.2))

end QuizC

namespace MainC
open Quiz

theorem main_filter_loop_eq (qs : List Question) (d : Int) :
    ∀ (n i : Nat) (pool : List Nat),
      filter_loop qs d n i pool
        = pool ++ (List.range' i n).filter
            (fun j => decide ((qs.getD j default).difficulty = d)) := by
  intro n
  induction n with
  | zero => intro i pool; simp [filter_loop]
  | succ n ih =>
    intro i pool
    simp only [filter_loop, ih, List.range'_succ, List.filter_cons]
    split <;> simp_all

/-- The pool of `main.c` holds the indices in use whose entry carries the difficulty. -/
theorem main_filter_by_difficulty_eq (g : GameState) (d : Int) :
    filter_by_difficulty g d
      = (List.range' 0 g.total_questions.toNat).filter
          (fun j => decide ((g.questions.getD j default).difficulty = d)) := by
  unfold filter_by_difficulty
  rw [main_filter_loop_eq, List.nil_append]

/-- Dereferencing the pool of `main.c` gives the sub-list of the entries in use that
carry the difficulty. -/
theorem filter_by_difficulty_deref (g : GameState) (d : Int)
    (h : g.total_questions.toNat ≤ g.questions.length) :
    (filter_by_difficulty g d).map (fun j => g.questions.getD j default)
      = (g.questions.take g.total_questions.toNat).filter
          (fun q => decide (q.difficulty = d)) := by
  rw [main_filter_by_difficulty_eq, ← range_map_getD_eq_take _ _ h, List.filter_map]
  rfl

/-- Every question shown by `run_questions` is read through a pointer of the pool. -/
theorem main_run_questions_results_mem (g : GameState) (pool : List Nat) (rand : Nat → Nat)
    (inputs : List QuestionInput) (r : QResult)
    (h : r ∈ (run_questions g pool rand inputs).results) :
    ∃ j ∈ pool, r.question = g.questions.getD j default := by
  rw [main_run_questions_eq] at h
  obtain ⟨q1, _, hc, hq⟩ := quiz_loop_results_mem _ _ _ _ _ _ _ _ h
  simp only [decide_eq_true_eq, lt_min_iff] at hc
  have hp := main_shuffle_questions_perm pool pool.length rand
  exact ⟨_, hp.mem_iff.mp (getD_mem_of_lt _ _ 0 (by rw [hp.length_eq]; exact hc.2)), hq⟩

end MainC

namespace Quiz

/-- C8: in a state whose counter `total_questions` does not exceed the array, the pool
built by `start_quiz` before shuffling is exactly the sub-sequence, in repository order,
of the entries at indices below `total_questions` whose `difficulty` equals the requested
one (`main.c`: the pointers of the pool point at exactly these entries, in order); and
every question a session puts on screen is such an entry. -/
theorem C8_session_questions_are_filtered_entries (w : QuizC.World) (g : MainC.GameState)
    (d : Int) (rand : Nat → Nat) (inputs : List QuestionInput) (fopen_ok : Bool) :
    (w.game.total_questions.toNat ≤ w.game.questions.length →
      QuizC.filter_by_difficulty w.game d
        = (w.game.questions.take w.game.total_questions.toNat).filter
            (fun q => decide (q.difficulty = d)) ∧
      ∀ r ∈ (QuizC.start_quiz w d rand inputs fopen_ok).results,
        ∃ i : Nat, (i : Int) < w.game.total_questions ∧
          w.game.questions[i]? = some r.question ∧ r.question.difficulty = d) ∧
    (g.total_questions.toNat ≤ g.questions.length →
      (MainC.filter_by_difficulty g d).map (fun j => g.questions.getD j default)
        = (g.questions.take g.total_questions.toNat).filter
            (fun q => decide (q.difficulty = d)) ∧
      ∀ r ∈ (MainC.start_quiz g d rand inputs).results,
        ∃ i : Nat, (i : Int) < g.total_questions ∧
          g.questions[i]? = some r.question ∧ r.question.difficulty = d) := by
  constructor
  · intro hwf
    have hpool := QuizC.filter_by_difficulty_eq w.game d hwf
    refine ⟨hpool, ?_⟩
    intro r hr
    by_cases hc : (QuizC.filter_by_difficulty w.game d).length < QUESTIONS_PER_LEVEL
    · rw [QuizC.start_quiz_refused w d rand inputs fopen_ok hc] at hr
      simp at hr
    · rw [(QuizC.start_quiz_started w d rand inputs fopen_ok hc).2.1] at hr
      have hm := QuizC.run_questions_results_mem _ _ _ _ _ hr
      rw [hpool, List.mem_filter] at hm
      obtain ⟨i, hi, hq⟩ := mem_take_getElem? _ _ _ hm.1
      exact ⟨i, by omega, hq, by simpa using hm.2⟩
  · intro hwf
    have hpool := MainC.filter_by_difficulty_deref g d hwf
    refine ⟨hpool, ?_⟩
    intro r hr
    by_cases hc : (MainC.filter_by_difficulty g d).length = 0
    · rw [MainC.main_start_quiz_refused g d rand inputs hc] at hr
      simp at hr
    · rw [(MainC.main_start_quiz_started g d rand inputs hc).2.1] at hr
      obtain ⟨j, hj, hq⟩ := MainC.main_run_questions_results_mem _ _ _ _ _ hr
      have hm : r.question ∈ (MainC.filter_by_difficulty g d).map
          (fun j => g.questions.getD j default) := by
        rw [hq]; exact List.mem_map_of_mem _ hj
      rw [hpool, List.mem_filter] at hm
      obtain ⟨i, hi, hq⟩ := mem_take_getElem? _ _ _ hm.1
      exact ⟨i, by omega, hq, by simpa using hm.2⟩

/-- Witness of C8: the pool of the sample states for the medium difficulty, and the
second question of the mixed `quiz.c` sample session, which is the repository entry "q3". -/
theorem C8_session_questions_are_filtered_entries_witness :
    (QuizC.filter_by_difficulty QuizC.sample_world.game 1
      = [sample_question "q2" 2 1, sample_question "q7" 3 1]) ∧
    ((MainC.filter_by_difficulty MainC.sample_game 1).map
        (fun j => MainC.sample_game.questions.getD j default)
      = [sample_question "q2" 2 1, sample_question "q7" 3 1]) ∧
    (∃ i : Nat, (i : Int) < 12 ∧
      QuizC.sample_world.game.questions[i]? = some (sample_question "q3" 3 0) ∧
      (sample_question "q3" 3 0).difficulty = 0) :=
  ⟨((C8_session_questions_are_filtered_entries QuizC.sample_world MainC.sample_game 1
      sample_rand [] true).1 (by decide)).1.trans (by decide),
   ((C8_session_questions_are_filtered_entries QuizC.sample_world MainC.sample_game 1
      sample_rand [] true).2 (by decide)).1.trans (by decide),
   ((C8_session_questions_are_filtered_entries QuizC.sample_world MainC.sample_game 0
      sample_rand QuizC.mixed_inputs true).1 (by decide)).2
      ⟨sample_question "q3" 3 0, QEnd.answered, [3]⟩ (by decide)⟩

end Quiz

namespace Quiz

/-! ## A question that ends as answered has a committed answer -/

theorem on_mouse_down_answered (c x y : Int) (s : QState)
    (h : s.answered = true → s.submits ≠ []) :
    (on_mouse_down c x y s).answered = true → (on_mouse_down c x y s).submits ≠ [] := by
  simp only [on_mouse_down]
  split
  · intro _; simp
  · exact h

theorem poll_events_answered (c : Int) :
    ∀ (es : List Event) (s s1 : QState), (s.answered = true → s.submits ≠ []) →
      poll_events c es s = some s1 → (s1.answered = true → s1.submits ≠ []) := by
  intro es
  induction es with
  | nil => intro s s1 hs h; simp [poll_events] at h; rw [← h]; exact hs
  | cons e es ih =>
    intro s s1 hs h
    cases e with
    | quit => simp [poll_events] at h
    | mouseDown x y =>
      simp only [poll_events] at h
      exact ih _ _ (on_mouse_down_answered c x y s hs) h
    | other =>
      simp only [poll_events] at h
      exact ih _ _ hs h

theorem question_loop_answered (c : Int) (start : Nat) :
    ∀ (fs : List Frame) (tr : Int) (s : QState), (s.answered = true → s.submits ≠ []) →
      (question_loop c start fs tr s).ending = QEnd.answered →
      (question_loop c start fs tr s).state.submits ≠ [] := by
  intro fs
  induction fs with
  | nil =>
    intro tr s hs
    simp only [question_loop]
    split
    · intro h; simp at h
    · cases ha : s.answered
      · simp
      · intro _; exact hs ha
  | cons f fs ih =>
    intro tr s hs
    simp only [question_loop]
    split
    · split
      · intro h; simp at h
      · rename_i s1 h1
        exact ih _ _ (poll_events_answered c _ _ _ hs h1)
    · cases ha : s.answered
      · simp
      · intro _; exact hs ha

/-- In a completed session a question without committed answer ended by timeout. -/
theorem quiz_loop_completed_timeout (cond : Nat → Bool) (current : Nat → Question) :
    ∀ (inputs : List QuestionInput) (q : Nat) (score tr : Int) (st : Nat),
      (quiz_loop cond current inputs q score tr st).status = Status.completed →
      ∀ r ∈ (quiz_loop cond current inputs q score tr st).results,
        r.submits = [] → r.ending = QEnd.timeout := by
  intro inputs
  induction inputs with
  | nil =>
    intro q score tr st _ r hr
    simp only [quiz_loop] at hr
    split at hr <;> simp at hr
  | cons qi rest ih =>
    intro q score tr st h r hr
    by_cases hc : cond q = true
    · simp only [quiz_loop, hc, if_true] at h hr
      have ha := question_loop_answered (current q).correct_option qi.start qi.frames
        QUESTION_TIME ⟨-1, false, score, []⟩ (by simp)
      cases he : (question_loop (current q).correct_option qi.start qi.frames
          QUESTION_TIME ⟨-1, false, score, []⟩).ending with
      | quit => simp [he] at h
      | pending => simp [he] at h
      | answered =>
        simp only [he] at h hr
        simp only [List.mem_cons] at hr
        rcases hr with hr | hr
        · subst hr
          intro hsub
          exact absurd hsub (ha he)
        · exact ih _ _ _ _ h r hr
      | timeout =>
        simp only [he] at h hr
        simp only [List.mem_cons] at hr
        rcases hr with hr | hr
        · subst hr
          intro _; rfl
        · exact ih _ _ _ _ h r hr
    · simp [quiz_loop, hc] at hr

/-! ## From the points of the questions to the counts -/

theorem points_of_le_one (r : QResult) (h : r.submits.length ≤ 1) :
    points r.question.correct_option r.submits
      = (if r.is_correct = true then 5 else 0) - (if r.is_wrong = true then 1 else 0) := by
  unfold QResult.is_correct QResult.is_wrong points
  match hs : r.submits with
  | [] => simp
  | [a] =>
    by_cases ha : a = r.question.correct_option
    · simp [ha]
    · simp [ha]
  | a :: b :: l => rw [hs] at h; simp at h

theorem sum_points_eq (rs : List QResult) (h : ∀ r ∈ rs, r.submits.length ≤ 1) :
    (rs.map (fun r => points r.question.correct_option r.submits)).sum
      = 5 * (rs.countP QResult.is_correct : Int) - (rs.countP QResult.is_wrong : Int) := by
  induction rs with
  | nil => simp
  | cons r rs ih =>
    have h1 := points_of_le_one r (h r (List.mem_cons_self _ _))
    have h2 := ih (fun x hx => h x (List.mem_cons_of_mem _ hx))
    simp only [List.map_cons, List.sum_cons, List.countP_cons, h1, h2]
    by_cases hc : r.is_correct = true <;> by_cases hw : r.is_wrong = true <;>
      simp [hc, hw] <;> ring

theorem correct_not_wrong (r : QResult) (h : r.is_correct = true) : r.is_wrong = false := by
  unfold QResult.is_correct at h
  unfold QResult.is_wrong
  simp at h
  simp [h]

theorem wrong_not_correct (r : QResult) (h : r.is_wrong = true) : r.is_correct = false := by
  unfold QResult.is_wrong at h
  unfold QResult.is_correct
  simp at h
  simp [h.2]

theorem timeout_not_scored (r : QResult) (h : r.is_timeout = true) :
    r.is_correct = false ∧ r.is_wrong = false := by
  unfold QResult.is_timeout at h
  unfold QResult.is_correct QResult.is_wrong
  simp at h
  simp [h.1]

/-- The scoring rule holds for the result of the `for` loop of a completed session in
which no question has more than one committed answer. -/
theorem quiz_loop_score_law (cond : Nat → Bool) (current : Nat → Question)
    (inputs : List QuestionInput) (tr : Int) (st : Nat)
    (hdone : (quiz_loop cond current inputs 0 0 tr st).status = Status.completed)
    (hone : ∀ r ∈ (quiz_loop cond current inputs 0 0 tr st).results, r.submits.length ≤ 1) :
    score_law (quiz_loop cond current inputs 0 0 tr st).score
      (quiz_loop cond current inputs 0 0 tr st).results := by
  have hsum : (quiz_loop cond current inputs 0 0 tr st).score
      = 5 * ((quiz_loop cond current inputs 0 0 tr st).results.countP QResult.is_correct : Int)
        - ((quiz_loop cond current inputs 0 0 tr st).results.countP QResult.is_wrong : Int) := by
    rw [quiz_loop_account, sum_points_eq _ hone, zero_add]
  have hto := quiz_loop_completed_timeout cond current inputs 0 0 tr st hdone
  generalize (quiz_loop cond current inputs 0 0 tr st).score = score at hsum
  generalize (quiz_loop cond current inputs 0 0 tr st).results = rs at hsum hone hto
  refine ⟨?_, hsum, ?_, ?_, ?_⟩
  · intro r hr
    have h1 := hone r hr
    have h2 := hto r hr
    unfold QResult.is_correct QResult.is_wrong QResult.is_timeout
    match hs : r.submits with
    | [] => right; right; simp [h2 hs]
    | [a] =>
      by_cases ha : a = r.question.correct_option
      · left; simp [ha]
      · right; left; simp [ha]
    | a :: b :: l => rw [hs] at h1; simp at h1
  · intro hall
    have hc : rs.countP QResult.is_correct = rs.length := List.countP_eq_length.mpr hall
    have hw : rs.countP QResult.is_wrong = 0 :=
      List.countP_eq_zero.mpr (fun r hr => by simp [correct_not_wrong r (hall r hr)])
    rw [hsum, hc, hw]; simp
  · intro hall
    have hw : rs.countP QResult.is_wrong = rs.length := List.countP_eq_length.mpr hall
    have hc : rs.countP QResult.is_correct = 0 :=
      List.countP_eq_zero.mpr (fun r hr => by simp [wrong_not_correct r (hall r hr)])
    rw [hsum, hc, hw]; simp
  · intro hall
    have hc : rs.countP QResult.is_correct = 0 :=
      List.countP_eq_zero.mpr (fun r hr => by simp [(timeout_not_scored r (hall r hr)).1])
    have hw : rs.countP QResult.is_wrong = 0 :=
      List.countP_eq_zero.mpr (fun r hr => by simp [(timeout_not_scored r (hall r hr)).2])
    rw [hsum, hc, hw]; simp

theorem Scores.get_set_self (s : Scores) (d v : Int) (hd : d = 0 ∨ d = 1 ∨ d = 2) :
    (s.set d v).get d = v := by
  rcases hd with rfl | rfl | rfl <;> simp [Scores.set, Scores.get]

end Quiz

namespace Quiz

theorem Scores.get_set_other (s : Scores) (d d1 v : Int) (h : d1 ≠ d) :
    (s.set d v).get d1 = s.get d1 := by
  unfold Scores.set Scores.get
  split_ifs <;> simp_all

theorem getD_set_eq {α : Type} (l : List α) (k : Nat) (a d : α) (h : k < l.length) :
    (l.set k a).getD k d = a := by
  simp [List.getD_eq_getElem?_getD, List.getElem?_set, h]

theorem getD_set_ne {α : Type} (l : List α) (k j : Nat) (a d : α) (h : k ≠ j) :
    (l.set k a).getD j d = l.getD j d := by
  simp [List.getD_eq_getElem?_getD, List.getElem?_set, h]

end Quiz

namespace QuizC
open Quiz

/-! ## `add_player_score` -/

theorem find_player_spec (players : List Player) (name : String) :
    ∀ (n i : Nat),
      (find_player players name n i = -1 ∧
        ∀ j, i ≤ j → j < i + n → (players.getD j default).name ≠ name) ∨
      (∃ k : Nat, find_player players name n i = (k : Int) ∧ i ≤ k ∧ k < i + n ∧
        (players.getD k default).name = name ∧
        ∀ j, i ≤ j → j < k → (players.getD j default).name ≠ name) := by
  intro n
  induction n with
  | zero => intro i; left; exact ⟨rfl, fun j h1 h2 => by omega⟩
  | succ n ih =>
    intro i
    simp only [find_player]
    by_cases h : (players.getD i default).name = name
    · right; exact ⟨i, if_pos h, le_refl _, by omega, h, fun j h1 h2 => by omega⟩
    · simp only [h, if_false]
      rcases ih (i + 1) with ⟨h1, h2⟩ | ⟨k, h1, h2, h3, h4, h5⟩
      · left
        refine ⟨h1, fun j hj1 hj2 => ?_⟩
        by_cases hji : j = i
        · subst hji; exact h
        · exact h2 j (by omega) (by omega)
      · right
        refine ⟨k, h1, by omega, by omega, h4, fun j hj1 hj2 => ?_⟩
        by_cases hji : j = i
        · subst hji; exact h
        · exact h5 j (by omega) hj2

theorem add_player_score_game (w : World) (name : String) (d s : Int) (fopen_ok : Bool) :
    (add_player_score w name d s fopen_ok).game = upsert_player w.game name d s := by
  simp only [add_player_score, save_players]
  split <;> rfl

/-- What `add_player_score` does not touch. -/
theorem add_player_score_frame (w : World) (name : String) (d s : Int) (fopen_ok : Bool) :
    (add_player_score w name d s fopen_ok).game.current_score = w.game.current_score ∧
    (add_player_score w name d s fopen_ok).game.questions = w.game.questions ∧
    (add_player_score w name d s fopen_ok).game.total_questions = w.game.total_questions ∧
    (add_player_score w name d s fopen_ok).game.current_player = w.game.current_player := by
  rw [add_player_score_game]
  simp only [upsert_player]
  split
  · exact ⟨rfl, rfl, rfl, rfl⟩
  · split <;> exact ⟨rfl, rfl, rfl, rfl⟩

theorem name_getElem_take (players : List Player) (n j : Nat) (hn : n ≤ players.length)
    (hj : j < ((players.take n).map Player.name).length) :
    ((players.take n).map Player.name)[j] = (players.getD j default).name := by
  have hj1 : j < n := by simp at hj; omega
  simp [List.getElem_take, List.getD_eq_getElem?_getD,
    List.getElem?_eq_getElem (show j < players.length by omega)]

/-- The upsert, for a repository whose recorded names are pairwise distinct: afterwards
exactly one record carries `name`, its slot `d` holds `s`, and nothing else of the
records that existed has changed; a record that is new has the sentinel in its other
slots. -/
theorem add_player_score_spec (w : World) (name : String) (d s : Int) (fopen_ok : Bool)
    (hd : d = 0 ∨ d = 1 ∨ d = 2)
    (hlen : w.game.players.length = MAX_PLAYERS)
    (h0 : 0 ≤ w.game.total_players) (h1 : w.game.total_players ≤ MAX_PLAYERS)
    (hnodup : ((w.game.players.take w.game.total_players.toNat).map Player.name).Nodup)
    (hroom : name ∈ (w.game.players.take w.game.total_players.toNat).map Player.name ∨
      w.game.total_players < MAX_PLAYERS) :
    ∃ i : Nat, i < (add_player_score w name d s fopen_ok).game.total_players.toNat ∧
      ((add_player_score w name d s fopen_ok).game.players.getD i default).name = name ∧
      ((add_player_score w name d s fopen_ok).game.players.getD i default).scores.get d = s ∧
      (∀ j, j < (add_player_score w name d s fopen_ok).game.total_players.toNat →
        ((add_player_score w name d s fopen_ok).game.players.getD j default).name = name →
        j = i) ∧
      (∀ j, j < w.game.total_players.toNat →
        ((add_player_score w name d s fopen_ok).game.players.getD j default).name
          = (w.game.players.getD j default).name ∧
        ∀ d1, (j ≠ i ∨ d1 ≠ d) →
          ((add_player_score w name d s fopen_ok).game.players.getD j default).scores.get d1
            = (w.game.players.getD j default).scores.get d1) ∧
      (w.game.total_players.toNat ≤ i → ∀ d1, (d1 = 0 ∨ d1 = 1 ∨ d1 = 2) → d1 ≠ d →
        ((add_player_score w name d s fopen_ok).game.players.getD i default).scores.get d1
          = -1) := by
  have hmax : (MAX_PLAYERS : Int) = 100 := rfl
  have hmaxn : MAX_PLAYERS = 100 := rfl
  have hn : w.game.total_players.toNat ≤ w.game.players.length := by omega
  have hnames : ∀ j, j < w.game.total_players.toNat →
      ∃ hj : j < ((w.game.players.take w.game.total_players.toNat).map Player.name).length,
        ((w.game.players.take w.game.total_players.toNat).map Player.name)[j]
          = (w.game.players.getD j default).name := by
    intro j hj
    have hj2 : j < ((w.game.players.take w.game.total_players.toNat).map Player.name).length := by
      simp; omega
    exact ⟨hj2, name_getElem_take _ _ _ hn hj2⟩
  rw [add_player_score_game]
  simp only [upsert_player]
  rcases find_player_spec w.game.players name w.game.total_players.toNat 0 with
    ⟨hf, hno⟩ | ⟨k, hf, _, hk, hname, _⟩
  · -- no record carries the name: a record is appended
    have hlt : w.game.total_players < MAX_PLAYERS := by
      rcases hroom with hmem | hlt
      · exfalso
        obtain ⟨j, hj, hx⟩ := List.mem_iff_getElem.mp hmem
        have hj1 : j < w.game.total_players.toNat := by simp at hj; omega
        obtain ⟨_, hj3⟩ := hnames j hj1
        exact hno j (Nat.zero_le _) (by omega) (hj3.symm.trans hx)
      · exact hlt
    simp only [hf, ne_eq, not_true_eq_false, if_false, hlt, if_true]
    have hidx : w.game.total_players.toNat < w.game.players.length := by omega
    refine ⟨w.game.total_players.toNat, by omega, ?_, ?_, ?_, ?_, ?_⟩
    · rw [getD_set_eq _ _ _ _ hidx]
    · rw [getD_set_eq _ _ _ _ hidx]
      exact Scores.get_set_self _ _ _ hd
    · intro j hj hjn
      by_contra hne
      rw [getD_set_ne _ _ _ _ _ (fun h => hne h.symm)] at hjn
      exact hno j (Nat.zero_le _) (by omega) hjn
    · intro j hj
      rw [getD_set_ne _ _ _ _ _ (by omega)]
      exact ⟨rfl, fun _ _ => rfl⟩
    · intro _ d1 hd1 hne
      rw [getD_set_eq _ _ _ _ hidx]
      show ((Scores.mk (-1) (-1) (-1)).set d s).get d1 = -1
      rw [Scores.get_set_other _ _ _ _ hne]
      rcases hd1 with rfl | rfl | rfl <;> rfl
  · -- the first record carrying the name is updated
    have hk0 : k < w.game.total_players.toNat := by omega
    have hidx : k < w.game.players.length := by omega
    have hne1 : (k : Int) ≠ -1 := by omega
    simp only [hf, ne_eq, hne1, not_false_eq_true, if_true, Int.toNat_ofNat]
    refine ⟨k, hk0, ?_, ?_, ?_, ?_, ?_⟩
    · rw [getD_set_eq _ _ _ _ hidx]; exact hname
    · rw [getD_set_eq _ _ _ _ hidx]
      exact Scores.get_set_self _ _ _ hd
    · intro j hj hjn
      by_contra hne
      rw [getD_set_ne _ _ _ _ _ (fun h => hne h.symm)] at hjn
      obtain ⟨hj2, hj3⟩ := hnames j hj
      obtain ⟨hk2, hk3⟩ := hnames k hk0
      have := (@List.Nodup.getElem_inj_iff _ _ hnodup j hj2 k hk2).mp
        (by rw [hj3, hk3, hjn, hname])
      exact hne this
    · intro j hj
      by_cases hjk : j = k
      · subst hjk
        rw [getD_set_eq _ _ _ _ hidx]
        refine ⟨rfl, fun d1 hd1 => ?_⟩
        rcases hd1 with hd1 | hd1
        · exact absurd rfl hd1
        · exact Scores.get_set_other _ _ _ _ hd1
      · rw [getD_set_ne _ _ _ _ _ (fun h => hjk h.symm)]
        exact ⟨rfl, fun _ _ => rfl⟩
    · intro hle; omega

end QuizC

namespace QuizC
open Quiz

theorem started_of_completed (w : World) (d : Int) (rand : Nat → Nat)
    (inputs : List QuestionInput) (fopen_ok : Bool)
    (h : (start_quiz w d rand inputs fopen_ok).status = Status.completed) :
    ¬ (filter_by_difficulty w.game d).length < QUESTIONS_PER_LEVEL := by
  intro hc
  rw [start_quiz_refused w d rand inputs fopen_ok hc] at h
  simp at h

theorem start_quiz_score_law (w : World) (d : Int) (rand : Nat → Nat)
    (inputs : List QuestionInput) (fopen_ok : Bool)
    (hdone : (start_quiz w d rand inputs fopen_ok).status = Status.completed)
    (hone : ∀ r ∈ (start_quiz w d rand inputs fopen_ok).results, r.submits.length ≤ 1) :
    score_law (start_quiz w d rand inputs fopen_ok).score
      (start_quiz w d rand inputs fopen_ok).results := by
  obtain ⟨h1, h2, h3⟩ := start_quiz_started w d rand inputs fopen_ok
    (started_of_completed w d rand inputs fopen_ok hdone)
  rw [h1] at hdone
  rw [h2] at hone
  rw [h2, h3]
  exact quiz_loop_score_law _ _ _ _ _ hdone hone

theorem start_quiz_current_score (w : World) (d : Int) (rand : Nat → Nat)
    (inputs : List QuestionInput) (fopen_ok : Bool)
    (hdone : (start_quiz w d rand inputs fopen_ok).status = Status.completed)
    (hd : d = 0 ∨ d = 1 ∨ d = 2) :
    (start_quiz w d rand inputs fopen_ok).world.game.current_score.get d
      = (start_quiz w d rand inputs fopen_ok).score := by
  rw [start_quiz_completed w d rand inputs fopen_ok hdone, (add_player_score_frame _ _ _ _ _).1]
  exact Scores.get_set_self _ _ _ hd

end QuizC

namespace MainC
open Quiz

theorem main_started_of_completed (g : GameState) (d : Int) (rand : Nat → Nat)
    (inputs : List QuestionInput)
    (h : (start_quiz g d rand inputs).status = Status.completed) :
    (filter_by_difficulty g d).length ≠ 0 := by
  intro hc
  rw [main_start_quiz_refused g d rand inputs hc] at h
  simp at h

theorem main_start_quiz_score_law (g : GameState) (d : Int) (rand : Nat → Nat)
    (inputs : List QuestionInput)
    (hdone : (start_quiz g d rand inputs).status = Status.completed)
    (hone : ∀ r ∈ (start_quiz g d rand inputs).results, r.submits.length ≤ 1) :
    score_law (start_quiz g d rand inputs).score (start_quiz g d rand inputs).results := by
  obtain ⟨h1, h2, h3⟩ := main_start_quiz_started g d rand inputs
    (main_started_of_completed g d rand inputs hdone)
  rw [h1] at hdone
  rw [h2] at hone
  rw [h2, h3]
  exact quiz_loop_score_law _ _ _ _ _ hdone hone

end MainC

namespace Quiz

/-- C1: for a session played to completion in which every question ended with one
outcome (no question has more than one committed answer), the final score is
`5 * (questions answered correctly) - (questions answered wrongly)`, timed-out questions
counting 0; every question is then exactly one of correct, wrong, timed out; all correct
gives `5 * n`, all wrong `-n`, all timed out `0` (`score_law`); and the score is what
`start_quiz` stores in `current_score[difficulty]`.  Both for `quiz.c` and `main.c`. -/
theorem C1_final_score_is_5_correct_minus_wrong (w : QuizC.World) (g : MainC.GameState)
    (d : Int) (rand : Nat → Nat) (inputs : List QuestionInput) (fopen_ok : Bool) :
    ((QuizC.start_quiz w d rand inputs fopen_ok).status = Status.completed →
      (∀ r ∈ (QuizC.start_quiz w d rand inputs fopen_ok).results, r.submits.length ≤ 1) →
      score_law (QuizC.start_quiz w d rand inputs fopen_ok).score
        (QuizC.start_quiz w d rand inputs fopen_ok).results ∧
      ((d = 0 ∨ d = 1 ∨ d = 2) →
        (QuizC.start_quiz w d rand inputs fopen_ok).world.game.current_score.get d
          = (QuizC.start_quiz w d rand inputs fopen_ok).score)) ∧
    ((MainC.start_quiz g d rand inputs).status = Status.completed →
      (∀ r ∈ (MainC.start_quiz g d rand inputs).results, r.submits.length ≤ 1) →
      score_law (MainC.start_quiz g d rand inputs).score
        (MainC.start_quiz g d rand inputs).results ∧
      ((d = 0 ∨ d = 1 ∨ d = 2) →
        (MainC.start_quiz g d rand inputs).game.current_score.get d
          = (MainC.start_quiz g d rand inputs).score)) := by
  constructor
  · intro hdone hone
    exact ⟨QuizC.start_quiz_score_law w d rand inputs fopen_ok hdone hone,
      QuizC.start_quiz_current_score w d rand inputs fopen_ok hdone⟩
  · intro hdone hone
    refine ⟨MainC.main_start_quiz_score_law g d rand inputs hdone hone, fun hd => ?_⟩
    rw [MainC.main_start_quiz_completed g d rand inputs hdone]
    exact Scores.get_set_self _ _ _ hd

/-- Witness of C1: the mixed `quiz.c` sample session (4 correct, 3 wrong, 3 timed out)
ends with score `5 * 4 - 3 = 17`; the `main.c` session on the two medium questions
(one timed out, one correct) ends with score 5. -/
theorem C1_final_score_is_5_correct_minus_wrong_witness :
    (score_law (QuizC.start_quiz QuizC.sample_world 0 sample_rand QuizC.mixed_inputs true).score
        (QuizC.start_quiz QuizC.sample_world 0 sample_rand QuizC.mixed_inputs true).results ∧
      (QuizC.start_quiz QuizC.sample_world 0 sample_rand QuizC.mixed_inputs true).results.countP
        QResult.is_correct = 4 ∧
      (QuizC.start_quiz QuizC.sample_world 0 sample_rand QuizC.mixed_inputs true).results.countP
        QResult.is_wrong = 3 ∧
      (QuizC.start_quiz QuizC.sample_world 0 sample_rand QuizC.mixed_inputs
        true).world.game.current_score.get 0 = 17) ∧
    (score_law (MainC.start_quiz MainC.sample_game 1 sample_rand
          [let_time_out, answer_with 3]).score
        (MainC.start_quiz MainC.sample_game 1 sample_rand
          [let_time_out, answer_with 3]).results ∧
      (MainC.start_quiz MainC.sample_game 1 sample_rand
        [let_time_out, answer_with 3]).game.current_score.get 1 = 5) := by
  have hq := (C1_final_score_is_5_correct_minus_wrong QuizC.sample_world MainC.sample_game 0
    sample_rand QuizC.mixed_inputs true).1 (by decide) (by decide)
  have hm := (C1_final_score_is_5_correct_minus_wrong QuizC.sample_world MainC.sample_game 1
    sample_rand [let_time_out, answer_with 3] true).2 (by decide) (by decide)
  exact ⟨⟨hq.1, by decide, by decide, (hq.2 (Or.inl rfl)).trans (by decide)⟩,
    ⟨hm.1, (hm.2 (Or.inr (Or.inl rfl))).trans (by decide)⟩⟩

/-- C10: in `quiz.c`, for a repository whose recorded names are pairwise distinct, when a
session for difficulty `d` completes with final score `s` for the current player `p`
(already recorded, or with room for one more record): `current_score[d] = s`; exactly one
record has name `p` and its `scores[d]` is `s`; every other slot of every record that
existed is unchanged (a record that is new has the sentinel `-1` in its other two slots);
and with exactly 10 questions available, all answered correctly, `s = 50`. -/
theorem C10_completed_session_is_recorded (w : QuizC.World) (d : Int) (rand : Nat → Nat)
    (inputs : List QuestionInput) (fopen_ok : Bool)
    (hd : d = 0 ∨ d = 1 ∨ d = 2)
    (hlen : w.game.players.length = MAX_PLAYERS)
    (h0 : 0 ≤ w.game.total_players) (h1 : w.game.total_players ≤ MAX_PLAYERS)
    (hnodup : ((w.game.players.take w.game.total_players.toNat).map Player.name).Nodup)
    (hroom : w.game.current_player
        ∈ (w.game.players.take w.game.total_players.toNat).map Player.name ∨
      w.game.total_players < MAX_PLAYERS)
    (hdone : (QuizC.start_quiz w d rand inputs fopen_ok).status = Status.completed) :
    (QuizC.start_quiz w d rand inputs fopen_ok).world.game.current_score.get d
      = (QuizC.start_quiz w d rand inputs fopen_ok).score ∧
    (∃ i : Nat,
      i < (QuizC.start_quiz w d rand inputs fopen_ok).world.game.total_players.toNat ∧
      ((QuizC.start_quiz w d rand inputs fopen_ok).world.game.players.getD i default).name
        = w.game.current_player ∧
      ((QuizC.start_quiz w d rand inputs fopen_ok).world.game.players.getD i
        default).scores.get d = (QuizC.start_quiz w d rand inputs fopen_ok).score ∧
      (∀ j, j < (QuizC.start_quiz w d rand inputs fopen_ok).world.game.total_players.toNat →
        ((QuizC.start_quiz w d rand inputs fopen_ok).world.game.players.getD j default).name
          = w.game.current_player → j = i) ∧
      (∀ j, j < w.game.total_players.toNat →
        ((QuizC.start_quiz w d rand inputs fopen_ok).world.game.players.getD j default).name
          = (w.game.players.getD j default).name ∧
        ∀ d1, (j ≠ i ∨ d1 ≠ d) →
          ((QuizC.start_quiz w d rand inputs fopen_ok).world.game.players.getD j
            default).scores.get d1 = (w.game.players.getD j default).scores.get d1) ∧
      (w.game.total_players.toNat ≤ i → ∀ d1, (d1 = 0 ∨ d1 = 1 ∨ d1 = 2) → d1 ≠ d →
        ((QuizC.start_quiz w d rand inputs fopen_ok).world.game.players.getD i
          default).scores.get d1 = -1)) ∧
    ((QuizC.filter_by_difficulty w.game d).length = 10 →
      (∀ r ∈ (QuizC.start_quiz w d rand inputs fopen_ok).results, r.is_correct = true) →
      (QuizC.start_quiz w d rand inputs fopen_ok).score = 50) := by
  refine ⟨QuizC.start_quiz_current_score w d rand inputs fopen_ok hdone hd, ?_, ?_⟩
  · rw [QuizC.start_quiz_completed w d rand inputs fopen_ok hdone]
    exact QuizC.add_player_score_spec _ w.game.current_player d _ fopen_ok hd hlen h0 h1
      hnodup hroom
  · intro hcount hall
    have hone : ∀ r ∈ (QuizC.start_quiz w d rand inputs fopen_ok).results,
        r.submits.length ≤ 1 := by
      intro r hr
      have := hall r hr
      unfold QResult.is_correct at this
      simp at this
      simp [this]
    have hlaw := QuizC.start_quiz_score_law w d rand inputs fopen_ok hdone hone
    have hstarted := QuizC.started_of_completed w d rand inputs fopen_ok hdone
    obtain ⟨hs1, hs2, _⟩ := QuizC.start_quiz_started w d rand inputs fopen_ok hstarted
    have hlen10 : (QuizC.start_quiz w d rand inputs fopen_ok).results.length = 10 := by
      rw [hs1, QuizC.run_questions_eq] at hdone
      rw [hs2, QuizC.run_questions_eq, quiz_loop_completed_length _ _ _ _ _ _ _ hdone, hcount]
      rfl
    rw [hlaw.2.2.1 hall, hlen10]
    rfl

/-- Witness of C10: Ann, not yet recorded, answers all ten easy sample questions
correctly; her record is appended after Bob's with scores `[50, -1, -1]`. -/
theorem C10_completed_session_is_recorded_witness :
    (QuizC.start_quiz QuizC.sample_world 0 sample_rand QuizC.all_correct_inputs true).status
      = Status.completed ∧
    (QuizC.start_quiz QuizC.sample_world 0 sample_rand QuizC.all_correct_inputs true).score
      = 50 ∧
    (QuizC.start_quiz QuizC.sample_world 0 sample_rand QuizC.all_correct_inputs
      true).world.game.current_score.get 0 = 50 ∧
    (QuizC.start_quiz QuizC.sample_world 0 sample_rand QuizC.all_correct_inputs
      true).world.game.players.take 2 = [⟨"Bob", ⟨-1, 20, -1⟩⟩, ⟨"Ann", ⟨50, -1, -1⟩⟩] ∧
    (QuizC.start_quiz QuizC.sample_world 0 sample_rand QuizC.all_correct_inputs
      true).world.game.total_players = 2 := by
  have h := C10_completed_session_is_recorded QuizC.sample_world 0 sample_rand
    QuizC.all_correct_inputs true (Or.inl rfl) (by decide) (by decide) (by decide) (by decide)
    (Or.inr (by decide)) (by decide)
  have hs := h.2.2 (by decide) (by decide)
  exact ⟨by decide, hs, h.1.trans hs, by decide, by decide⟩

end Quiz

namespace Quiz

/-! ## List facts used by the repository claims -/

theorem set_same {α : Type} (l : List α) (k : Nat) (x : α)
    (h : ∀ hk : k < l.length, l[k] = x) : l.set k x = l := by
  apply List.ext_getElem?
  intro i
  rw [List.getElem?_set]
  by_cases hik : k = i
  · subst hik
    by_cases hk : k < l.length
    · simp [hk, List.getElem?_eq_getElem hk, h hk]
    · simp [hk, List.getElem?_eq_none (Nat.le_of_not_lt hk)]
  · simp [hik]

theorem take_succ_set {α : Type} (l : List α) (n : Nat) (a : α) (h : n < l.length) :
    (l.set n a).take (n + 1) = l.take n ++ [a] := by
  rw [List.take_succ, List.set_take, List.getElem?_set_self h]
  rw [List.set_eq_of_length_le (by simp)]
  rfl

end Quiz

namespace QuizC
open Quiz

/-! ## The player repository: `add_player_score` case by case -/

theorem mem_recorded_names (g : GameState) (name : String)
    (hn : g.total_players.toNat ≤ g.players.length) :
    name ∈ recorded_names g ↔
      ∃ j, j < g.total_players.toNat ∧ (g.players.getD j default).name = name := by
  unfold recorded_names
  constructor
  · intro h
    obtain ⟨j, hj, hx⟩ := List.mem_iff_getElem.mp h
    have hj1 : j < g.total_players.toNat := by simp at hj; omega
    exact ⟨j, hj1, (name_getElem_take _ _ _ hn hj).symm.trans hx⟩
  · rintro ⟨j, hj, hx⟩
    have hj2 : j < ((g.players.take g.total_players.toNat).map Player.name).length := by
      simp; omega
    rw [← hx, ← name_getElem_take _ _ _ hn hj2]
    exact List.getElem_mem hj2

theorem find_player_of_not_mem (g : GameState) (name : String)
    (hn : g.total_players.toNat ≤ g.players.length) (h : name ∉ recorded_names g) :
    find_player g.players name g.total_players.toNat 0 = -1 := by
  rcases find_player_spec g.players name g.total_players.toNat 0 with
    ⟨hf, _⟩ | ⟨k, _, _, hk, hname, _⟩
  · exact hf
  · exact absurd ((mem_recorded_names g name hn).mpr ⟨k, by omega, hname⟩) h

theorem find_player_of_mem (g : GameState) (name : String)
    (hn : g.total_players.toNat ≤ g.players.length) (h : name ∈ recorded_names g) :
    ∃ k : Nat, find_player g.players name g.total_players.toNat 0 = (k : Int) ∧
      k < g.total_players.toNat ∧ (g.players.getD k default).name = name ∧
      ∀ j, j < k → (g.players.getD j default).name ≠ name := by
  rcases find_player_spec g.players name g.total_players.toNat 0 with
    ⟨_, hno⟩ | ⟨k, hf, _, hk, hname, hfirst⟩
  · obtain ⟨j, hj, hx⟩ := (mem_recorded_names g name hn).mp h
    exact absurd hx (hno j (Nat.zero_le _) (by omega))
  · exact ⟨k, hf, by omega, hname, fun j hj => hfirst j (Nat.zero_le _) hj⟩

/-- The upsert when a record carries the name: that record gets the score. -/
theorem upsert_player_found (g : GameState) (name : String) (d s : Int) (k : Nat)
    (hf : find_player g.players name g.total_players.toNat 0 = (k : Int)) :
    upsert_player g name d s
      = { g with players := (g.players.set k
            ⟨(g.players.getD k default).name, (g.players.getD k default).scores.set d s⟩) } := by
  have hne : (k : Int) ≠ -1 := by omega
  simp only [upsert_player, hf, ne_eq, hne, not_false_eq_true, if_true, Int.toNat_ofNat]

/-- The upsert when no record carries the name and there is room: a record is appended. -/
theorem upsert_player_append (g : GameState) (name : String) (d s : Int)
    (hf : find_player g.players name g.total_players.toNat 0 = -1)
    (hlt : g.total_players < MAX_PLAYERS) :
    upsert_player g name d s
      = { g with players := (g.players.set g.total_players.toNat
                   ⟨name, (Scores.mk (-1) (-1) (-1)).set d s⟩),
                 total_players := g.total_players + 1 } := by
  simp only [upsert_player, hf, ne_eq, not_true_eq_false, if_false, hlt, if_true]

/-- The upsert when no record carries the name and the array is full: nothing changes. -/
theorem upsert_player_full (g : GameState) (name : String) (d s : Int)
    (hf : find_player g.players name g.total_players.toNat 0 = -1)
    (hfull : ¬ g.total_players < MAX_PLAYERS) :
    upsert_player g name d s = g := by
  simp only [upsert_player, hf, ne_eq, not_true_eq_false, if_false, hfull]

theorem recorded_names_set_scores (g : GameState) (k : Nat) (sc : Scores) :
    ((g.players.set k ⟨(g.players.getD k default).name, sc⟩).take
        g.total_players.toNat).map Player.name
      = recorded_names g := by
  unfold recorded_names
  rw [List.set_take, List.map_set]
  apply set_same
  intro hk
  simp only [List.length_map, List.length_take] at hk
  have hk2 : k < g.players.length := by omega
  simp [List.getElem_take, List.getD_eq_getElem?_getD, List.getElem?_eq_getElem hk2]

end QuizC

namespace QuizC
open Quiz

/-- One upsert keeps the recorded names pairwise distinct. -/
theorem upsert_player_nodup (g : GameState) (name : String) (d s : Int)
    (h : (recorded_names g).Nodup) : (recorded_names (upsert_player g name d s)).Nodup := by
  rcases find_player_spec g.players name g.total_players.toNat 0 with
    ⟨hf, hno⟩ | ⟨k, hf, _, _, _, _⟩
  · by_cases hlt : g.total_players < MAX_PLAYERS
    · rw [upsert_player_append g name d s hf hlt]
      unfold recorded_names at h ⊢
      show (((g.players.set g.total_players.toNat
        ⟨name, (Scores.mk (-1) (-1) (-1)).set d s⟩).take
          (g.total_players + 1).toNat).map Player.name).Nodup
      by_cases h0 : 0 ≤ g.total_players
      · have hsucc : (g.total_players + 1).toNat = g.total_players.toNat + 1 := by omega
        rw [hsucc]
        by_cases hin : g.total_players.toNat < g.players.length
        · rw [take_succ_set _ _ _ hin, List.map_append, List.map_singleton]
          apply List.Nodup.append h (List.nodup_singleton _)
          intro x hx hx2
          simp only [List.mem_singleton] at hx2
          subst hx2
          obtain ⟨j, hj, hjx⟩ :=
            (mem_recorded_names g _ (Nat.le_of_lt hin)).mp hx
          exact hno j (Nat.zero_le _) (by omega) hjx
        · have hle : g.players.length ≤ g.total_players.toNat := Nat.le_of_not_lt hin
          rw [List.set_eq_of_length_le hle, List.take_of_length_le (by omega)]
          rw [List.take_of_length_le hle] at h
          exact h
      · have hz : (g.total_players + 1).toNat = 0 := by omega
        rw [hz]
        simp
    · rw [upsert_player_full g name d s hf hlt]
      exact h
  · rw [upsert_player_found g name d s k hf]
    show (((g.players.set k
      ⟨(g.players.getD k default).name, (g.players.getD k default).scores.set d s⟩).take
        g.total_players.toNat).map Player.name).Nodup
    rw [recorded_names_set_scores]
    exact h

theorem upserts_nodup (calls : List (String × Int × Int × Bool)) :
    ∀ w : World, (recorded_names w.game).Nodup →
      (recorded_names (upserts w calls).game).Nodup := by
  induction calls with
  | nil => intro w h; exact h
  | cons c cs ih =>
    intro w h
    unfold upserts
    rw [List.foldl_cons]
    apply ih
    rw [add_player_score_game]
    exact upsert_player_nodup _ _ _ _ h

end QuizC

namespace Quiz

/-- C11: for a name carried by none of the first `total_players` records and
`0 <= total_players < MAX_PLAYERS`, `add_player_score(name, d, score)` writes one record
at index `total_players` with that name, `scores[d] = score` and the other two scores
`-1`, increments `total_players` by exactly 1, and leaves every other slot of the array,
in particular all earlier records, unchanged. -/
theorem C11_new_player_is_appended (w : QuizC.World) (name : String) (d score : Int)
    (fopen_ok : Bool)
    (hd : d = 0 ∨ d = 1 ∨ d = 2)
    (hlen : w.game.players.length = MAX_PLAYERS)
    (h0 : 0 ≤ w.game.total_players)
    (hlt : w.game.total_players < MAX_PLAYERS)
    (hnew : name ∉ QuizC.recorded_names w.game) :
    (QuizC.add_player_score w name d score fopen_ok).game.total_players
      = w.game.total_players + 1 ∧
    ((QuizC.add_player_score w name d score fopen_ok).game.players.getD
      w.game.total_players.toNat default).name = name ∧
    ((QuizC.add_player_score w name d score fopen_ok).game.players.getD
      w.game.total_players.toNat default).scores.get d = score ∧
    (∀ d1, (d1 = 0 ∨ d1 = 1 ∨ d1 = 2) → d1 ≠ d →
      ((QuizC.add_player_score w name d score fopen_ok).game.players.getD
        w.game.total_players.toNat default).scores.get d1 = -1) ∧
    (∀ j, j ≠ w.game.total_players.toNat →
      (QuizC.add_player_score w name d score fopen_ok).game.players.getD j default
        = w.game.players.getD j default) ∧
    QuizC.recorded_names (QuizC.add_player_score w name d score fopen_ok).game
      = QuizC.recorded_names w.game ++ [name] := by
  have hmax : (MAX_PLAYERS : Int) = 100 := rfl
  have hmaxn : MAX_PLAYERS = 100 := rfl
  have hidx : w.game.total_players.toNat < w.game.players.length := by omega
  have hf := QuizC.find_player_of_not_mem w.game name (Nat.le_of_lt hidx) hnew
  rw [QuizC.add_player_score_game, QuizC.upsert_player_append w.game name d score hf hlt]
  refine ⟨rfl, ?_, ?_, ?_, ?_, ?_⟩
  · show ((w.game.players.set _ _).getD _ default).name = name
    rw [getD_set_eq _ _ _ _ hidx]
  · show ((w.game.players.set _ _).getD _ default).scores.get d = score
    rw [getD_set_eq _ _ _ _ hidx]
    exact Scores.get_set_self _ _ _ hd
  · intro d1 hd1 hne
    show ((w.game.players.set _ _).getD _ default).scores.get d1 = -1
    rw [getD_set_eq _ _ _ _ hidx]
    show ((Scores.mk (-1) (-1) (-1)).set d score).get d1 = -1
    rw [Scores.get_set_other _ _ _ _ hne]
    rcases hd1 with rfl | rfl | rfl <;> rfl
  · intro j hj
    show (w.game.players.set _ _).getD j default = _
    rw [getD_set_ne _ _ _ _ _ (fun h => hj h.symm)]
  · unfold QuizC.recorded_names
    show ((w.game.players.set w.game.total_players.toNat _).take
      (w.game.total_players + 1).toNat).map Player.name = _
    have hsucc : (w.game.total_players + 1).toNat = w.game.total_players.toNat + 1 := by omega
    rw [hsucc, take_succ_set _ _ _ hidx, List.map_append, List.map_singleton]

/-- Witness of C11: the first upsert on the empty repository. -/
theorem C11_new_player_is_appended_witness :
    (QuizC.add_player_score QuizC.empty_world "Alice" 1 30 true).game.total_players = 1 ∧
    (QuizC.add_player_score QuizC.empty_world "Alice" 1 30 true).game.players.getD 0 default
      = ⟨"Alice", ⟨-1, 30, -1⟩⟩ ∧
    QuizC.recorded_names (QuizC.add_player_score QuizC.empty_world "Alice" 1 30 true).game
      = ["Alice"] := by
  have h := C11_new_player_is_appended QuizC.empty_world "Alice" 1 30 true
    (Or.inr (Or.inl rfl)) (by decide) (by decide) (by decide) (by decide)
  exact ⟨h.1, by decide, h.2.2.2.2.2⟩

/-- C12: for a name carried by one of the first `total_players` records,
`add_player_score(name, d, score)` overwrites `scores[d]` of the first record with that
name and nothing else: its name and its other two scores, every other record and
`total_players` are unchanged, and the list of recorded names is the same (no
duplicate is created). -/
theorem C12_existing_player_is_updated (w : QuizC.World) (name : String) (d score : Int)
    (fopen_ok : Bool)
    (hd : d = 0 ∨ d = 1 ∨ d = 2)
    (hlen : w.game.total_players.toNat ≤ w.game.players.length)
    (hin : name ∈ QuizC.recorded_names w.game) :
    ∃ k : Nat, k < w.game.total_players.toNat ∧
      (w.game.players.getD k default).name = name ∧
      (∀ j, j < k → (w.game.players.getD j default).name ≠ name) ∧
      (QuizC.add_player_score w name d score fopen_ok).game.total_players
        = w.game.total_players ∧
      ((QuizC.add_player_score w name d score fopen_ok).game.players.getD k default).name
        = name ∧
      ((QuizC.add_player_score w name d score fopen_ok).game.players.getD k
        default).scores.get d = score ∧
      (∀ d1, d1 ≠ d →
        ((QuizC.add_player_score w name d score fopen_ok).game.players.getD k
          default).scores.get d1 = (w.game.players.getD k default).scores.get d1) ∧
      (∀ j, j ≠ k →
        (QuizC.add_player_score w name d score fopen_ok).game.players.getD j default
          = w.game.players.getD j default) ∧
      QuizC.recorded_names (QuizC.add_player_score w name d score fopen_ok).game
        = QuizC.recorded_names w.game := by
  obtain ⟨k, hf, hk, hname, hfirst⟩ := QuizC.find_player_of_mem w.game name hlen hin
  have hidx : k < w.game.players.length := by omega
  refine ⟨k, hk, hname, hfirst, ?_⟩
  rw [QuizC.add_player_score_game, QuizC.upsert_player_found w.game name d score k hf]
  refine ⟨rfl, ?_, ?_, ?_, ?_, ?_⟩
  · show ((w.game.players.set _ _).getD _ default).name = name
    rw [getD_set_eq _ _ _ _ hidx]
    exact hname
  · show ((w.game.players.set _ _).getD _ default).scores.get d = score
    rw [getD_set_eq _ _ _ _ hidx]
    exact Scores.get_set_self _ _ _ hd
  · intro d1 hne
    show ((w.game.players.set _ _).getD _ default).scores.get d1 = _
    rw [getD_set_eq _ _ _ _ hidx]
    exact Scores.get_set_other _ _ _ _ hne
  · intro j hj
    show (w.game.players.set _ _).getD j default = _
    rw [getD_set_ne _ _ _ _ _ (fun h => hj h.symm)]
  · exact QuizC.recorded_names_set_scores w.game k _

/-- Witness of C12: on the empty repository, the upsert of ("Alice", Medium, 30) followed
by the upsert of ("Alice", Easy, 10) leaves the single record "Alice" with scores
`[10, 30, -1]`. -/
theorem C12_existing_player_is_updated_witness :
    (QuizC.add_player_score (QuizC.add_player_score QuizC.empty_world "Alice" 1 30 true)
      "Alice" 0 10 true).game.total_players = 1 ∧
    (QuizC.add_player_score (QuizC.add_player_score QuizC.empty_world "Alice" 1 30 true)
      "Alice" 0 10 true).game.players.take 1 = [⟨"Alice", ⟨10, 30, -1⟩⟩] ∧
    (QuizC.add_player_score (QuizC.add_player_score QuizC.empty_world "Alice" 1 30 true)
      "Alice" 0 10 true).players_file = some ⟨1, [⟨"Alice", ⟨10, 30, -1⟩⟩]⟩ ∧
    QuizC.recorded_names (QuizC.add_player_score
      (QuizC.add_player_score QuizC.empty_world "Alice" 1 30 true) "Alice" 0 10 true).game
      = ["Alice"] := by
  obtain ⟨k, _, _, _, htot, _, _, _, _, hnames⟩ := C12_existing_player_is_updated
    (QuizC.add_player_score QuizC.empty_world "Alice" 1 30 true) "Alice" 0 10 true
    (Or.inl rfl) (by decide) (by decide)
  exact ⟨htot.trans (by decide), by decide, by decide, hnames.trans (by decide)⟩

/-- C13: when `total_players = MAX_PLAYERS` and no record carries the name,
`add_player_score` leaves the game state, so every player record and `total_players`,
unchanged. -/
theorem C13_full_repository_drops_update (w : QuizC.World) (name : String) (d score : Int)
    (fopen_ok : Bool)
    (hlen : w.game.players.length = MAX_PLAYERS)
    (hfull : w.game.total_players = MAX_PLAYERS)
    (hnew : name ∉ QuizC.recorded_names w.game) :
    (QuizC.add_player_score w name d score fopen_ok).game.players = w.game.players ∧
    (QuizC.add_player_score w name d score fopen_ok).game.total_players
      = w.game.total_players ∧
    (QuizC.add_player_score w name d score fopen_ok).game = w.game := by
  have hmax : (MAX_PLAYERS : Int) = 100 := rfl
  have hmaxn : MAX_PLAYERS = 100 := rfl
  have hf := QuizC.find_player_of_not_mem w.game name (by omega) hnew
  rw [QuizC.add_player_score_game,
    QuizC.upsert_player_full w.game name d score hf (by omega)]
  exact ⟨rfl, rfl, rfl⟩

/-- Witness of C13: a hundred records named "x", then an upsert for "y". -/
theorem C13_full_repository_drops_update_witness :
    (QuizC.add_player_score QuizC.full_world "y" 2 40 true).game.total_players = 100 ∧
    (QuizC.add_player_score QuizC.full_world "y" 2 40 true).game.players
      = List.replicate 100 ⟨"x", ⟨1, 2, 3⟩⟩ :=
  ⟨(C13_full_repository_drops_update QuizC.full_world "y" 2 40 true (by decide) (by decide)
      (by decide)).2.1,
   (C13_full_repository_drops_update QuizC.full_world "y" 2 40 true (by decide) (by decide)
      (by decide)).1⟩

/-- C14: if the names of the first `total_players` records are pairwise distinct before
`add_player_score`, they are pairwise distinct after it, for every name, difficulty and
score; hence, starting from the empty repository, no sequence of upserts produces two
records with the same name. -/
theorem C14_names_stay_unique (w : QuizC.World) (name : String) (d score : Int)
    (fopen_ok : Bool) :
    ((QuizC.recorded_names w.game).Nodup →
      (QuizC.recorded_names (QuizC.add_player_score w name d score fopen_ok).game).Nodup) ∧
    (∀ (file : Option QuizC.PlayersFile) (calls : List (String × Int × Int × Bool)),
      (QuizC.recorded_names (QuizC.upserts ⟨QuizC.empty_game, file⟩ calls).game).Nodup) := by
  constructor
  · intro h
    rw [QuizC.add_player_score_game]
    exact QuizC.upsert_player_nodup _ _ _ _ h
  · intro file calls
    exact QuizC.upserts_nodup calls ⟨QuizC.empty_game, file⟩
      (show (QuizC.recorded_names QuizC.empty_game).Nodup by decide)

/-- Witness of C14: after "Alice" is recorded, upserts for "Bob" and for "Alice" again
leave the names `["Alice", "Bob"]`. -/
theorem C14_names_stay_unique_witness :
    (QuizC.recorded_names (QuizC.add_player_score
      (QuizC.add_player_score QuizC.empty_world "Alice" 1 30 true) "Bob" 0 5 true).game).Nodup ∧
    QuizC.recorded_names (QuizC.upserts QuizC.empty_world
      [("Alice", 1, 30, true), ("Bob", 0, 5, true), ("Alice", 2, -3, false)]).game
      = ["Alice", "Bob"] :=
  ⟨(C14_names_stay_unique (QuizC.add_player_score QuizC.empty_world "Alice" 1 30 true)
      "Bob" 0 5 true).1 (by decide), by decide⟩

end Quiz

namespace Quiz

/-! ## `delete_question`: the shift -/

theorem arr_set_getD (qs : List Question) (i : Int) (v : Question) (j : Nat) :
    (arr_set qs i v).getD j default
      = if i = (j : Int) ∧ j < qs.length then v else qs.getD j default := by
  unfold arr_set
  by_cases hi : 0 ≤ i
  · lift i to ℕ using hi
    simp only [Int.ofNat_nonneg, if_true, Int.toNat_ofNat, Nat.cast_inj]
    by_cases hij : i = j
    · subst hij
      by_cases hl : i < qs.length
      · simp [hl, getD_set_eq _ _ _ _ hl]
      · simp [hl, List.set_eq_of_length_le (Nat.le_of_not_lt hl)]
    · simp [hij, getD_set_ne _ _ _ _ _ hij]
  · have hne : i ≠ (j : Int) := by omega
    simp [hi, hne]

theorem arr_get_natCast (qs : List Question) (m : Nat) :
    arr_get qs (m : Int) = qs.getD m default := by
  simp [arr_get]

theorem getD_default_of_le (qs : List Question) (j : Nat) (h : qs.length ≤ j) :
    qs.getD j default = default := by
  simp [List.getD_eq_getElem?_getD, List.getElem?_eq_none h]

/-- After the shift loop the slot `j` holds what slot `j + 1` held when `j` lies in the
range the loop ran over, and what it held before otherwise. -/
theorem shift_loop_getD :
    ∀ (n : Nat) (i : Int) (qs : List Question) (j : Nat),
      (shift_loop n i qs).getD j default
        = if i ≤ (j : Int) ∧ (j : Int) < i + n then qs.getD (j + 1) default
          else qs.getD j default := by
  intro n
  induction n with
  | zero =>
    intro i qs j
    have : ¬ (i ≤ (j : Int) ∧ (j : Int) < i + (0 : Nat)) := by omega
    simp only [shift_loop, this, if_false]
  | succ n ih =>
    intro i qs j
    simp only [shift_loop]
    rw [ih]
    by_cases hi : 0 ≤ i
    · lift i to ℕ using hi
      have hget : arr_get qs ((i : Int) + 1) = qs.getD (i + 1) default := by
        have := arr_get_natCast qs (i + 1)
        simpa using this
      rw [hget]
      by_cases hji : j = i
      · subst hji
        have h1 : ¬ (((j : Int) + 1 ≤ (j : Int)) ∧ (j : Int) < (j : Int) + 1 + n) := by omega
        have h2 : ((j : Int) ≤ (j : Int)) ∧ (j : Int) < (j : Int) + ((n + 1 : Nat) : Int) := by
          constructor <;> omega
        rw [if_neg h1, if_pos h2, arr_set_getD]
        by_cases hl : j < qs.length
        · simp [hl]
        · have hl1 : qs.length ≤ j := Nat.le_of_not_lt hl
          simp only [hl, and_false, if_false]
          rw [getD_default_of_le qs j hl1, getD_default_of_le qs (j + 1) (by omega)]
      · have hs1 : (arr_set qs (i : Int) (qs.getD (i + 1) default)).getD j default
            = qs.getD j default := by
          rw [arr_set_getD]
          have : ¬ ((i : Int) = (j : Int) ∧ j < qs.length) := by omega
          simp only [this, if_false]
        by_cases hc : ((i : Int) ≤ (j : Int)) ∧ (j : Int) < (i : Int) + ((n + 1 : Nat) : Int)
        · have hc1 : ((i : Int) + 1 ≤ (j : Int)) ∧ (j : Int) < (i : Int) + 1 + n := by
            constructor <;> omega
          rw [if_pos hc, if_pos hc1, arr_set_getD]
          have : ¬ ((i : Int) = ((j + 1 : Nat) : Int) ∧ j + 1 < qs.length) := by omega
          simp only [this, if_false]
        · have hc1 : ¬ (((i : Int) + 1 ≤ (j : Int)) ∧ (j : Int) < (i : Int) + 1 + n) := by
            omega
          rw [if_neg hc, if_neg hc1, hs1]
    · have hset : ∀ v, arr_set qs i v = qs := by
        intro v; simp [arr_set, hi]
      rw [hset]
      by_cases hc : (i ≤ (j : Int)) ∧ (j : Int) < i + ((n + 1 : Nat) : Int)
      · have hc1 : (i + 1 ≤ (j : Int)) ∧ (j : Int) < i + 1 + n := by constructor <;> omega
        rw [if_pos hc, if_pos hc1]
      · have hc1 : ¬ ((i + 1 ≤ (j : Int)) ∧ (j : Int) < i + 1 + n) := by omega
        rw [if_neg hc, if_neg hc1]

theorem shift_loop_length : ∀ (n : Nat) (i : Int) (qs : List Question),
    (shift_loop n i qs).length = qs.length := by
  intro n
  induction n with
  | zero => intro i qs; rfl
  | succ n ih =>
    intro i qs
    simp only [shift_loop, ih]
    unfold arr_set
    split <;> simp

/-- For a valid index the entries in use after the shift are the old ones with the
entry at `index` erased. -/
theorem delete_shift_take (b : Bank) (index : Nat)
    (hi : (index : Int) < b.total_questions)
    (hlen : b.total_questions.toNat ≤ b.questions.length) :
    (delete_shift b index).questions.take (delete_shift b index).total_questions.toNat
      = (b.questions.take b.total_questions.toNat).eraseIdx index := by
  have ht : b.total_questions.toNat = (b.total_questions - 1).toNat + 1 := by omega
  apply List.ext_getElem?
  intro j
  rw [List.getElem?_eraseIdx, List.getElem?_take]
  show (if j < (b.total_questions - 1).toNat then
      (shift_loop (b.total_questions - 1 - index).toNat index b.questions)[j]? else none) = _
  by_cases hj : j < (b.total_questions - 1).toNat
  · have hjl : j < (shift_loop (b.total_questions - 1 - index).toNat index
        b.questions).length := by rw [shift_loop_length]; omega
    have hg := shift_loop_getD (b.total_questions - 1 - index).toNat index b.questions j
    rw [List.getD_eq_getElem _ _ hjl] at hg
    rw [if_pos hj, List.getElem?_eq_getElem hjl, hg]
    by_cases hji : j < index
    · have hc : ¬ (((index : Int) ≤ (j : Int)) ∧
          (j : Int) < index + ((b.total_questions - 1 - index).toNat : Int)) := by omega
      rw [if_neg hc, if_pos hji, List.getElem?_take, if_pos (by omega),
        List.getD_eq_getElem _ _ (show j < b.questions.length by omega),
        List.getElem?_eq_getElem (show j < b.questions.length by omega)]
    · have hc : ((index : Int) ≤ (j : Int)) ∧
          (j : Int) < index + ((b.total_questions - 1 - index).toNat : Int) := by
        constructor <;> omega
      rw [if_pos hc, if_neg hji, List.getElem?_take, if_pos (by omega),
        List.getD_eq_getElem _ _ (show j + 1 < b.questions.length by omega),
        List.getElem?_eq_getElem (show j + 1 < b.questions.length by omega)]
  · rw [if_neg hj]
    by_cases hji : j < index
    · omega
    · rw [if_neg hji, List.getElem?_take, if_neg (by omega)]

theorem delete_question_confirmed (s : Store) (index : Int) (polls rest : List Poll)
    (fopen_ok : Bool) (h : confirm_loop polls false false = some (true, rest)) :
    delete_question s index polls fopen_ok
      = some (save_questions { s with bank := delete_shift s.bank index } fopen_ok, rest) := by
  simp [delete_question, h]

theorem save_questions_bank (s : Store) (fopen_ok : Bool) :
    (save_questions s fopen_ok).bank = s.bank := by
  unfold save_questions
  split <;> rfl

theorem save_questions_file (s : Store) :
    (save_questions s true).file
      = some ⟨s.bank.total_questions, s.bank.questions.take s.bank.total_questions.toNat⟩ := by
  simp [save_questions]

end Quiz

namespace Quiz

/-- C15: for `0 <= index < total_questions` (the counter within the array), a confirmed
`delete_question(index)`, the same code in `quiz.c` and `main.c`, returns with
`total_questions` decremented by exactly 1 and with the collection equal to the old one
with the entry at `index` erased: entries before `index` are unchanged, each later entry
has moved down by one position; when `fopen` succeeds the file holds that collection. -/
theorem C15_confirmed_delete_erases_entry (s : Store) (index : Int) (polls rest : List Poll)
    (fopen_ok : Bool)
    (h0 : 0 ≤ index) (hi : index < s.bank.total_questions)
    (hlen : s.bank.total_questions.toNat ≤ s.bank.questions.length)
    (hconf : confirm_loop polls false false = some (true, rest)) :
    ∃ s1 : Store, delete_question s index polls fopen_ok = some (s1, rest) ∧
      s1.bank.total_questions = s.bank.total_questions - 1 ∧
      s1.bank.questions.take s1.bank.total_questions.toNat
        = (s.bank.questions.take s.bank.total_questions.toNat).eraseIdx index.toNat ∧
      (∀ j : Nat, (j : Int) < index →
        s1.bank.questions.getD j default = s.bank.questions.getD j default) ∧
      (∀ j : Nat, index ≤ (j : Int) → (j : Int) < s.bank.total_questions - 1 →
        s1.bank.questions.getD j default = s.bank.questions.getD (j + 1) default) ∧
      (fopen_ok = true → s1.file = some ⟨s1.bank.total_questions,
        s1.bank.questions.take s1.bank.total_questions.toNat⟩) := by
  refine ⟨_, delete_question_confirmed s index polls rest fopen_ok hconf, ?_⟩
  rw [save_questions_bank]
  refine ⟨rfl, ?_, ?_, ?_, ?_⟩
  · lift index to ℕ using h0
    simpa using delete_shift_take s.bank index hi hlen
  · intro j hj
    show (shift_loop _ index s.bank.questions).getD j default = _
    rw [shift_loop_getD, if_neg (by omega)]
  · intro j hj1 hj2
    show (shift_loop _ index s.bank.questions).getD j default = _
    rw [shift_loop_getD, if_pos (by constructor <;> omega)]
  · intro hok
    subst hok
    exact save_questions_file _

/-- Witness of C15: deleting the middle one of the three questions of the small bank. -/
theorem C15_confirmed_delete_erases_entry_witness :
    ∃ s1 : Store, delete_question small_store 1 [click_yes, none] true = some (s1, []) ∧
      s1.bank.total_questions = 2 ∧
      s1.bank.questions.take 2 = [sample_question "a" 0 0, sample_question "c" 2 2] ∧
      s1.file = some ⟨2, [sample_question "a" 0 0, sample_question "c" 2 2]⟩ := by
  obtain ⟨s1, h1, h2, h3, _, _, h6⟩ := C15_confirmed_delete_erases_entry small_store 1
    [click_yes, none] [] true (by decide) (by decide) (by decide) (by decide)
  have ht : s1.bank.total_questions = 2 := h2.trans (by decide)
  have hq : s1.bank.questions.take 2
      = [sample_question "a" 0 0, sample_question "c" 2 2] := by
    rw [ht] at h3
    exact h3.trans (by decide)
  refine ⟨s1, h1, ht, hq, ?_⟩
  rw [h6 rfl, ht]
  exact congrArg (fun l => some (QuestionsFile.mk 2 l)) hq

end Quiz

namespace Quiz

/-! ## `add_questions` -/

theorem difficulty_click_range (x y : Int) (d : Int) (sel : Bool)
    (h : d = 0 ∨ d = 1 ∨ d = 2) :
    (difficulty_click x y (d, sel)).1 = 0 ∨ (difficulty_click x y (d, sel)).1 = 1 ∨
      (difficulty_click x y (d, sel)).1 = 2 := by
  unfold difficulty_click
  simp only [DIFFICULTY_EASY, DIFFICULTY_MEDIUM, DIFFICULTY_HARD]
  split_ifs <;> simp [h]

theorem difficulty_loop_range (qr : Bool) :
    ∀ (polls : List Poll) (d : Int) (sel : Bool) (d1 : Int) (rest : List Poll),
      (d = 0 ∨ d = 1 ∨ d = 2) → difficulty_loop qr polls d sel = some (some d1, rest) →
      (d1 = 0 ∨ d1 = 1 ∨ d1 = 2) := by
  intro polls
  induction polls with
  | nil => intro d sel d1 rest _ h; simp [difficulty_loop] at h
  | cons p ps ih =>
    intro d sel d1 rest hd h
    cases p with
    | none =>
      simp only [difficulty_loop] at h
      split at h
      · simp only [Option.some.injEq, Prod.mk.injEq] at h
        rw [← h.1]; exact hd
      · exact ih _ _ _ _ hd h
    | some e =>
      cases e with
      | quit =>
        simp only [difficulty_loop] at h
        split at h
        · simp at h
        · exact ih _ _ _ _ hd h
      | mouseDown x y =>
        simp only [difficulty_loop] at h
        exact ih _ _ _ _ (difficulty_click_range x y d sel hd) h
      | keyReturn => simp only [difficulty_loop] at h; exact ih _ _ _ _ hd h
      | keyBackspace => simp only [difficulty_loop] at h; exact ih _ _ _ _ hd h
      | keyOther => simp only [difficulty_loop] at h; exact ih _ _ _ _ hd h
      | textInput t => simp only [difficulty_loop] at h; exact ih _ _ _ _ hd h
      | other => simp only [difficulty_loop] at h; exact ih _ _ _ _ hd h

theorem correct_click_range (x y : Int) (i : Nat) (h : correct_click x y = some i) : i < 4 := by
  unfold correct_click at h
  have := List.mem_of_find?_eq_some h
  simpa [MAX_OPTIONS] using this

theorem correct_loop_range (oq : OnQuit) :
    ∀ (polls : List Poll) (c : Int) (sel : Bool) (c1 : Int) (rest : List Poll),
      (0 ≤ c ∧ c < 4) → correct_loop oq polls c sel = some (some c1, rest) →
      (0 ≤ c1 ∧ c1 < 4) := by
  intro polls
  induction polls with
  | nil => intro c sel c1 rest _ h; simp [correct_loop] at h
  | cons p ps ih =>
    intro c sel c1 rest hc h
    cases p with
    | none =>
      simp only [correct_loop] at h
      split at h
      · simp only [Option.some.injEq, Prod.mk.injEq] at h
        rw [← h.1]; exact hc
      · exact ih _ _ _ _ hc h
    | some e =>
      cases e with
      | quit =>
        simp only [correct_loop] at h
        cases oq with
        | ignore => exact ih _ _ _ _ hc h
        | leave_loop =>
          simp only [Option.some.injEq, Prod.mk.injEq] at h
          rw [← h.1]; exact hc
        | return_caller => simp at h
      | mouseDown x y =>
        simp only [correct_loop] at h
        split at h
        · rename_i i hi
          have := correct_click_range x y i hi
          exact ih _ _ _ _ (by constructor <;> omega) h
        · exact ih _ _ _ _ hc h
      | keyReturn => simp only [correct_loop] at h; exact ih _ _ _ _ hc h
      | keyBackspace => simp only [correct_loop] at h; exact ih _ _ _ _ hc h
      | keyOther => simp only [correct_loop] at h; exact ih _ _ _ _ hc h
      | textInput t => simp only [correct_loop] at h; exact ih _ _ _ _ hc h
      | other => simp only [correct_loop] at h; exact ih _ _ _ _ hc h

/-- A call of `add_questions` that returns has either left the store as it was, or, with
`total_questions < MAX_QUESTIONS`, has written one valid question into the slot
`total_questions`, incremented the counter and saved. -/
theorem add_questions_cases (v : Variant) (s s1 : Store) (polls rest : List Poll)
    (fopen_ok : Bool) (h : add_questions v s polls fopen_ok = some (s1, rest)) :
    s1 = s ∨
    (s.bank.total_questions < MAX_QUESTIONS ∧ ∃ q : Question, q.valid ∧
      s1 = save_questions { s with bank :=
        { questions := arr_set s.bank.questions s.bank.total_questions q,
          total_questions := s.bank.total_questions + 1 } } fopen_ok) := by
  simp only [add_questions] at h
  split at h
  · simp only [Option.some.injEq, Prod.mk.injEq] at h
    exact Or.inl h.1.symm
  · rename_i hcap
    split at h
    · simp at h
    · simp only [Option.some.injEq, Prod.mk.injEq] at h
      exact Or.inl h.1.symm
    · rename_i difficulty p1 hdiff
      split at h
      · simp at h
      · rename_i text p2 _
        split at h
        · simp at h
        · rename_i options p3 _
          split at h
          · simp at h
          · simp only [Option.some.injEq, Prod.mk.injEq] at h
            exact Or.inl h.1.symm
          · rename_i correct p4 hcorr
            simp only [Option.some.injEq, Prod.mk.injEq] at h
            right
            refine ⟨by omega, ⟨text, options, correct, difficulty⟩, ⟨?_, ?_⟩, h.1.symm⟩
            · exact correct_loop_range _ _ _ _ _ _ (by decide) hcorr
            · exact difficulty_loop_range _ _ _ _ _ _ (Or.inl rfl) hdiff

/-- C17: when `total_questions >= MAX_QUESTIONS`, `add_questions` (of either file)
returns at once: no poll is consumed and the store, so the question collection and
`total_questions`, is unchanged; consequently a call of `add_questions` that starts with
`total_questions <= MAX_QUESTIONS` never returns with more. -/
theorem C17_add_questions_respects_capacity (v : Variant) (s : Store) (polls : List Poll)
    (fopen_ok : Bool) :
    (s.bank.total_questions ≥ MAX_QUESTIONS →
      add_questions v s polls fopen_ok = some (s, polls)) ∧
    (s.bank.total_questions ≤ MAX_QUESTIONS →
      ∀ (s1 : Store) (rest : List Poll), add_questions v s polls fopen_ok = some (s1, rest) →
        s1.bank.total_questions ≤ MAX_QUESTIONS) := by
  constructor
  · intro h
    simp only [add_questions, h, if_true]
  · intro hle s1 rest h
    rcases add_questions_cases v s s1 polls rest fopen_ok h with h1 | ⟨hlt, q, _, h1⟩
    · rw [h1]; exact hle
    · rw [h1, save_questions_bank]
      show s.bank.total_questions + 1 ≤ MAX_QUESTIONS
      omega

end Quiz

namespace Quiz

/-! ## `edit_question` -/

end Quiz

namespace Quiz

/-- Witness of C17: with all hundred slots in use nothing is read and nothing changes;
from the small store one question is added and the counter becomes 4. -/
theorem C17_add_questions_respects_capacity_witness :
    add_questions Variant.quiz_c full_store add_polls true = some (full_store, add_polls) ∧
    add_questions Variant.main_c full_store add_polls true = some (full_store, add_polls) ∧
    add_questions Variant.quiz_c small_store add_polls true = some (small_store_added, []) ∧
    small_store_added.bank.total_questions ≤ MAX_QUESTIONS :=
  ⟨(C17_add_questions_respects_capacity Variant.quiz_c full_store add_polls true).1 (by decide),
   (C17_add_questions_respects_capacity Variant.main_c full_store add_polls true).1 (by decide),
   by decide,
   (C17_add_questions_respects_capacity Variant.quiz_c small_store add_polls true).2
     (by decide) small_store_added [] (by decide)⟩

/-! ## Validity of the stored questions -/

end Quiz

namespace Quiz

/-! ## The iteration bound of `edit_loop` never cuts a run short -/

theorem text_loop_rest (v : Variant) (m : Int) :
    ∀ (polls : List Poll) (s : TextState) (t : String) (rest : List Poll),
      text_loop v m polls s = some (t, rest) → rest.length < polls.length := by
  intro polls
  induction polls with
  | nil => intro s t rest h; simp [text_loop] at h
  | cons p ps ih =>
    intro s t rest h
    cases p with
    | none =>
      simp only [text_loop] at h
      split at h
      · simp only [Option.some.injEq, Prod.mk.injEq] at h
        rw [← h.2]; simp
      · have := ih _ _ _ h; simp only [List.length_cons]; omega
    | some e =>
      cases e with
      | quit =>
        simp only [text_loop] at h
        split at h
        · simp at h
        · have := ih _ _ _ h; simp only [List.length_cons]; omega
      | mouseDown x y =>
        simp only [text_loop] at h
        have := ih _ _ _ h; simp only [List.length_cons]; omega
      | keyReturn =>
        simp only [text_loop] at h
        have := ih _ _ _ h; simp only [List.length_cons]; omega
      | keyBackspace =>
        simp only [text_loop] at h
        have := ih _ _ _ h; simp only [List.length_cons]; omega
      | keyOther =>
        simp only [text_loop] at h
        have := ih _ _ _ h; simp only [List.length_cons]; omega
      | textInput text =>
        simp only [text_loop] at h
        have := ih _ _ _ h; simp only [List.length_cons]; omega
      | other =>
        simp only [text_loop] at h
        have := ih _ _ _ h; simp only [List.length_cons]; omega

theorem correct_loop_rest (oq : OnQuit) :
    ∀ (polls : List Poll) (c : Int) (sel : Bool) (r : Option Int) (rest : List Poll),
      correct_loop oq polls c sel = some (r, rest) → rest.length < polls.length := by
  intro polls
  induction polls with
  | nil => intro c sel r rest h; simp [correct_loop] at h
  | cons p ps ih =>
    intro c sel r rest h
    cases p with
    | none =>
      simp only [correct_loop] at h
      split at h
      · simp only [Option.some.injEq, Prod.mk.injEq] at h
        rw [← h.2]; simp
      · have := ih _ _ _ _ h; simp only [List.length_cons]; omega
    | some e =>
      cases e with
      | quit =>
        simp only [correct_loop] at h
        cases oq with
        | ignore => have := ih _ _ _ _ h; simp only [List.length_cons]; omega
        | leave_loop =>
          simp only [Option.some.injEq, Prod.mk.injEq] at h
          rw [← h.2]; simp
        | return_caller =>
          simp only [Option.some.injEq, Prod.mk.injEq] at h
          rw [← h.2]; simp
      | mouseDown x y =>
        simp only [correct_loop] at h
        split at h
        · have := ih _ _ _ _ h; simp only [List.length_cons]; omega
        · have := ih _ _ _ _ h; simp only [List.length_cons]; omega
      | keyReturn =>
        simp only [correct_loop] at h
        have := ih _ _ _ _ h; simp only [List.length_cons]; omega
      | keyBackspace =>
        simp only [correct_loop] at h
        have := ih _ _ _ _ h; simp only [List.length_cons]; omega
      | keyOther =>
        simp only [correct_loop] at h
        have := ih _ _ _ _ h; simp only [List.length_cons]; omega
      | textInput text =>
        simp only [correct_loop] at h
        have := ih _ _ _ _ h; simp only [List.length_cons]; omega
      | other =>
        simp only [correct_loop] at h
        have := ih _ _ _ _ h; simp only [List.length_cons]; omega

theorem edit_options_rest (v : Variant) (index x y : Int) :
    ∀ (n i : Nat) (qs : List Question) (polls : List Poll) (qs1 : List Question)
      (rest : List Poll),
      edit_options v index x y n i qs polls = some (qs1, rest) →
      rest.length ≤ polls.length := by
  intro n
  induction n with
  | zero =>
    intro i qs polls qs1 rest h
    simp only [edit_options, Option.some.injEq, Prod.mk.injEq] at h
    rw [← h.2]
  | succ n ih =>
    intro i qs polls qs1 rest h
    simp only [edit_options] at h
    split at h
    · split at h
      · simp at h
      · rename_i text rest1 htext
        have h1 := text_loop_rest v _ _ _ _ _ htext
        have h2 := ih _ _ _ _ _ h
        omega
    · exact ih _ _ _ _ _ h

theorem edit_click_rest (v : Variant) (index x y : Int) (qs qs1 : List Question)
    (polls rest : List Poll) (d : Bool)
    (h : edit_click v index x y qs polls = some (qs1, d, rest)) :
    rest.length ≤ polls.length := by
  simp only [edit_click] at h
  split at h
  · simp at h
  · rename_i qsa p1 hstep1
    have hr1 : p1.length ≤ polls.length := by
      split at hstep1
      · split at hstep1
        · simp at hstep1
        · rename_i text rest1 htext
          simp only [Option.some.injEq, Prod.mk.injEq] at hstep1
          have := text_loop_rest v _ _ _ _ _ htext
          rw [← hstep1.2]; omega
      · simp only [Option.some.injEq, Prod.mk.injEq] at hstep1
        rw [← hstep1.2]
    split at h
    · simp at h
    · rename_i qsb p2 hstep2
      have hr2 := edit_options_rest v index x y _ _ _ _ _ _ hstep2
      split at h
      · simp at h
      · rename_i qsc p3 hstep3
        have hr3 : p3.length ≤ p2.length := by
          split at hstep3
          · split at hstep3
            · simp at hstep3
            · rename_i rest1 hloop
              simp only [Option.some.injEq, Prod.mk.injEq] at hstep3
              have := correct_loop_rest _ _ _ _ _ _ hloop
              rw [← hstep3.2]; omega
            · rename_i c rest1 hloop
              simp only [Option.some.injEq, Prod.mk.injEq] at hstep3
              have := correct_loop_rest _ _ _ _ _ _ hloop
              rw [← hstep3.2]; omega
          · simp only [Option.some.injEq, Prod.mk.injEq] at hstep3
            rw [← hstep3.2]
        simp only [Option.some.injEq, Prod.mk.injEq] at h
        rw [← h.2.2]
        omega

/-- With more iterations allowed than there are polls, allowing one more changes
nothing: `edit_loop` ends because of the polls, never because of the bound. -/
theorem edit_loop_bound (v : Variant) (index : Int) :
    ∀ (n : Nat) (polls : List Poll) (qs : List Question) (done : Bool),
      polls.length < n →
      edit_loop v index n polls qs done = edit_loop v index (n + 1) polls qs done := by
  intro n
  induction n with
  | zero => intro polls qs done h; omega
  | succ n ih =>
    intro polls qs done h
    cases polls with
    | nil => simp [edit_loop]
    | cons p ps =>
      have hps : ps.length < n := by simp only [List.length_cons] at h; omega
      cases p with
      | none =>
        simp only [edit_loop]
        split
        · rfl
        · exact ih _ _ _ hps
      | some e =>
        cases e with
        | quit => simp only [edit_loop]
        | mouseDown x y =>
          simp only [edit_loop]
          split
          · rfl
          · rename_i qsa d rest1 hclick
            have := edit_click_rest v index x y _ _ _ _ _ hclick
            exact ih _ _ _ (by omega)
        | keyReturn => simp only [edit_loop]; exact ih _ _ _ hps
        | keyBackspace => simp only [edit_loop]; exact ih _ _ _ hps
        | keyOther => simp only [edit_loop]; exact ih _ _ _ hps
        | textInput text => simp only [edit_loop]; exact ih _ _ _ hps
        | other => simp only [edit_loop]; exact ih _ _ _ hps

end Quiz
namespace Quiz

/-! ## Timer, percentage, sentinel, text buffer -/

/-- C26: for all tick values `start` and `now`, the value the timer statements store in
`time_remaining` is `max 0 (30 - ((now - start) mod 2^32) / 1000)`; it lies in `[0, 30]`
and it is 0 exactly when the wrapped difference is at least 30000 ms. -/
theorem C26_timer_arithmetic (start now : Nat) :
    compute_time_remaining start now
        = max 0 (30 - (((now : Int) - (start : Int)) % 4294967296) / 1000) ∧
      0 ≤ compute_time_remaining start now ∧
      compute_time_remaining start now ≤ 30 ∧
      (compute_time_remaining start now = 0 ↔
        30000 ≤ ((now : Int) - (start : Int)) % 4294967296) := by
  have h0 : 0 ≤ ((now : Int) - (start : Int)) % 4294967296 :=
    Int.emod_nonneg _ (by decide)
  have h1 : ((now : Int) - (start : Int)) % 4294967296 < 4294967296 :=
    Int.emod_lt_of_pos _ (by decide)
  simp only [compute_time_remaining, to_int32, QUESTION_TIME]
  generalize ((now : Int) - (start : Int)) % 4294967296 = d at h0 h1
  rw [max_def]
  refine ⟨?_, ?_, ?_, ?_⟩ <;> split_ifs <;> omega

/-- C24: the percentage of `show_results` (`quiz.c`), read over the rationals, is
`score / (10 * 5) * 100`, that is `2 * score`; for a score of 25 it is 50. -/
theorem C24_percentage_is_twice_the_score (score : Int) :
    percentage score = (score : ℚ) / (10 * 5) * 100 ∧
      percentage score = 2 * (score : ℚ) ∧ percentage 25 = 50 := by
  refine ⟨?_, ?_, ?_⟩
  · simp only [percentage, QUESTIONS_PER_LEVEL]; norm_num
  · simp only [percentage, QUESTIONS_PER_LEVEL]; push_cast; ring
  · simp only [percentage, QUESTIONS_PER_LEVEL]; norm_num

set_option maxRecDepth 100000 in
/-- C28: a completed session of `quiz.c` in which one question is answered wrongly and
the nine others time out has the final score -1, and `add_player_score` stores -1 for
the difficulty played, the value the new record carries for "not attempted". -/
theorem C28_completed_session_can_score_minus_one :
    (QuizC.start_quiz QuizC.sample_world 0 sample_rand QuizC.one_wrong_inputs true).status
        = Status.completed ∧
      (QuizC.start_quiz QuizC.sample_world 0 sample_rand QuizC.one_wrong_inputs true).score
        = -1 ∧
      (QuizC.start_quiz QuizC.sample_world 0 sample_rand
          QuizC.one_wrong_inputs true).world.game.players.getD 1 default
        = ⟨"Ann", ⟨-1, -1, -1⟩⟩ := by
  decide

set_option maxRecDepth 100000 in
/-- C27: with `max_length = MAX_QUESTION_LENGTH`, sixty one-character text events leave
sixty characters in `temp_buffer`, more than the 49 its `MAX_NAME_LENGTH` bytes can hold;
with `max_length = MAX_NAME_LENGTH`, 48 characters followed by a three-character text
event and return hand 51 characters to the caller, more than `max_length - 1`. -/
theorem C27_text_exceeds_temp_buffer :
    ((text_temp MAX_QUESTION_LENGTH (List.replicate 60 (UiEvent.textInput "a"))).length : Int)
        = 60 ∧
      TEMP_BUFFER_SIZE - 1 = 49 ∧
      (get_text_input Variant.quiz_c MAX_NAME_LENGTH
          (List.replicate 48 (some (UiEvent.textInput "a")) ++ type_text "abc")).map
            (fun r => r.1.length) = some 51 ∧
      (get_text_input Variant.main_c MAX_NAME_LENGTH
          (List.replicate 48 (some (UiEvent.textInput "a")) ++ type_text "abc")).map
            (fun r => r.1.length) = some 51 ∧
      MAX_NAME_LENGTH - 1 = 49 := by
  decide

/-! ## The shuffle of `main.c` is biased -/

set_option maxRecDepth 100000 in
/-- C23: of the 27 tuples of positions for three distinct elements, the shuffle of
`main.c` turns 4 into each of the orders `[0,1,2]`, `[2,0,1]`, `[2,1,0]` and 5 into each
of `[0,2,1]`, `[1,0,2]`, `[1,2,0]`: the orders are not equally likely. -/
theorem C23_main_shuffle_is_biased :
    (all_tuples 3 3).length = 27 ∧
      MainC.tuples_giving [0, 1, 2] [0, 1, 2] = 4 ∧
      MainC.tuples_giving [0, 1, 2] [0, 2, 1] = 5 ∧
      MainC.tuples_giving [0, 1, 2] [1, 0, 2] = 5 ∧
      MainC.tuples_giving [0, 1, 2] [1, 2, 0] = 5 ∧
      MainC.tuples_giving [0, 1, 2] [2, 0, 1] = 4 ∧
      MainC.tuples_giving [0, 1, 2] [2, 1, 0] = 4 := by
  decide

/-! ## The question browser -/

set_option maxRecDepth 100000 in
/-- C25: in the browser on a bank with one question, "Delete" and "Yes" leave
`current_index = -1` with `total_questions = 0`, and the loop goes on to put the question
at index -1 on screen; a second "Delete" and "Yes" there call `delete_question` with
index -1 and leave `total_questions = -1`.  The same in both files. -/
theorem C25_browser_index_leaves_range :
    (view_questions Variant.quiz_c one_question_store delete_last_polls true).map
        (fun r => (r.1.log, r.1.store.bank.total_questions, r.1.current_index))
      = some ([⟨ViewAct.display, 0, 1⟩, ⟨ViewAct.delete, 0, 1⟩, ⟨ViewAct.display, -1, 0⟩],
          0, -1) ∧
    (view_questions Variant.quiz_c one_question_store delete_twice_polls true).map
        (fun r => (r.1.log, r.1.store.bank.total_questions, r.1.current_index))
      = some ([⟨ViewAct.display, 0, 1⟩, ⟨ViewAct.delete, 0, 1⟩, ⟨ViewAct.display, -1, 0⟩,
          ⟨ViewAct.delete, -1, 0⟩, ⟨ViewAct.display, -2, -1⟩], -1, -2) ∧
    (view_questions Variant.main_c one_question_store delete_last_polls true
      = view_questions Variant.quiz_c one_question_store delete_last_polls true) ∧
    (view_questions Variant.main_c one_question_store delete_twice_polls true
      = view_questions Variant.quiz_c one_question_store delete_twice_polls true) ∧
    ViewStep.in_range ⟨ViewAct.display, -1, 0⟩ = false ∧
    ViewStep.in_range ⟨ViewAct.delete, -1, 0⟩ = false := by
  decide

end Quiz

namespace Quiz

/-! ## Save and load -/

/-- Writing the first `n` records and reading `n` records back over another array gives
the same first `n` records. -/
theorem round_trip_take {α : Type} (xs ys : List α) (n : Nat) (hx : n ≤ xs.length)
    (hy : n ≤ ys.length) :
    ((((xs.take n).take n) ++ ys.drop n).take ys.length).take n = xs.take n := by
  rw [List.take_take, List.take_take, Nat.min_self, Nat.min_eq_left hy]
  have hl : (xs.take n).length = n := by simp [List.length_take, hx]
  rw [List.take_append_of_le_length (by omega)]
  rw [List.take_of_length_le (by omega)]

/-- The array keeps its size when records are read into it. -/
theorem round_trip_length {α : Type} (rs ys : List α) (n : Nat) (hr : n ≤ rs.length)
    (hy : n ≤ ys.length) :
    (((rs.take n) ++ ys.drop n).take ys.length).length = ys.length := by
  simp only [List.length_take, List.length_append, List.length_drop]
  omega

/-- C21: for a state with `0 <= total_questions <= MAX_QUESTIONS`, the file
`save_questions` writes is the count followed by exactly `total_questions` records, and
`load_questions` on that file restores the same count and the same first
`total_questions` records; the same holds for `save_players` and `load_players` with
`0 <= total_players <= MAX_PLAYERS`. -/
theorem C21_save_load_round_trip (s : Store) (b0 : Bank) (w : QuizC.World)
    (g0 : QuizC.GameState)
    (hq0 : 0 ≤ s.bank.total_questions) (hq1 : s.bank.total_questions ≤ MAX_QUESTIONS)
    (hqs : s.bank.questions.length = MAX_QUESTIONS)
    (hqb : b0.questions.length = MAX_QUESTIONS)
    (hp0 : 0 ≤ w.game.total_players) (hp1 : w.game.total_players ≤ MAX_PLAYERS)
    (hps : w.game.players.length = MAX_PLAYERS)
    (hpg : g0.players.length = MAX_PLAYERS) :
    ((save_questions s true).file
          = some ⟨s.bank.total_questions,
              s.bank.questions.take s.bank.total_questions.toNat⟩ ∧
        ((s.bank.questions.take s.bank.total_questions.toNat).length : Int)
          = s.bank.total_questions ∧
        (load_questions b0 (save_questions s true).file).total_questions
          = s.bank.total_questions ∧
        (load_questions b0 (save_questions s true).file).questions.take
            s.bank.total_questions.toNat
          = s.bank.questions.take s.bank.total_questions.toNat ∧
        (load_questions b0 (save_questions s true).file).questions.length
          = MAX_QUESTIONS) ∧
    ((QuizC.save_players w true).players_file
          = some ⟨w.game.total_players,
              w.game.players.take w.game.total_players.toNat⟩ ∧
        ((w.game.players.take w.game.total_players.toNat).length : Int)
          = w.game.total_players ∧
        (QuizC.load_players g0 (QuizC.save_players w true).players_file).total_players
          = w.game.total_players ∧
        (QuizC.load_players g0 (QuizC.save_players w true).players_file).players.take
            w.game.total_players.toNat
          = w.game.players.take w.game.total_players.toNat ∧
        (QuizC.load_players g0 (QuizC.save_players w true).players_file).players.length
          = MAX_PLAYERS) := by
  constructor
  · have hx : s.bank.total_questions.toNat ≤ s.bank.questions.length := by omega
    have hy : s.bank.total_questions.toNat ≤ b0.questions.length := by omega
    have hl : (s.bank.questions.take s.bank.total_questions.toNat).length
        = s.bank.total_questions.toNat := by simp [List.length_take, hx]
    have hn : records_read s.bank.total_questions
        (s.bank.questions.take s.bank.total_questions.toNat).length
        = s.bank.total_questions.toNat := by
      rw [hl]; simp only [records_read]; rw [if_neg (by omega)]; simp
    refine ⟨?_, ?_, ?_, ?_, ?_⟩
    · simp [save_questions]
    · rw [hl]; omega
    · simp [save_questions, load_questions]
    · simp only [save_questions, load_questions, if_true, hn]
      exact round_trip_take _ _ _ hx hy
    · simp only [save_questions, load_questions, if_true, hn]
      rw [round_trip_length _ _ _ (by omega) hy]; exact hqb
  · have hx : w.game.total_players.toNat ≤ w.game.players.length := by omega
    have hy : w.game.total_players.toNat ≤ g0.players.length := by omega
    have hl : (w.game.players.take w.game.total_players.toNat).length
        = w.game.total_players.toNat := by simp [List.length_take, hx]
    have hn : records_read w.game.total_players
        (w.game.players.take w.game.total_players.toNat).length
        = w.game.total_players.toNat := by
      rw [hl]; simp only [records_read]; rw [if_neg (by omega)]; simp
    refine ⟨?_, ?_, ?_, ?_, ?_⟩
    · simp [QuizC.save_players]
    · rw [hl]; omega
    · simp [QuizC.save_players, QuizC.load_players]
    · simp only [QuizC.save_players, QuizC.load_players, if_true, hn]
      exact round_trip_take _ _ _ hx hy
    · simp only [QuizC.save_players, QuizC.load_players, if_true, hn]
      rw [round_trip_length _ _ _ (by omega) hy]; exact hpg

/-- Witness of C21: the sample bank of twelve questions and the sample player array with
one record, saved and loaded into zeroed arrays. -/
theorem C21_save_load_round_trip_witness :
    ((save_questions sample_store true).file
        = some ⟨12, sample_store.bank.questions.take (12 : Int).toNat⟩ ∧
      (load_questions empty_bank (save_questions sample_store true).file).total_questions
        = 12 ∧
      (load_questions empty_bank (save_questions sample_store true).file).questions.take
          (12 : Int).toNat
        = sample_store.bank.questions.take (12 : Int).toNat) ∧
    ((QuizC.load_players QuizC.empty_game
          (QuizC.save_players QuizC.sample_world true).players_file).total_players = 1 ∧
      (QuizC.load_players QuizC.empty_game
          (QuizC.save_players QuizC.sample_world true).players_file).players.take
            (1 : Int).toNat
        = QuizC.sample_world.game.players.take (1 : Int).toNat) :=
  have h := C21_save_load_round_trip sample_store empty_bank QuizC.sample_world
    QuizC.empty_game (by decide) (by decide) (by decide) (by decide) (by decide) (by decide)
    (by decide) (by decide)
  ⟨⟨h.1.1, h.1.2.2.1, h.1.2.2.2.1⟩, ⟨h.2.2.2.1, h.2.2.2.2.1⟩⟩

end Quiz

namespace Quiz

/-! ## Swaps, position by position -/

theorem swap_length {α : Type} (qs : List α) (i j : Nat) :
    (swap qs i j).length = qs.length :=
  (swap_perm qs i j).length_eq

theorem swap_getElem?_ne {α : Type} (qs : List α) (i j p : Nat) (hi : p ≠ i) (hj : p ≠ j) :
    (swap qs i j)[p]? = qs[p]? := by
  unfold swap
  split
  · rw [List.getElem?_set_ne (Ne.symm hj), List.getElem?_set_ne (Ne.symm hi)]
  · rfl

theorem swap_getElem?_left {α : Type} (qs : List α) (i j : Nat) (hi : i < qs.length)
    (hj : j < qs.length) : (swap qs i j)[i]? = qs[j]? := by
  unfold swap
  rw [List.getElem?_eq_getElem hi, List.getElem?_eq_getElem hj]
  simp only [List.getElem?_set, List.length_set]
  by_cases h : j = i
  · subst h; simp [hi]
  · simp [h, hi]

theorem swap_getElem?_right {α : Type} (qs : List α) (i j : Nat) (hi : i < qs.length)
    (hj : j < qs.length) : (swap qs i j)[j]? = qs[i]? := by
  unfold swap
  rw [List.getElem?_eq_getElem hi, List.getElem?_eq_getElem hj]
  simp [List.getElem?_set, hj]

theorem swap_map {α β : Type} (f : α → β) (qs : List α) (i j : Nat) :
    swap (qs.map f) i j = (swap qs i j).map f := by
  unfold swap
  simp only [List.getElem?_map]
  cases qs[i]? <;> cases qs[j]? <;> simp [List.map_set]

theorem apply_steps_cons {α : Type} (s : SwapStep) (steps : List SwapStep) (qs : List α) :
    apply_steps (s :: steps) qs = apply_steps steps (swap qs s.i s.j) := rfl

end Quiz

namespace QuizC
open Quiz

/-! ## `quiz.c`: the shuffle, position by position -/

theorem shuffle_loop_length {α : Type} (rand : Nat → Nat) (i k : Nat) (qs : List α) :
    (shuffle_loop rand i k qs).length = qs.length :=
  (shuffle_loop_perm rand i k qs).length_eq

theorem shuffle_loop_map {α β : Type} (f : α → β) (rand : Nat → Nat) :
    ∀ (i k : Nat) (qs : List α),
      shuffle_loop rand i k (qs.map f) = (shuffle_loop rand i k qs).map f := by
  intro i
  induction i with
  | zero => intro k qs; rfl
  | succ i ih => intro k qs; simp only [shuffle_loop, swap_map, ih]

theorem shuffle_steps_apply {α : Type} (rand : Nat → Nat) :
    ∀ (i k : Nat) (qs : List α),
      apply_steps (shuffle_steps rand i k) qs = shuffle_loop rand i k qs := by
  intro i
  induction i with
  | zero => intro k qs; rfl
  | succ i ih => intro k qs; simp only [shuffle_steps, apply_steps_cons, shuffle_loop, ih]

theorem shuffle_steps_safe (rand : Nat → Nat) :
    ∀ (i k : Nat) (s : SwapStep), s ∈ shuffle_steps rand i k →
      1 ≤ s.i ∧ s.i ≤ i ∧ s.divisor = s.i + 1 ∧ s.j < s.divisor := by
  intro i
  induction i with
  | zero => intro k s h; simp [shuffle_steps] at h
  | succ i ih =>
    intro k s h
    simp only [shuffle_steps, List.mem_cons] at h
    rcases h with h | h
    · subst h
      exact ⟨by simp, by simp, rfl, Nat.mod_lt _ (by omega)⟩
    · obtain ⟨h1, h2, h3, h4⟩ := ih _ _ h
      exact ⟨h1, by omega, h3, h4⟩

theorem shuffle_steps_indices (rand : Nat → Nat) :
    ∀ (i k : Nat), (shuffle_steps rand i k).map (fun s => s.i) = (List.range' 1 i).reverse := by
  intro i
  induction i with
  | zero => intro k; rfl
  | succ i ih =>
    intro k
    simp only [shuffle_steps, List.map_cons, ih]
    rw [List.range'_concat, List.reverse_append]
    simp [Nat.add_comm]

/-- The loop entered at `i` leaves the positions above `i` alone. -/
theorem shuffle_loop_above {α : Type} (rand : Nat → Nat) :
    ∀ (i k : Nat) (qs : List α) (p : Nat), i < p →
      (shuffle_loop rand i k qs)[p]? = qs[p]? := by
  intro i
  induction i with
  | zero => intro k qs p _; rfl
  | succ i ih =>
    intro k qs p hp
    simp only [shuffle_loop]
    rw [ih _ _ _ (by omega)]
    have hj : rand k % (i + 1 + 1) < i + 1 + 1 := Nat.mod_lt _ (by omega)
    exact swap_getElem?_ne _ _ _ _ (by omega) (by omega)

/-- The element the loop entered at `i + 1` leaves at position `i + 1`. -/
theorem shuffle_loop_top {α : Type} (rand : Nat → Nat) (i k : Nat) (qs : List α)
    (h : i + 1 < qs.length) :
    (shuffle_loop rand (i + 1) k qs)[i + 1]? = qs[rand k % (i + 1 + 1)]? := by
  simp only [shuffle_loop]
  rw [shuffle_loop_above _ _ _ _ _ (by omega)]
  have hj : rand k % (i + 1 + 1) < i + 1 + 1 := Nat.mod_lt _ (by omega)
  exact swap_getElem?_left _ _ _ h (by omega)

/-- The loop reads `rand` only through the residues `rand (k + t) % (i - t + 1)`. -/
theorem shuffle_loop_congr {α : Type} (r1 r2 : Nat → Nat) :
    ∀ (i k : Nat) (qs : List α),
      (∀ t, t < i → r1 (k + t) % (i - t + 1) = r2 (k + t) % (i - t + 1)) →
      shuffle_loop r1 i k qs = shuffle_loop r2 i k qs := by
  intro i
  induction i with
  | zero => intro k qs _; rfl
  | succ i ih =>
    intro k qs h
    simp only [shuffle_loop]
    have h0 := h 0 (by omega)
    simp only [Nat.add_zero, Nat.sub_zero] at h0
    rw [h0]
    apply ih
    intro t ht
    have := h (t + 1) (by omega)
    have e1 : k + (t + 1) = k + 1 + t := by omega
    have e2 : i + 1 - (t + 1) = i - t := by omega
    rw [e1, e2] at this
    exact this

/-- On pairwise distinct elements, equal results come from equal residues. -/
theorem shuffle_loop_inj {α : Type} (r1 r2 : Nat → Nat) :
    ∀ (i k : Nat) (qs : List α), qs.Nodup → (i < qs.length ∨ i = 0) →
      shuffle_loop r1 i k qs = shuffle_loop r2 i k qs →
      ∀ t, t < i → r1 (k + t) % (i - t + 1) = r2 (k + t) % (i - t + 1) := by
  intro i
  induction i with
  | zero => intro k qs _ _ _ t ht; omega
  | succ i ih =>
    intro k qs hnd hlen heq t ht
    have hl : i + 1 < qs.length := by omega
    have hj1 : r1 k % (i + 1 + 1) < i + 1 + 1 := Nat.mod_lt _ (by omega)
    have hj2 : r2 k % (i + 1 + 1) < i + 1 + 1 := Nat.mod_lt _ (by omega)
    have htop : qs[r1 k % (i + 1 + 1)]? = qs[r2 k % (i + 1 + 1)]? := by
      rw [← shuffle_loop_top r1 i k qs hl, ← shuffle_loop_top r2 i k qs hl, heq]
    have hj : r1 k % (i + 1 + 1) = r2 k % (i + 1 + 1) := by
      rw [List.getElem?_eq_getElem (show r1 k % (i + 1 + 1) < qs.length by omega),
        List.getElem?_eq_getElem (show r2 k % (i + 1 + 1) < qs.length by omega)] at htop
      exact (List.Nodup.getElem_inj_iff hnd).mp (Option.some.inj htop)
    cases t with
    | zero => simpa using hj
    | succ t =>
      simp only [shuffle_loop, hj] at heq
      have hnd1 : (swap qs (i + 1) (r2 k % (i + 1 + 1))).Nodup :=
        (swap_perm _ _ _).nodup_iff.mpr hnd
      have := ih (k + 1) _ hnd1 (Or.inl (by rw [swap_length]; omega)) heq t (by omega)
      have e1 : k + (t + 1) = k + 1 + t := by omega
      have e2 : i + 1 - (t + 1) = i - t := by omega
      rw [e1, e2]
      exact this

theorem perm_eq_of_tail_eq {α : Type} (l qs : List α) (hp : l.Perm qs)
    (h : ∀ p, 0 < p → l[p]? = qs[p]?) : l = qs := by
  cases l with
  | nil => exact (List.Perm.nil_eq hp)
  | cons a t =>
    cases qs with
    | nil => exact absurd hp.length_eq (by simp)
    | cons b u =>
      have ht : t = u := by
        apply List.ext_getElem?
        intro p
        simpa using h (p + 1) (by omega)
      subst ht
      have : a = b := by
        have h1 : (a ::ₘ (t : Multiset α)) = b ::ₘ (t : Multiset α) := by
          rw [Multiset.cons_coe, Multiset.cons_coe]
          exact Multiset.coe_eq_coe.mpr hp
        exact (Multiset.cons_inj_left _).mp h1
      rw [this]

/-- On pairwise distinct elements, every order that agrees with the input above position
`i` is reached by the loop entered at `i`. -/
theorem shuffle_loop_surj {α : Type} :
    ∀ (i k : Nat) (qs l : List α), qs.Nodup → (i < qs.length ∨ i = 0) → l.Perm qs →
      (∀ p, i < p → l[p]? = qs[p]?) →
      ∃ r : Nat → Nat, shuffle_loop r i k qs = l := by
  intro i
  induction i with
  | zero =>
    intro k qs l _ _ hp h
    exact ⟨fun _ => 0, (perm_eq_of_tail_eq l qs hp h).symm⟩
  | succ i ih =>
    intro k qs l hnd hlen hp h
    have hl : i + 1 < qs.length := by omega
    have hll : i + 1 < l.length := by rw [hp.length_eq]; exact hl
    have hlnd : l.Nodup := hp.nodup_iff.mpr hnd
    have hmem : l[i + 1] ∈ qs := hp.mem_iff.mp (List.getElem_mem hll)
    obtain ⟨j, hj, hjx⟩ := List.mem_iff_getElem.mp hmem
    have hji : j ≤ i + 1 := by
      by_contra hc
      have h1 := h j (by omega)
      rw [List.getElem?_eq_getElem hj, List.getElem?_eq_getElem (by rw [hp.length_eq]; exact hj),
        hjx] at h1
      have h2 := (List.Nodup.getElem_inj_iff hlnd).mp (Option.some.inj h1)
      omega
    have hnd1 : (swap qs (i + 1) j).Nodup := (swap_perm _ _ _).nodup_iff.mpr hnd
    have hagree : ∀ p, i < p → l[p]? = (swap qs (i + 1) j)[p]? := by
      intro p hp1
      by_cases hpe : p = i + 1
      · subst hpe
        rw [swap_getElem?_left _ _ _ hl hj, List.getElem?_eq_getElem hll,
          List.getElem?_eq_getElem hj, hjx]
      · rw [swap_getElem?_ne _ _ _ _ hpe (by omega)]
        exact h p (by omega)
    obtain ⟨r, hr⟩ := ih (k + 1) (swap qs (i + 1) j) l hnd1
      (Or.inl (by rw [swap_length]; omega)) (hp.trans (swap_perm _ _ _).symm) hagree
    refine ⟨fun x => if x = k then j else r x, ?_⟩
    simp only [shuffle_loop, if_true]
    rw [Nat.mod_eq_of_lt (show j < i + 1 + 1 by omega), ← hr]
    apply shuffle_loop_congr
    intro t _
    have : k + 1 + t ≠ k := by omega
    simp [this]

end QuizC

namespace MainC
open Quiz

/-! ## `main.c`: the shuffle and its trace -/

theorem main_shuffle_loop_map {α β : Type} (f : α → β) (rand : Nat → Nat) (count : Nat) :
    ∀ (n i : Nat) (qs : List α),
      shuffle_loop rand count n i (qs.map f) = (shuffle_loop rand count n i qs).map f := by
  intro n
  induction n with
  | zero => intro i qs; rfl
  | succ n ih => intro i qs; simp only [shuffle_loop, swap_map, ih]

theorem main_shuffle_steps_apply {α : Type} (rand : Nat → Nat) (count : Nat) :
    ∀ (n i : Nat) (qs : List α),
      apply_steps (shuffle_steps rand count n i) qs = shuffle_loop rand count n i qs := by
  intro n
  induction n with
  | zero => intro i qs; rfl
  | succ n ih => intro i qs; simp only [shuffle_steps, apply_steps_cons, shuffle_loop, ih]

theorem main_shuffle_steps_safe (rand : Nat → Nat) (count : Nat) (hc : count ≠ 0) :
    ∀ (n i : Nat) (s : SwapStep), s ∈ shuffle_steps rand count n i →
      i ≤ s.i ∧ s.i < i + n ∧ s.divisor = count ∧ s.j < count := by
  intro n
  induction n with
  | zero => intro i s h; simp [shuffle_steps] at h
  | succ n ih =>
    intro i s h
    simp only [shuffle_steps, List.mem_cons] at h
    rcases h with h | h
    · subst h
      exact ⟨by simp, by simp, rfl, Nat.mod_lt _ (by omega)⟩
    · obtain ⟨h1, h2, h3, h4⟩ := ih _ _ h
      exact ⟨by omega, by omega, h3, h4⟩

end MainC

namespace QuizC
open Quiz

theorem shuffle_steps_eq (rand : Nat → Nat) :
    ∀ (i k : Nat), shuffle_steps rand i k
      = (List.range i).map (fun t => ⟨i - t, i - t + 1, rand (k + t) % (i - t + 1)⟩) := by
  intro i
  induction i with
  | zero => intro k; rfl
  | succ i ih =>
    intro k
    rw [List.range_succ_eq_map]
    simp only [shuffle_steps, ih, List.map_cons, List.map_map]
    congr 1
    apply List.map_congr_left
    intro t _
    simp only [Function.comp, Nat.succ_eq_add_one, Nat.add_sub_add_right]
    have e : k + 1 + t = k + (t + 1) := by omega
    rw [e]

end QuizC

namespace Quiz

/-! ## The shuffle of `quiz.c` is a Fisher-Yates shuffle -/

/-- C22: on `n` pairwise distinct elements, `shuffle_questions` of `quiz.c` performs the
swaps of positions `i = n-1, ..., 1` with `j = rand() % (i + 1) <= i`, in this order;
two sources of random values give the same order exactly when they give the same tuple
of positions `(j_{n-1}, ..., j_1)`; and an order is reached by some tuple exactly when it
is a permutation of the array.  So the tuples of positions correspond one to one to the
permutations. -/
theorem C22_quiz_shuffle_is_fisher_yates {α : Type} (qs : List α) (hnd : qs.Nodup) :
    (∀ rand : Nat → Nat,
      QuizC.shuffle_trace qs.length rand
        = (List.range (qs.length - 1)).map (fun k =>
            ⟨qs.length - 1 - k, qs.length - 1 - k + 1,
              rand k % (qs.length - 1 - k + 1)⟩) ∧
      apply_steps (QuizC.shuffle_trace qs.length rand) qs
        = QuizC.shuffle_questions qs qs.length rand ∧
      ∀ s ∈ QuizC.shuffle_trace qs.length rand,
        1 ≤ s.i ∧ s.i < qs.length ∧ s.divisor = s.i + 1 ∧ s.j ≤ s.i) ∧
    (∀ r1 r2 : Nat → Nat,
      QuizC.shuffle_questions qs qs.length r1 = QuizC.shuffle_questions qs qs.length r2 ↔
        ∀ k, k + 1 < qs.length → r1 k % (qs.length - k) = r2 k % (qs.length - k)) ∧
    (∀ l : List α,
      l.Perm qs ↔ ∃ rand : Nat → Nat, QuizC.shuffle_questions qs qs.length rand = l) := by
  have hlen : qs.length - 1 < qs.length ∨ qs.length - 1 = 0 := by omega
  refine ⟨?_, ?_, ?_⟩
  · intro rand
    refine ⟨?_, QuizC.shuffle_steps_apply rand _ _ qs, ?_⟩
    · have h := QuizC.shuffle_steps_eq rand (qs.length - 1) 0
      simp only [Nat.zero_add] at h
      exact h
    · intro s hs
      obtain ⟨h1, h2, h3, h4⟩ := QuizC.shuffle_steps_safe rand _ _ s hs
      exact ⟨h1, by omega, h3, by omega⟩
  · intro r1 r2
    constructor
    · intro h k hk
      have := QuizC.shuffle_loop_inj r1 r2 _ 0 qs hnd hlen h k (by omega)
      have e : qs.length - 1 - k + 1 = qs.length - k := by omega
      rw [Nat.zero_add, e] at this
      exact this
    · intro h
      apply QuizC.shuffle_loop_congr
      intro t ht
      have := h t (by omega)
      have e : qs.length - 1 - t + 1 = qs.length - t := by omega
      rw [Nat.zero_add, e]
      exact this
  · intro l
    constructor
    · intro hp
      apply QuizC.shuffle_loop_surj _ 0 qs l hnd hlen hp
      intro p hp1
      rw [List.getElem?_eq_none (by rw [hp.length_eq]; omega), List.getElem?_eq_none (by omega)]
    · rintro ⟨rand, rfl⟩
      exact QuizC.shuffle_loop_perm rand _ _ qs

/-- Witness of C22: three distinct elements; the order `[30, 10, 20]` is reached. -/
theorem C22_quiz_shuffle_is_fisher_yates_witness :
    [10, 20, 30].Nodup ∧
      ∃ rand : Nat → Nat, QuizC.shuffle_questions [10, 20, 30] 3 rand = [30, 10, 20] :=
  ⟨by decide,
   ((C22_quiz_shuffle_is_fisher_yates [10, 20, 30] (by decide)).2.2 [30, 10, 20]).mp
     (by decide)⟩

end Quiz

namespace MainC
open Quiz

theorem main_shuffle_steps_nonzero (rand : Nat → Nat) (count : Nat) (s : SwapStep)
    (h : s ∈ shuffle_trace count rand) : count ≠ 0 := by
  intro hc
  subst hc
  simp [shuffle_trace, shuffle_steps] at h

end MainC

namespace Quiz

/-! ## The pool is never longer than the repository -/

theorem filter_by_difficulty_length (g : QuizC.GameState) (d : Int) :
    (QuizC.filter_by_difficulty g d).length ≤ g.total_questions.toNat := by
  unfold QuizC.filter_by_difficulty
  rw [QuizC.filter_loop_eq]
  simp only [List.nil_append]
  refine (List.length_filter_le _ _).trans ?_
  simp

theorem main_filter_by_difficulty_length (g : MainC.GameState) (d : Int) :
    (MainC.filter_by_difficulty g d).length ≤ g.total_questions.toNat := by
  unfold MainC.filter_by_difficulty
  rw [MainC.main_filter_loop_eq]
  simp only [List.nil_append]
  refine (List.length_filter_le _ _).trans ?_
  simp

set_option maxRecDepth 100000 in
/-- C30, as stated, fails in its last part: in the state left by `load_questions` on a
file whose count field is 150, the pool that `start_quiz` builds for the easy level has
150 entries in both files, the session is not refused, and `shuffle_questions` is called
with `count = 150 > MAX_QUESTIONS`; the first swap of `quiz.c` is at position 149, beyond
the `MAX_QUESTIONS` slots of the pool array. -/
theorem C30_pool_can_exceed_capacity :
    load_questions empty_bank (some ⟨150, []⟩)
      = ⟨QuizC.overfull_world.game.questions, QuizC.overfull_world.game.total_questions⟩ ∧
    load_questions empty_bank (some ⟨150, []⟩)
      = ⟨MainC.overfull_game.questions, MainC.overfull_game.total_questions⟩ ∧
    (QuizC.filter_by_difficulty QuizC.overfull_world.game 0).length = 150 ∧
    (MainC.filter_by_difficulty MainC.overfull_game 0).length = 150 ∧
    ¬ (150 ≤ MAX_QUESTIONS) ∧
    (QuizC.start_quiz QuizC.overfull_world 0 sample_rand [] true).status = Status.pending ∧
    (MainC.start_quiz MainC.overfull_game 0 sample_rand []).status = Status.pending ∧
    (QuizC.shuffle_trace 150 sample_rand).head? = some ⟨149, 150, 3⟩ ∧
    (MainC.shuffle_trace 150 sample_rand).getLast? = some ⟨149, 150, 146⟩ := by
  decide

/-- C30, amended: for every sequence of values of `rand()`, `shuffle_questions` is the
sequence of swaps of its trace, and in every iteration the divisor is not zero and both
positions lie in `[0, count)`: in `quiz.c` the divisor is `i + 1 >= 2` and
`j <= i < count`; in `main.c` the divisor is `count`, which is not zero in any iteration,
and `i, j < count`.  In `main.c` an empty pool makes `start_quiz` return before the
shuffle, whatever `rand` would give.  The `count` that `start_quiz` passes never exceeds
`total_questions`. -/
theorem C30_shuffle_index_safety (w : QuizC.World) (g : MainC.GameState) (d : Int)
    (rand : Nat → Nat) (inputs : List QuestionInput) :
    (∀ (count : Nat) (qs : List Question),
      apply_steps (QuizC.shuffle_trace count rand) qs = QuizC.shuffle_questions qs count rand ∧
      ∀ s ∈ QuizC.shuffle_trace count rand,
        s.divisor = s.i + 1 ∧ 2 ≤ s.divisor ∧ s.j < s.divisor ∧ s.j ≤ s.i ∧ s.i < count) ∧
    (∀ (count : Nat) (qs : List Nat),
      apply_steps (MainC.shuffle_trace count rand) qs = MainC.shuffle_questions qs count rand ∧
      ∀ s ∈ MainC.shuffle_trace count rand,
        s.divisor = count ∧ s.divisor ≠ 0 ∧ s.j < count ∧ s.i < count) ∧
    ((MainC.filter_by_difficulty g d).length = 0 →
      ∀ rand2 : Nat → Nat, MainC.start_quiz g d rand2 inputs = ⟨Status.refused, g, 0, []⟩) ∧
    (QuizC.filter_by_difficulty w.game d).length ≤ w.game.total_questions.toNat ∧
    (MainC.filter_by_difficulty g d).length ≤ g.total_questions.toNat := by
  refine ⟨?_, ?_, ?_, filter_by_difficulty_length w.game d,
    main_filter_by_difficulty_length g d⟩
  · intro count qs
    refine ⟨QuizC.shuffle_steps_apply rand _ _ qs, ?_⟩
    intro s hs
    obtain ⟨h1, h2, h3, h4⟩ := QuizC.shuffle_steps_safe rand _ _ s hs
    exact ⟨h3, by omega, h4, by omega, by omega⟩
  · intro count qs
    refine ⟨MainC.main_shuffle_steps_apply rand _ _ _ qs, ?_⟩
    intro s hs
    have hc := MainC.main_shuffle_steps_nonzero rand count s hs
    obtain ⟨h1, h2, h3, h4⟩ := MainC.main_shuffle_steps_safe rand count hc _ _ s hs
    exact ⟨h3, by omega, h4, by omega⟩
  · intro h rand2
    exact MainC.main_start_quiz_refused g d rand2 inputs h

/-- Witness of the amended C30: the sample states.  The hard pool of the `main.c` sample
is empty, so `start_quiz` refuses; the easy pools have at most `total_questions = 12`
entries. -/
theorem C30_shuffle_index_safety_witness :
    MainC.start_quiz MainC.sample_game 2 sample_rand [] = ⟨Status.refused, MainC.sample_game, 0, []⟩ ∧
    (QuizC.filter_by_difficulty QuizC.sample_world.game 0).length ≤ (12 : Int).toNat ∧
    (MainC.filter_by_difficulty MainC.sample_game 0).length ≤ (12 : Int).toNat :=
  ⟨(C30_shuffle_index_safety QuizC.sample_world MainC.sample_game 2 sample_rand []).2.2.1
      (by decide) sample_rand,
   (C30_shuffle_index_safety QuizC.sample_world MainC.sample_game 0 sample_rand []).2.2.2.1,
   (C30_shuffle_index_safety QuizC.sample_world MainC.sample_game 0 sample_rand []).2.2.2.2⟩

end Quiz

namespace Quiz

/-! ## No question is asked twice -/

theorem quiz_loop_results_range (cond : Nat → Bool) (current : Nat → Question) :
    ∀ (inputs : List QuestionInput) (q : Nat) (score tr : Int) (st : Nat),
      ∃ m, (quiz_loop cond current inputs q score tr st).results.map (fun r => r.question)
          = (List.range' q m).map current ∧ ∀ k, q ≤ k → k < q + m → cond k = true := by
  intro inputs
  induction inputs with
  | nil =>
    intro q score tr st
    refine ⟨0, ?_, fun k h1 h2 => by omega⟩
    simp only [quiz_loop]
    split <;> rfl
  | cons qi rest ih =>
    intro q score tr st
    simp only [quiz_loop]
    split
    · rename_i hc
      have hone : ∀ k, q ≤ k → k < q + 1 → cond k = true := by
        intro k h1 h2
        have : k = q := by omega
        rw [this]; exact hc
      split
      · exact ⟨1, by simp, hone⟩
      · split
        · exact ⟨0, by simp, fun k h1 h2 => by omega⟩
        · exact ⟨1, by simp, hone⟩
      · obtain ⟨m, h1, h2⟩ := ih (q + 1)
          (question_loop (current q).correct_option qi.start qi.frames QUESTION_TIME
            ⟨-1, false, score, []⟩).state.score
          (question_loop (current q).correct_option qi.start qi.frames QUESTION_TIME
            ⟨-1, false, score, []⟩).time_remaining qi.start
        refine ⟨m + 1, ?_, ?_⟩
        · simp only [List.map_cons, h1, List.range'_succ]
        · intro k hk1 hk2
          by_cases hk : k = q
          · rw [hk]; exact hc
          · exact h2 k (by omega) (by omega)
    · exact ⟨0, by simp, fun k h1 h2 => by omega⟩

theorem range_map_getD_comp {α β : Type} (S : List α) (f : α → β) (a0 : α) (m : Nat)
    (h : m ≤ S.length) :
    (List.range' 0 m).map (fun q => f (S.getD q a0)) = (S.take m).map f := by
  apply List.ext_getElem
  · simp [h]
  · intro i h1 h2
    simp at h1 h2 ⊢
    simp [List.getD_eq_getElem?_getD, List.getElem?_eq_getElem (show i < S.length by omega)]

theorem range_map_getD_map {α β : Type} (S : List α) (f : α → β) (b0 : β) (m : Nat)
    (h : m ≤ S.length) :
    (List.range' 0 m).map (fun q => (S.map f).getD q b0) = (S.take m).map f := by
  apply List.ext_getElem
  · simp [h]
  · intro i h1 h2
    simp at h1 h2 ⊢
    simp [List.getD_eq_getElem?_getD, List.getElem?_eq_getElem (show i < S.length by omega)]

/-- The indices below `n` whose question has difficulty `d`. -/
theorem matching_indices_nodup (qs : List Question) (d : Int) (n : Nat) :
    ((List.range' 0 n).filter
      (fun j => decide ((qs.getD j default).difficulty = d))).Nodup :=
  (List.nodup_range' 0 n).filter _

theorem prefix_bound (cond : Nat → Bool) (b m : Nat)
    (hb : ∀ k, cond k = true → k < b)
    (h : ∀ k, 0 ≤ k → k < 0 + m → cond k = true) : m ≤ b := by
  cases m with
  | zero => omega
  | succ m => have := hb m (h m (by omega) (by omega)); omega

end Quiz

namespace QuizC
open Quiz

theorem filter_by_difficulty_indices (g : GameState) (d : Int) :
    filter_by_difficulty g d
      = ((List.range' 0 g.total_questions.toNat).filter
          (fun j => decide ((g.questions.getD j default).difficulty = d))).map
            (fun j => g.questions.getD j default) := by
  unfold filter_by_difficulty
  rw [filter_loop_eq, List.nil_append, List.filter_map]
  rfl

/-- The questions a `quiz.c` session presents are the entries at the first `m` indices
of the shuffled index pool. -/
theorem run_questions_indices (g : GameState) (idx : List Nat) (rand : Nat → Nat)
    (inputs : List QuestionInput) :
    ∃ m, (run_questions g (idx.map (fun j => g.questions.getD j default)) rand
        inputs).results.map (fun r => r.question)
      = ((shuffle_questions idx idx.length rand).take m).map
          (fun j => g.questions.getD j default) := by
  rw [run_questions_eq]
  obtain ⟨m, h1, h2⟩ := quiz_loop_results_range
    (fun q => decide (q < min 10 (idx.map (fun j => g.questions.getD j default)).length))
    (fun q => (shuffle_questions (idx.map (fun j => g.questions.getD j default))
      (idx.map (fun j => g.questions.getD j default)).length rand).getD q default)
    inputs 0 0 g.time_remaining g.question_start_time
  refine ⟨m, ?_⟩
  rw [h1]
  have hm : m ≤ idx.length := by
    have := prefix_bound _ (idx.map (fun j => g.questions.getD j default)).length m
      (fun k hk => by simp only [decide_eq_true_eq, lt_min_iff] at hk; exact hk.2) h2
    simpa using this
  simp only [List.length_map, shuffle_questions, shuffle_loop_map]
  exact range_map_getD_map _ _ _ _ (by rw [shuffle_loop_length]; exact hm)

end QuizC

namespace MainC
open Quiz

theorem main_shuffle_loop_length {α : Type} (rand : Nat → Nat) (count n i : Nat)
    (qs : List α) : (shuffle_loop rand count n i qs).length = qs.length :=
  (main_shuffle_loop_perm rand count n i qs).length_eq

theorem main_filter_by_difficulty_indices (g : GameState) (d : Int) :
    filter_by_difficulty g d
      = (List.range' 0 g.total_questions.toNat).filter
          (fun j => decide ((g.questions.getD j default).difficulty = d)) := by
  unfold filter_by_difficulty
  rw [main_filter_loop_eq, List.nil_append]

/-- The questions a `main.c` session presents are the entries the first `m` pointers of
the shuffled pool point at. -/
theorem main_run_questions_indices (g : GameState) (idx : List Nat) (rand : Nat → Nat)
    (inputs : List QuestionInput) :
    ∃ m, (run_questions g idx rand inputs).results.map (fun r => r.question)
      = ((shuffle_questions idx idx.length rand).take m).map
          (fun j => g.questions.getD j default) := by
  rw [main_run_questions_eq]
  obtain ⟨m, h1, h2⟩ := quiz_loop_results_range
    (fun q => decide (q < min 10 idx.length))
    (fun q => g.questions.getD ((shuffle_questions idx idx.length rand).getD q 0) default)
    inputs 0 0 g.time_remaining g.question_start_time
  refine ⟨m, ?_⟩
  rw [h1]
  have hm : m ≤ idx.length :=
    prefix_bound _ idx.length m
      (fun k hk => by simp only [decide_eq_true_eq, lt_min_iff] at hk; exact hk.2) h2
  have hl : m ≤ (shuffle_questions idx idx.length rand).length := by
    unfold shuffle_questions; rw [main_shuffle_loop_length]; exact hm
  exact range_map_getD_comp (shuffle_questions idx idx.length rand)
    (fun j => g.questions.getD j default) 0 m hl

end MainC

namespace Quiz

/-- C29: in both files, the questions a session of `start_quiz` presents, in order, are
the repository entries at a list of pairwise distinct indices, each below
`total_questions` and of the difficulty played. -/
theorem C29_no_question_asked_twice (w : QuizC.World) (g : MainC.GameState) (d : Int)
    (rand : Nat → Nat) (inputs : List QuestionInput) (fopen_ok : Bool) :
    (∃ I : List Nat, I.Nodup ∧
      (∀ i ∈ I, (i : Int) < w.game.total_questions ∧
        (w.game.questions.getD i default).difficulty = d) ∧
      (QuizC.start_quiz w d rand inputs fopen_ok).results.map (fun r => r.question)
        = I.map (fun i => w.game.questions.getD i default)) ∧
    (∃ I : List Nat, I.Nodup ∧
      (∀ i ∈ I, (i : Int) < g.total_questions ∧
        (g.questions.getD i default).difficulty = d) ∧
      (MainC.start_quiz g d rand inputs).results.map (fun r => r.question)
        = I.map (fun i => g.questions.getD i default)) := by
  constructor
  · by_cases hc : (QuizC.filter_by_difficulty w.game d).length < QUESTIONS_PER_LEVEL
    · rw [QuizC.start_quiz_refused w d rand inputs fopen_ok hc]
      exact ⟨[], List.nodup_nil, by simp, rfl⟩
    · rw [(QuizC.start_quiz_started w d rand inputs fopen_ok hc).2.1,
        QuizC.filter_by_difficulty_indices]
      obtain ⟨m, hm⟩ := QuizC.run_questions_indices w.game
        ((List.range' 0 w.game.total_questions.toNat).filter
          (fun j => decide ((w.game.questions.getD j default).difficulty = d))) rand inputs
      have hp := QuizC.shuffle_questions_perm
        ((List.range' 0 w.game.total_questions.toNat).filter
          (fun j => decide ((w.game.questions.getD j default).difficulty = d)))
        ((List.range' 0 w.game.total_questions.toNat).filter
          (fun j => decide ((w.game.questions.getD j default).difficulty = d))).length rand
      refine ⟨_, ?_, ?_, hm⟩
      · exact (hp.nodup_iff.mpr (matching_indices_nodup _ _ _)).sublist (List.take_sublist _ _)
      · intro i hi
        have h1 := hp.mem_iff.mp (List.mem_of_mem_take hi)
        simp only [List.mem_filter, List.mem_range', decide_eq_true_eq] at h1
        obtain ⟨⟨k, hk1, hk2⟩, h3⟩ := h1
        exact ⟨by omega, h3⟩
  · by_cases hc : (MainC.filter_by_difficulty g d).length = 0
    · rw [MainC.main_start_quiz_refused g d rand inputs hc]
      exact ⟨[], List.nodup_nil, by simp, rfl⟩
    · rw [(MainC.main_start_quiz_started g d rand inputs hc).2.1]
      obtain ⟨m, hm⟩ := MainC.main_run_questions_indices g (MainC.filter_by_difficulty g d)
        rand inputs
      have hp := MainC.main_shuffle_questions_perm (MainC.filter_by_difficulty g d)
        (MainC.filter_by_difficulty g d).length rand
      refine ⟨_, ?_, ?_, hm⟩
      · rw [MainC.main_filter_by_difficulty_indices] at hp ⊢
        exact (hp.nodup_iff.mpr (matching_indices_nodup _ _ _)).sublist (List.take_sublist _ _)
      · intro i hi
        have h1 := hp.mem_iff.mp (List.mem_of_mem_take hi)
        rw [MainC.main_filter_by_difficulty_indices] at h1
        simp only [List.mem_filter, List.mem_range', decide_eq_true_eq] at h1
        obtain ⟨⟨k, hk1, hk2⟩, h3⟩ := h1
        exact ⟨by omega, h3⟩

/-- Witness of C29: the mixed sample session of `quiz.c`. -/
theorem C29_no_question_asked_twice_witness :
    ∃ I : List Nat, I.Nodup ∧
      (∀ i ∈ I, (i : Int) < QuizC.sample_world.game.total_questions ∧
        (QuizC.sample_world.game.questions.getD i default).difficulty = 0) ∧
      (QuizC.start_quiz QuizC.sample_world 0 sample_rand QuizC.mixed_inputs true).results.map
          (fun r => r.question)
        = I.map (fun i => QuizC.sample_world.game.questions.getD i default) :=
  (C29_no_question_asked_twice QuizC.sample_world MainC.sample_game 0 sample_rand
    QuizC.mixed_inputs true).1

end Quiz

namespace Quiz

/-! ## `edit_question` at a valid index -/

end Quiz

